import Mathlib

/-!
# M5stack_TheExtend: Solenoid Emulator and Typing Meter

A shallow embedding of the event-ingestion and timing core of the two
firmware programs of the repository,

* `src/Solenoidemulator/src/main.cpp` (namespace `Solenoid`), and
* `src/TypingMeter/scr/main.cpp` (namespace `TypingMeter`),

followed by theorems about them.

Conventions of the embedding.

* The global variables of a program are the fields of its `State`; a C++
  function `void f(args)` becomes `f : State → args → State`.
* `uint8_t`, `uint16_t`, `uint32_t` and `uint64_t` values are natural numbers;
  arithmetic that can wrap is reduced modulo `2^w` explicitly.  `int` values
  that the code only ever uses as non-negative array indices are natural
  numbers, other `int` values are integers.
* `millis()` and `micros()` are inputs.  A `Clock` is one reading of the two
  hardware counters; a routine that reads the time receives the reading as an
  argument, and all reads made while one routine call runs see that reading.
* Hardware FIFOs (the serial receive buffers, the I2C receive buffer) are lists
  of bytes, oldest first.
* Drawing, sound synthesis and debug printing do not change any variable the
  core reads; they are left out, except that calls of `playClick` and
  `pulseVibrationFast` are counted, and calls of `fireSolenoidByTiming`,
  `applyCPM` and `applyLayer` are logged, in fields of the state that no
  embedded routine ever reads.
-/

/-! ## Machine arithmetic -/

/-- Subtraction of two `uint32_t` values, as C++ computes it (modulo `2^32`). -/
def sub32 (a b : Nat) : Nat := (a + (4294967296 - b % 4294967296)) % 4294967296

/-- Addition of two `uint32_t` values, as C++ computes it (modulo `2^32`). -/
def add32 (a b : Nat) : Nat := (a + b) % 4294967296

/-- Conversion of a `uint32_t` value to `int32_t` (two's complement). -/
def toInt32 (n : Nat) : Int :=
  if n % 4294967296 < 2147483648 then ((n % 4294967296 : Nat) : Int)
  else ((n % 4294967296 : Nat) : Int) - 4294967296

/-- One reading of the hardware counters: `ms` is what `millis()` returns and
`us` is what `micros()` returns. -/
structure Clock where
  ms : Nat
  us : Nat
  deriving DecidableEq, Repr

/-! ## Solenoid Emulator (`src/Solenoidemulator/src/main.cpp`) -/

namespace Solenoid

/-- The enum `CommSource` (lines 25-30). -/
inductive CommSource where
  | SRC_NONE
  | SRC_USB
  | SRC_BT
  | SRC_I2C
  deriving DecidableEq, Repr

/-- The enum `AppMode` (lines 33-38). -/
inductive AppMode where
  | MODE_NONE
  | MODE_USB_BT
  | MODE_I2C
  | MODE_DEMO
  deriving DecidableEq, Repr

/-- The enum `SolenoidState` (lines 229-235). -/
inductive SolenoidState where
  | SOL_STATE_IDLE
  | SOL_STATE_NORMAL_FORWARD
  | SOL_STATE_NORMAL_BACK
  | SOL_STATE_FAST_CLICK1
  | SOL_STATE_FAST_CLICK2
  deriving DecidableEq, Repr

/-- Constant `SOL_NORMAL_STEP_INTERVAL_MS` (line 242). -/
def SOL_NORMAL_STEP_INTERVAL_MS : Nat := 3

/-- Constant `SOL_FAST_GAP_MS` (line 243). -/
def SOL_FAST_GAP_MS : Nat := 16

/-- Constant `FAST_THRESHOLD_MS` (line 244). -/
def FAST_THRESHOLD_MS : Nat := 30

/-- The global variables of the Solenoid Emulator that the core touches,
the I2C receive buffer `wire`, the level last written to the vibration motor
(`vibration`), and three observation fields: `clicks` counts calls of
`playClick`, `pulses` counts calls of `pulseVibrationFast`, and `fireLog` holds
the value of `activeSource` at each call of `fireSolenoidByTiming`. -/
structure State where
  activeSource : CommSource
  appMode : AppMode
  triggerPending : Bool
  lastReceiveUs : Nat
  lastCmd : Nat
  vibStrength : Nat
  vibEnabled : Bool
  lastFireMs : Nat
  usb_state : Nat
  vibPulsing : Bool
  vibOffAtUs : Nat
  solState : SolenoidState
  solPos : Int
  solLastStepMs : Nat
  solenoidRequest : Bool
  solenoidRequestTime : Nat
  solenoidReqCount : Nat
  wire : List Nat
  vibration : Nat
  clicks : Nat
  pulses : Nat
  fireLog : List CommSource
  deriving DecidableEq, Repr

/-- The initial values of the globals (lines 40-71, 142-143, 237-239, 349-356),
with `appMode` as chosen at startup. -/
def initState (mode : AppMode) : State :=
  { activeSource := CommSource.SRC_NONE
    appMode := mode
    triggerPending := false
    lastReceiveUs := 0
    lastCmd := 0
    vibStrength := 180
    vibEnabled := true
    lastFireMs := 0
    usb_state := 0
    vibPulsing := false
    vibOffAtUs := 0
    solState := SolenoidState.SOL_STATE_IDLE
    solPos := 0
    solLastStepMs := 0
    solenoidRequest := false
    solenoidRequestTime := 0
    solenoidReqCount := 0
    wire := []
    vibration := 0
    clicks := 0
    pulses := 0
    fireLog := [] }

/-- Routine `playClick` (lines 125-136): restarts the click sound; counted. -/
def playClick (s : State) : State :=
  { s with clicks := s.clicks + 1 }

/-- Routine `startVibrationPulseUs` (lines 145-150). -/
def startVibrationPulseUs (s : State) (c : Clock) (duration_us : Nat) : State :=
  if !s.vibEnabled then s
  else { s with vibration := s.vibStrength, vibPulsing := true,
                vibOffAtUs := add32 c.us duration_us }

/-- Routine `updateVibrationPulse` (lines 152-159); the test
`(int32_t)(micros() - vibOffAtUs) >= 0` is `toInt32 (sub32 ..) ≥ 0`. -/
def updateVibrationPulse (s : State) (c : Clock) : State :=
  if !s.vibPulsing then s
  else if 0 ≤ toInt32 (sub32 c.us s.vibOffAtUs) then
    { s with vibration := 0, vibPulsing := false }
  else s

/-- Routine `pulseVibrationFast` (lines 161-163); counted. -/
def pulseVibrationFast (s : State) (c : Clock) : State :=
  startVibrationPulseUs { s with pulses := s.pulses + 1 } c 45000

/-- Routine `startNormalSolenoid` (lines 247-252). -/
def startNormalSolenoid (s : State) (c : Clock) : State :=
  { s with solPos := 0, solState := SolenoidState.SOL_STATE_NORMAL_FORWARD,
           solLastStepMs := c.ms }

/-- Routine `startFastSolenoid` (lines 255-261). -/
def startFastSolenoid (s : State) (c : Clock) : State :=
  let s1 := pulseVibrationFast (playClick s) c
  { s1 with solState := SolenoidState.SOL_STATE_FAST_CLICK1, solLastStepMs := c.ms }

/-- Routine `updateSolenoid` (lines 264-316). -/
def updateSolenoid (s : State) (c : Clock) : State :=
  let now := c.ms
  match s.solState with
  | SolenoidState.SOL_STATE_IDLE => s
  | SolenoidState.SOL_STATE_NORMAL_FORWARD =>
    if sub32 now s.solLastStepMs ≥ SOL_NORMAL_STEP_INTERVAL_MS then
      let s1 := { s with solLastStepMs := add32 s.solLastStepMs SOL_NORMAL_STEP_INTERVAL_MS,
                         solPos := s.solPos + 5 }
      if s1.solPos ≥ 15 then
        let s2 := pulseVibrationFast (playClick { s1 with solPos := 15 }) c
        { s2 with solState := SolenoidState.SOL_STATE_NORMAL_BACK }
      else s1
    else s
  | SolenoidState.SOL_STATE_NORMAL_BACK =>
    if sub32 now s.solLastStepMs ≥ SOL_NORMAL_STEP_INTERVAL_MS then
      let s1 := { s with solLastStepMs := add32 s.solLastStepMs SOL_NORMAL_STEP_INTERVAL_MS,
                         solPos := s.solPos - 5 }
      if s1.solPos ≤ 0 then
        { s1 with solPos := 0, solState := SolenoidState.SOL_STATE_IDLE }
      else s1
    else s
  | SolenoidState.SOL_STATE_FAST_CLICK1 =>
    if sub32 now s.solLastStepMs ≥ SOL_FAST_GAP_MS then
      let s1 := pulseVibrationFast (playClick s) c
      { s1 with solState := SolenoidState.SOL_STATE_FAST_CLICK2, solLastStepMs := now }
    else s
  | SolenoidState.SOL_STATE_FAST_CLICK2 =>
    if sub32 now s.solLastStepMs ≥ SOL_FAST_GAP_MS then
      { s with solState := SolenoidState.SOL_STATE_IDLE }
    else s

/-- Routine `solenoidEffect` (lines 319-325). -/
def solenoidEffect (s : State) (c : Clock) : State :=
  startNormalSolenoid (pulseVibrationFast (playClick s) c) c

/-- Routine `solenoidFastClick` (lines 328-330). -/
def solenoidFastClick (s : State) (c : Clock) : State :=
  startFastSolenoid s c

/-- Routine `fireSolenoidByTiming` (lines 332-343); each call is logged in `fireLog`. -/
def fireSolenoidByTiming (s : State) (c : Clock) : State :=
  let nowMs := c.ms
  let deltaMs := sub32 nowMs s.lastFireMs
  let s1 := { s with lastFireMs := nowMs, fireLog := s.fireLog ++ [s.activeSource] }
  if deltaMs < FAST_THRESHOLD_MS then startFastSolenoid s1 c
  else solenoidEffect s1 c

/-- Result of `Wire.read()` converted to `uint8_t`: the oldest byte of the I2C receive
buffer, or `(uint8_t)(-1) = 255` when the buffer is empty. -/
def wireRead (s : State) : Nat × State :=
  match s.wire with
  | [] => (255, s)
  | b :: rest => (b % 256, { s with wire := rest })

/-- Routine `onReceiveEvent` (lines 358-379).  The loop
`while (Wire.available()) (void)Wire.read();` empties the receive buffer. -/
def onReceiveEvent (s : State) (numBytes : Int) (c : Clock) : State :=
  if numBytes ≤ 0 then s
  else
    let r := wireRead s
    let cmd := r.1
    let s1 := { r.2 with wire := [] }
    let s2 := { s1 with lastCmd := cmd, lastReceiveUs := c.us,
                        activeSource := CommSource.SRC_I2C }
    if cmd ≠ 0x10 then s2
    else
      let s3 := if s2.solenoidReqCount < 10
                then { s2 with solenoidReqCount := s2.solenoidReqCount + 1 } else s2
      let nowMs := c.ms
      { s3 with lastFireMs := nowMs, activeSource := CommSource.SRC_I2C,
                solenoidRequest := true, solenoidRequestTime := c.ms }

/-- The I2C peripheral receiving one write transaction: the bytes are placed in
the receive buffer and the registered handler `onReceiveEvent` is called with
their number (`Wire.onReceive(onReceiveEvent)`, line 773). -/
def i2cReceive (s : State) (bytes : List Nat) (c : Clock) : State :=
  onReceiveEvent { s with wire := bytes } (bytes.length : Int) c

/-- Routine `handleSerialByte` (lines 506-547). -/
def handleSerialByte (s : State) (b : Nat) (src : CommSource) (c : Clock) : State :=
  let s0 := { s with activeSource := src }
  match s0.usb_state with
  | 0 =>
    if b = 0x01 then { s0 with usb_state := 1 }
    else if b = 0x02 then { s0 with usb_state := 3 }
    else if b = 0x10 ∨ b = 0x11 then fireSolenoidByTiming s0 c
    else s0
  | 1 => { s0 with usb_state := 2 }
  | 2 => { s0 with usb_state := 0 }
  | 3 => { s0 with usb_state := 0 }
  | _ => { s0 with usb_state := 0 }

/-- One of the two `while (X.available() > 0) { b = X.read(); handleSerialByte(b, src); }`
loops of `pollSerialInputs`: every readable byte of the transport `src` is
read (as `uint8_t`) and handled, oldest first; each byte comes with the clock
reading at the time it is handled. -/
def drainSerial (s : State) (src : CommSource) (rx : List (Nat × Clock)) : State :=
  rx.foldl (fun st e => handleSerialByte st (e.1 % 256) src e.2) s

/-- Routine `pollSerialInputs` (lines 554-566): first all readable USB bytes, then all
readable BT bytes. -/
def pollSerialInputs (s : State) (usb bt : List (Nat × Clock)) : State :=
  drainSerial (drainSerial s CommSource.SRC_USB usb) CommSource.SRC_BT bt

/-- The part of `loop` (lines 811-908) that belongs to the core: the engine
tick and the vibration tick (lines 823-824), the drain of the I2C request flag
(lines 826-829) and the serial poll in USB/BT mode (lines 839-842).  Battery,
indicator drawing, the settings screen and the buttons are left out. -/
def loop (s : State) (c : Clock) (usb bt : List (Nat × Clock)) : State :=
  let s1 := updateSolenoid s c
  let s2 := updateVibrationPulse s1 c
  let s3 := if s2.solenoidRequest
            then fireSolenoidByTiming { s2 with solenoidRequest := false } c
            else s2
  if s3.appMode = AppMode.MODE_USB_BT then pollSerialInputs s3 usb bt else s3

/-- Successive calls of `pollSerialInputs`; each element of `ps` holds the USB
bytes and the BT bytes readable during one call. -/
def pollMany (s : State) (ps : List (List (Nat × Clock) × List (Nat × Clock))) : State :=
  ps.foldl (fun st p => pollSerialInputs st p.1 p.2) s

/-- The fire events dispatched between the states `s` and `t` of one run: the
entries that `t.fireLog` has after those of `s.fireLog`. -/
def firesSince (s t : State) : List CommSource :=
  t.fireLog.drop s.fireLog.length

/-- The byte values of a list of received bytes, as `uint8_t`. -/
def rxBytes (rx : List (Nat × Clock)) : List Nat :=
  rx.map (fun e => e.1 % 256)

/-- The USB bytes of a sequence of polls, in arrival order. -/
def usbStream : List (List (Nat × Clock) × List (Nat × Clock)) → List (Nat × Clock)
  | [] => []
  | p :: ps => p.1 ++ usbStream ps

/-- The BT bytes of a sequence of polls, in arrival order. -/
def btStream : List (List (Nat × Clock) × List (Nat × Clock)) → List (Nat × Clock)
  | [] => []
  | p :: ps => p.2 ++ btStream ps

/-- The protocol table of the wire format (comment at lines 66-70): a byte
sequence is framed when it is a concatenation of complete frames
`[0x01, a, b]`, `[0x02, a]` or a single byte other than `0x01` and `0x02`
(the fire bytes `0x10`, `0x11`, or an unrecognised byte). -/
def framed : List Nat → Bool
  | [] => true
  | b :: rest =>
    if b = 0x01 then
      match rest with
      | _ :: _ :: rest2 => framed rest2
      | _ => false
    else if b = 0x02 then
      match rest with
      | _ :: rest2 => framed rest2
      | [] => false
    else framed rest

/-- The number of fire frames (`[0x10]` or `[0x11]`) in a byte sequence read
frame by frame according to the protocol table. -/
def fireFrames : List Nat → Nat
  | [] => 0
  | b :: rest =>
    if b = 0x01 then
      match rest with
      | _ :: _ :: rest2 => fireFrames rest2
      | _ => 0
    else if b = 0x02 then
      match rest with
      | _ :: rest2 => fireFrames rest2
      | [] => 0
    else (if b = 0x10 ∨ b = 0x11 then 1 else 0) + fireFrames rest

/-- Successive calls of `updateSolenoid`, one per iteration of `loop`, with the
clock readings `cs`, while no fire arrives. -/
def updateSolenoidMany (s : State) (cs : List Clock) : State :=
  cs.foldl updateSolenoid s

/-- Phase `p` (0 to 6) of a NORMAL sequence started at `m` ms in a state with
`k` clicks and `j` pulses counted: phases 0, 1, 2 are NormalForward at
positions 0, 5, 10 (one click so far), phases 3, 4, 5 are NormalBack at
positions 15, 10, 5 (two clicks), phase 6 is Idle at position 0; in phase `p`
the step timestamp is `m + 3 p` as `uint32_t`. -/
def normalPhase (k j m p : Nat) (t : State) : Prop :=
  p ≤ 6
    ∧ t.solState = (if p < 3 then SolenoidState.SOL_STATE_NORMAL_FORWARD
                    else if p < 6 then SolenoidState.SOL_STATE_NORMAL_BACK
                    else SolenoidState.SOL_STATE_IDLE)
    ∧ t.solPos = (if p ≤ 3 then 5 * (p : Int) else 30 - 5 * (p : Int))
    ∧ t.solLastStepMs % 4294967296 = (m + 3 * p) % 4294967296
    ∧ t.clicks = k + (if p < 3 then 1 else 2)
    ∧ t.pulses = j + (if p < 3 then 1 else 2)

/-- A frame of the wire format (comment at lines 66-70): `[0x01, a, b]`,
`[0x02, a]`, `[0x10]` (strong = false) or `[0x11]` (strong = true), or a single
other byte. -/
inductive Frame where
  | cpm (a b : Nat)
  | layer (a : Nat)
  | fire (strong : Bool)
  | other (b : Nat)
  deriving DecidableEq, Repr

/-- The bytes of one frame. -/
def frameBytes : Frame → List Nat
  | Frame.cpm a b => [0x01, a, b]
  | Frame.layer a => [0x02, a]
  | Frame.fire strong => [if strong then 0x11 else 0x10]
  | Frame.other b => [b]

/-- The bytes of a sequence of frames. -/
def framesBytes : List Frame → List Nat
  | [] => []
  | f :: fs => frameBytes f ++ framesBytes fs

/-- A frame is proper when its single byte, if it is an `other` frame, is
unrecognised, i.e. none of `0x01`, `0x02`, `0x10`, `0x11`. -/
def properFrame : Frame → Bool
  | Frame.other b => decide (b ≠ 0x01 ∧ b ≠ 0x02 ∧ b ≠ 0x10 ∧ b ≠ 0x11)
  | _ => true

/-- The number of fire frames of a sequence of frames. -/
def fireCount : List Frame → Nat
  | [] => 0
  | Frame.fire _ :: fs => 1 + fireCount fs
  | _ :: fs => fireCount fs

/-- A call of one of the three routines that change the engine state. -/
inductive EngineCall where
  | effect (c : Clock)
  | fast (c : Clock)
  | tick (c : Clock)
  deriving DecidableEq, Repr

/-- The routine an `EngineCall` stands for: `solenoidEffect`,
`startFastSolenoid` or `updateSolenoid`, at the given clock reading. -/
def engineCall (s : State) : EngineCall → State
  | EngineCall.effect c => solenoidEffect s c
  | EngineCall.fast c => startFastSolenoid s c
  | EngineCall.tick c => updateSolenoid s c

/-- A sequence of engine calls, oldest first. -/
def engineCalls (s : State) (ops : List EngineCall) : State :=
  ops.foldl engineCall s

/-- The clock reading at the true time `e.1` milliseconds since power-on:
`millis()` returns the time modulo `2^32`; `e.2` is the `micros()` reading. -/
def clockAt (e : Nat × Nat) : Clock :=
  { ms := e.1 % 4294967296, us := e.2 }

/-- Successive `updateSolenoid` ticks at the true times `es`. -/
def tickAt (s : State) (es : List (Nat × Nat)) : State :=
  updateSolenoidMany s (es.map clockAt)

/-- The events `es` are spaced by at least `gap` ms: the first comes at least
`gap` ms after the time `P`, each later one at least `gap` ms after the one
before it. -/
def spaced (gap : Nat) : Nat → List (Nat × Nat) → Bool
  | _, [] => true
  | P, e :: es => decide (P + gap ≤ e.1) && spaced gap e.1 es

/-- The time of the last of the events `es`, or `P` when there is none. -/
def lastTime : Nat → List (Nat × Nat) → Nat
  | P, [] => P
  | _, e :: es => lastTime e.1 es

/-- The number of due `updateSolenoid` ticks that separate an engine state from
Idle. -/
def engineSteps (t : State) : Nat :=
  match t.solState with
  | SolenoidState.SOL_STATE_IDLE => 0
  | SolenoidState.SOL_STATE_FAST_CLICK2 => 1
  | SolenoidState.SOL_STATE_FAST_CLICK1 => 2
  | SolenoidState.SOL_STATE_NORMAL_BACK =>
    if t.solPos ≤ 5 then 1 else if t.solPos ≤ 10 then 2 else 3
  | SolenoidState.SOL_STATE_NORMAL_FORWARD =>
    if 10 ≤ t.solPos then 4 else if 5 ≤ t.solPos then 5 else 6

/-- The engine invariant used for the return to Idle, for a sequence started at
the true time `T0` whose latest call came at the true time `P`: in
NormalForward the position is not negative, in NormalBack it is at most 15, and
outside Idle the step timestamp `solLastStepMs` is the `millis()` reading of a
true time between `T0` and `P`. -/
def engineInv (T0 P : Nat) (t : State) : Prop :=
  (t.solState = SolenoidState.SOL_STATE_NORMAL_FORWARD → 0 ≤ t.solPos)
    ∧ (t.solState = SolenoidState.SOL_STATE_NORMAL_BACK → t.solPos ≤ 15)
    ∧ (t.solState ≠ SolenoidState.SOL_STATE_IDLE →
        ∃ L, T0 ≤ L ∧ L ≤ P ∧ t.solLastStepMs % 4294967296 = L % 4294967296)

/-- The calls of `handleSerialByte` made by successive calls of
`pollSerialInputs`, in order: each byte with the source it is read from (in
each call first the USB bytes, then the BT bytes). -/
def handledBytes :
    List (List (Nat × Clock) × List (Nat × Clock)) → List (CommSource × (Nat × Clock))
  | [] => []
  | p :: ps =>
    p.1.map (fun e => (CommSource.SRC_USB, e))
      ++ (p.2.map (fun e => (CommSource.SRC_BT, e)) ++ handledBytes ps)

/-- Successive calls of `handleSerialByte`, one per received byte, each with
the source of the byte and the clock reading at the time of the call. -/
def handleMany (s : State) (es : List (CommSource × (Nat × Clock))) : State :=
  es.foldl (fun st e => handleSerialByte st (e.2.1 % 256) e.1 e.2.2) s

/-- The bytes of the source `src` among the handled bytes, in order. -/
def sourceStream (src : CommSource) (es : List (CommSource × (Nat × Clock))) :
    List (Nat × Clock) :=
  (es.filter (fun e => decide (e.1 = src))).map (fun e => e.2)

/-- The number of body bytes that follow the header byte `b` in the wire
format (comment at lines 66-70): two after `0x01`, one after `0x02`, none
after any other byte. -/
def bodyLength (b : Nat) : Nat :=
  if b = 0x01 then 2 else if b = 0x02 then 1 else 0

/-- No source switch inside a frame: reading the handled bytes frame by frame
according to the wire format, with `k` body bytes of the open frame of source
`owner` still to come, every body byte comes from the source that sent the
header of its frame.  (A frame may be split over several polls, and the last
frame may be incomplete.) -/
def noSwitchInFrame : Nat → CommSource → List (CommSource × (Nat × Clock)) → Bool
  | _, _, [] => true
  | 0, _, e :: rest => noSwitchInFrame (bodyLength (e.2.1 % 256)) e.1 rest
  | k + 1, owner, e :: rest => decide (e.1 = owner) && noSwitchInFrame k owner rest

/-- The relation between the shared decoder state of `m` and the decoder
states of the runs `dec x` in which each source `x` is decoded on its own,
when `k` body bytes of the open frame of source `owner` are still to come:
with no open frame all decoders are in AwaitHeader; inside a frame the shared
decoder and the one of `owner` are in the same body state and all others are
in AwaitHeader. -/
def frameInv (k : Nat) (owner : CommSource) (m : State) (dec : CommSource → State) : Prop :=
  (k = 0 → m.usb_state = 0 ∧ ∀ x, (dec x).usb_state = 0)
    ∧ (0 < k → k ≤ 2 ∧ m.usb_state ≠ 0 ∧ (m.usb_state = 1 ↔ k = 2)
        ∧ (dec owner).usb_state = m.usb_state
        ∧ ∀ x, x ≠ owner → (dec x).usb_state = 0)

end Solenoid

/-! ## Typing Meter (`src/TypingMeter/scr/main.cpp`) -/

namespace TypingMeter

/-- The enum `CommSource` (lines 18-23). -/
inductive CommSource where
  | SRC_NONE
  | SRC_USB
  | SRC_BT
  | SRC_I2C
  deriving DecidableEq, Repr

/-- The enum `AppMode` (lines 26-31). -/
inductive AppMode where
  | MODE_NONE
  | MODE_USB_BT
  | MODE_I2C
  | MODE_DEMO
  deriving DecidableEq, Repr

/-- The enum `DisplayMode` (line 95). -/
inductive DisplayMode where
  | MODE_METER
  | MODE_LOG
  deriving DecidableEq, Repr

/-- The enum `ShiftMode` (line 683). -/
inductive ShiftMode where
  | SHIFT_P
  | SHIFT_R
  | SHIFT_N
  | SHIFT_D
  | SHIFT_M
  deriving DecidableEq, Repr

/-- A logged call of one of the two command handlers, with the argument the
caller passed. -/
inductive Call where
  | applyCPM (cpm : Nat)
  | applyLayer (layer : Nat)
  deriving DecidableEq, Repr

/-- Constant `VALUE_MAX` (line 41). -/
def VALUE_MAX : Nat := 2000

/-- The global variables of the Typing Meter that the core touches, the level
last written to the vibration motor (`vibration`), the keys present in the
persistent store `prefs`, and the observation field `calls`, which logs every
call of `applyCPM` and `applyLayer`. -/
structure State where
  appMode : AppMode
  displayMode : DisplayMode
  activeSource : CommSource
  targetValue : Nat
  prevValue : Nat
  lastActivityTime : Nat
  lastCPMTime : Nat
  cpmHistory : List Int
  historyIndex : Nat
  sumValue : Nat
  sampleCount : Int
  maxCPM : Nat
  totalKeystrokes : Nat
  sumCPM : Nat
  countCPM : Nat
  logAvgCPM : Int
  isReplaying : Bool
  replayStartTime : Nat
  replayFrameIndex : Int
  activeLayer : Int
  currentShift : ShiftMode
  targetShift : ShiftMode
  lastShiftAnim : Nat
  lastLayerChange : Nat
  vibrationEnabled : Bool
  vibration : Nat
  prefs : List (String × Nat)
  usb_state : Nat
  usb_lsb : Nat
  usb_msb : Nat
  calls : List Call
  deriving DecidableEq, Repr

/-- The initial values of the globals (lines 33-34, 52-64, 78-79, 88, 96, 117,
144, 163, 684-686, 770, 2224-2226); the array `cpmHistory[300]` is
zero-initialised. -/
def initState : State :=
  { appMode := AppMode.MODE_I2C
    displayMode := DisplayMode.MODE_METER
    activeSource := CommSource.SRC_NONE
    targetValue := 0
    prevValue := 0
    lastActivityTime := 0
    lastCPMTime := 0
    cpmHistory := List.replicate 300 0
    historyIndex := 0
    sumValue := 0
    sampleCount := 0
    maxCPM := 0
    totalKeystrokes := 0
    sumCPM := 0
    countCPM := 0
    logAvgCPM := 0
    isReplaying := false
    replayStartTime := 0
    replayFrameIndex := 0
    activeLayer := 0
    currentShift := ShiftMode.SHIFT_P
    targetShift := ShiftMode.SHIFT_P
    lastShiftAnim := 0
    lastLayerChange := 0
    vibrationEnabled := true
    vibration := 0
    prefs := []
    usb_state := 0
    usb_lsb := 0
    usb_msb := 0
    calls := [] }

/-- Routine `pulseVibration` (lines 167-172): the motor is switched on, the routine
waits, and the motor is switched off. -/
def pulseVibration (s : State) (_level _duration : Int) : State :=
  if !s.vibrationEnabled then s
  else { s with vibration := 0 }

/-- Routine `applyCPM` (lines 351-382); `now` is the value of `millis()`. -/
def applyCPM (s : State) (now : Nat) (cpm0 : Nat) : State :=
  let s0 := { s with calls := s.calls ++ [Call.applyCPM cpm0] }
  let cpm := if cpm0 > VALUE_MAX then VALUE_MAX else cpm0
  let s1 := { s0 with targetValue := cpm, lastActivityTime := now }
  let s2 := if s1.appMode = AppMode.MODE_USB_BT then { s1 with lastCPMTime := now } else s1
  let s3 := if cpm > 0 then
              { s2 with sumCPM := (s2.sumCPM + cpm) % 4294967296,
                        countCPM := (s2.countCPM + 1) % 4294967296,
                        totalKeystrokes := (s2.totalKeystrokes + cpm / 60) % 18446744073709551616 }
            else s2
  let s4 := if cpm > s3.maxCPM then { s3 with maxCPM := cpm } else s3
  { s4 with cpmHistory := s4.cpmHistory.set s4.historyIndex (cpm : Int),
            historyIndex := (s4.historyIndex + 1) % 300 }

/-- Routine `getMovingAverageCPM` (lines 425-427); the `uint32_t` quotient is
returned as `int`. -/
def getMovingAverageCPM (s : State) : Int :=
  if s.countCPM > 0 then toInt32 (s.sumCPM / s.countCPM) else 0

/-- The assignments of `drawLogScreen` (lines 431-469); the rest is drawing. -/
def drawLogScreen (s : State) (now : Nat) : State :=
  { s with logAvgCPM := getMovingAverageCPM s, isReplaying := true,
           replayStartTime := now, replayFrameIndex := 0 }

/-- Routine `changeShift` (lines 764-768). -/
def changeShift (s : State) (now : Nat) (next : ShiftMode) : State :=
  if next ≠ s.currentShift then { s with targetShift := next, lastShiftAnim := now }
  else s

/-- Routine `setActiveLayer` (lines 772-786). -/
def setActiveLayer (s : State) (now : Nat) (newLayer : Int) : State :=
  if newLayer = s.activeLayer then s
  else
    let s1 := { s with activeLayer := newLayer, lastLayerChange := now }
    match newLayer with
    | 0 => changeShift s1 now ShiftMode.SHIFT_P
    | 1 => changeShift s1 now ShiftMode.SHIFT_R
    | 2 => changeShift s1 now ShiftMode.SHIFT_N
    | 3 => changeShift s1 now ShiftMode.SHIFT_D
    | 4 => changeShift s1 now ShiftMode.SHIFT_M
    | _ => s1

/-- Routine `applyLayer` (lines 790-800). -/
def applyLayer (s : State) (now : Nat) (layer : Nat) : State :=
  let s0 := { s with calls := s.calls ++ [Call.applyLayer layer] }
  if layer > 4 then s0
  else
    let s1 := setActiveLayer s0 now (layer : Int)
    { s1 with activeSource :=
        if s1.appMode = AppMode.MODE_I2C then CommSource.SRC_I2C
        else if s1.appMode = AppMode.MODE_USB_BT then CommSource.SRC_USB
        else CommSource.SRC_NONE }

/-- Call `prefs.remove(key)`: the key is deleted from the persistent store. -/
def prefsRemove (s : State) (key : String) : State :=
  { s with prefs := s.prefs.filter (fun kv => kv.1 ≠ key) }

/-- Routine `resetStats` (lines 2155-2192); `now` is the value of `millis()` after the
two one-second delays and the vibration pulse. -/
def resetStats (s : State) (now : Nat) : State :=
  let s1 := { s with totalKeystrokes := 0, maxCPM := 0, sumValue := 0, sampleCount := 0,
                     cpmHistory := List.replicate 300 0, historyIndex := 0 }
  let s2 := prefsRemove (prefsRemove (prefsRemove (prefsRemove s1 "totalKeystrokes") "maxCPM")
              "sumValue") "sampleCount"
  let s3 := pulseVibration s2 150 300
  if s3.displayMode = DisplayMode.MODE_LOG then drawLogScreen s3 now
  else changeShift s3 now ShiftMode.SHIFT_M

/-- The body of the `while` loop of `processUSBSerial` (lines 2231-2270) for
one byte `b` read from `Serial`. -/
def processUSBSerial_byte (s : State) (now : Nat) (b : Nat) : State :=
  match s.usb_state with
  | 0 =>
    if b = 0x01 then { s with usb_state := 1 }
    else if b = 0x02 then { s with usb_state := 3 }
    else s
  | 1 => { s with usb_lsb := b, usb_state := 2 }
  | 2 =>
    let s1 := { s with usb_msb := b }
    let cpm := ((s1.usb_msb <<< 8) ||| s1.usb_lsb) % 65536
    let s2 := applyCPM s1 now cpm
    { s2 with activeSource := CommSource.SRC_USB, usb_state := 0 }
  | 3 =>
    let s1 := applyLayer s now b
    { s1 with activeSource := CommSource.SRC_USB, usb_state := 0 }
  | _ => s

/-- Routine `processUSBSerial` (lines 2228-2272): every byte readable on `Serial`
(`rx`, oldest first) is read as `uint8_t` and run through the state machine. -/
def processUSBSerial (s : State) (now : Nat) (rx : List Nat) : State :=
  rx.foldl (fun st b => processUSBSerial_byte st now (b % 256)) s

/-- The `while` loop of `processBTSerial` (lines 2281-2299) on the receive
buffer `rx` of `SerialBT` (oldest byte first); the result is the new state and
the bytes left unread in the buffer. -/
def processBTSerial_loop (s : State) (now : Nat) : List Nat → State × List Nat
  | [] => (s, [])
  | cmd :: rest =>
    if cmd % 256 = 0x01 then
      match rest with
      | lsb :: msb :: rest2 =>
        let cpm := ((((msb % 256) <<< 8) % 65536) ||| (lsb % 256)) % 65536
        let s1 := applyCPM s now cpm
        processBTSerial_loop { s1 with activeSource := CommSource.SRC_BT } now rest2
      | _ => (s, rest)
    else if cmd % 256 = 0x02 then
      match rest with
      | layer :: rest2 =>
        let s1 := applyLayer s now (layer % 256)
        processBTSerial_loop { s1 with activeSource := CommSource.SRC_BT } now rest2
      | [] => (s, rest)
    else processBTSerial_loop s now rest

/-- Routine `processBTSerial` (lines 2278-2300); `hasClient` is `SerialBT.hasClient()`
and `rx` the receive buffer of `SerialBT`. -/
def processBTSerial (s : State) (now : Nat) (hasClient : Bool) (rx : List Nat) :
    State × List Nat :=
  if !hasClient then (s, rx) else processBTSerial_loop s now rx

/-- One BT poll preceded by the arrival of `arrived` behind the bytes `rx`
still unread from earlier polls. -/
def btPoll (p : State × List Nat) (now : Nat) (arrived : List Nat) : State × List Nat :=
  processBTSerial p.1 now true (p.2 ++ arrived)

/-- Successive calls of `applyCPM`; each element of `xs` is the clock reading
and the argument of one call. -/
def applyCPMs (s : State) (xs : List (Nat × Nat)) : State :=
  xs.foldl (fun st x => applyCPM st x.1 x.2) s

/-- The shift position that `setActiveLayer` selects for layer `n`
(lines 779-785). -/
def shiftOfLayer (n : Nat) : ShiftMode :=
  match n with
  | 0 => ShiftMode.SHIFT_P
  | 1 => ShiftMode.SHIFT_R
  | 2 => ShiftMode.SHIFT_N
  | 3 => ShiftMode.SHIFT_D
  | _ => ShiftMode.SHIFT_M

/-- Result of `Wire.read()` converted to `uint8_t` on the I2C receive buffer
`wire`: the oldest byte and the rest of the buffer, or `(uint8_t)(-1) = 255`
when the buffer is empty. -/
def wireRead (wire : List Nat) : Nat × List Nat :=
  match wire with
  | [] => (255, [])
  | b :: rest => (b % 256, rest)

/-- Routine `receiveEvent` (lines 2198-2218) on the I2C receive buffer `wire`;
the result is the new state and the bytes left unread in the buffer. -/
def receiveEvent (s : State) (now : Nat) (bytes : Int) (wire : List Nat) :
    State × List Nat :=
  if bytes < 1 then (s, wire)
  else
    let r := wireRead wire
    let cmd := r.1
    let bytes1 := bytes - 1
    if cmd = 0x01 ∧ bytes1 ≥ 2 then
      let rh := wireRead r.2
      let rl := wireRead rh.2
      let high := rh.1
      let low := rl.1
      let newValue := ((high <<< 8) ||| low) % 65536
      let s1 := applyCPM s now newValue
      ({ s1 with activeSource := CommSource.SRC_I2C }, rl.2)
    else if cmd = 0x02 ∧ bytes1 ≥ 1 then
      let rl := wireRead r.2
      let layer := rl.1
      let s1 := applyLayer s now layer
      ({ s1 with activeSource := CommSource.SRC_I2C }, rl.2)
    else (s, r.2)

/-- The I2C peripheral receiving one write transaction: the bytes `data` are
placed in the receive buffer and the registered handler `receiveEvent` is
called with their number. -/
def i2cReceive (s : State) (now : Nat) (data : List Nat) : State × List Nat :=
  receiveEvent s now (data.length : Int) data

/-- The samples that enter the average: the arguments of a sequence of
`applyCPM` calls, clamped to `VALUE_MAX`, without the zero samples. -/
def nonzeroSamples (xs : List (Nat × Nat)) : List Nat :=
  (xs.map (fun x => min x.2 VALUE_MAX)).filter (fun v => decide (0 < v))

/-- Constant `SHIFT_ANIM_DURATION` (line 687), in ms. -/
def SHIFT_ANIM_DURATION : Nat := 300

/-- The assignment of `drawShiftIndicator` (lines 725-762); the rest is
drawing.  The animation progress `t = min(1.0f, (millis() - lastShiftAnim) /
(float)SHIFT_ANIM_DURATION)` is the exact quotient here, and the test
`t >= 0.05f` is `t ≥ 1/20`: the `float` division is correctly rounded and
`0.05f` is the `float` nearest to `15/300`, so both tests hold exactly for an
elapsed time of at least 15 ms. -/
def drawShiftIndicator (s : State) (now : Nat) : State :=
  let t : ℚ := min 1 ((sub32 now s.lastShiftAnim : ℚ) / (SHIFT_ANIM_DURATION : ℚ))
  if t ≥ (1 / 20 : ℚ) ∧ s.currentShift ≠ s.targetShift then
    { s with currentShift := s.targetShift }
  else s

/-- Constant `NEEDLE_STEP` (line 42). -/
def NEEDLE_STEP : Nat := 2

/-- The needle-following step of `loop` (lines 2852-2865); `displayedValue` is
a `uint16_t`, so the addition and the subtraction of `speed` are modulo
`2^16`. -/
def loopNeedle (s : State) : State :=
  let speed := if s.appMode = AppMode.MODE_USB_BT then NEEDLE_STEP * 3 else NEEDLE_STEP
  if s.displayMode = DisplayMode.MODE_METER then
    let displayedValue := s.prevValue
    let displayedValue :=
      if displayedValue < s.targetValue then (displayedValue + speed) % 65536
      else if displayedValue > s.targetValue then (displayedValue + 65536 - speed) % 65536
      else displayedValue
    { s with prevValue := displayedValue }
  else s

/-- Successive iterations of `loop`, as far as the needle is concerned: before
each iteration `targetValue` has the next value of `targets`. -/
def needleRun (s : State) (targets : List Nat) : State :=
  targets.foldl (fun st tv => loopNeedle { st with targetValue := tv }) s

end TypingMeter

/-! ## Theorems: machine arithmetic -/

theorem sub32_of_le (a b : Nat) (hb : b ≤ a) (ha : a < 4294967296) : sub32 a b = a - b := by
  unfold sub32
  omega

theorem usb_combine (lsb msb : Nat) (hl : lsb < 256) (hm : msb < 256) :
    ((msb <<< 8) ||| lsb) % 65536 = msb * 256 + lsb := by
  have h := Nat.mul_add_lt_is_or (i := 8) (b := lsb) (by simpa using hl) msb
  rw [Nat.shiftLeft_eq, Nat.mul_comm, ← h]
  norm_num
  omega

namespace TypingMeter

/-! ## Theorems: Typing Meter USB decoder -/

theorem applyCPM_calls (s : State) (now v : Nat) :
    (applyCPM s now v).calls = s.calls ++ [Call.applyCPM v] := by
  simp only [applyCPM]
  split_ifs <;> rfl

theorem applyCPM_usb_state (s : State) (now v : Nat) :
    (applyCPM s now v).usb_state = s.usb_state := by
  simp only [applyCPM]
  split_ifs <;> rfl

/-- C1: for all bytes `lsb`, `msb`, feeding `[0x01, lsb, msb]` to
`processUSBSerial` in AwaitHeader (`usb_state = 0`) calls `applyCPM` exactly
once, with the value `msb * 256 + lsb` (the call log grows by that one entry,
and the new state is the one `applyCPM` returns for that argument, with the
source indicator set to USB), and leaves the decoder in AwaitHeader. -/
theorem C1_usb_cpm_frame (s : State) (now lsb msb : Nat)
    (h0 : s.usb_state = 0) (hl : lsb < 256) (hm : msb < 256) :
    (processUSBSerial s now [0x01, lsb, msb]).calls
        = s.calls ++ [Call.applyCPM (msb * 256 + lsb)]
      ∧ (processUSBSerial s now [0x01, lsb, msb]).usb_state = 0
      ∧ processUSBSerial s now [0x01, lsb, msb]
        = { applyCPM { s with usb_state := 2, usb_lsb := lsb, usb_msb := msb } now
              (msb * 256 + lsb) with
            activeSource := CommSource.SRC_USB, usb_state := 0 } := by
  have e : processUSBSerial s now [0x01, lsb, msb]
        = { applyCPM { s with usb_state := 2, usb_lsb := lsb, usb_msb := msb } now
              (msb * 256 + lsb) with
            activeSource := CommSource.SRC_USB, usb_state := 0 } := by
    simp [processUSBSerial, processUSBSerial_byte, h0, Nat.mod_eq_of_lt hl,
      Nat.mod_eq_of_lt hm, usb_combine lsb msb hl hm]
  rw [e]
  exact ⟨by simp [applyCPM_calls], rfl, rfl⟩

/-- C1 at the frame `[0x01, 0x64, 0x00]` from the initial state. -/
theorem C1_usb_cpm_frame_witness :
    (processUSBSerial initState 0 [0x01, 0x64, 0x00]).calls = [Call.applyCPM 100]
      ∧ (processUSBSerial initState 0 [0x01, 0x64, 0x00]).usb_state = 0 := by
  have h := C1_usb_cpm_frame initState 0 0x64 0x00 rfl (by decide) (by decide)
  exact ⟨h.1, h.2.1⟩

end TypingMeter

namespace TypingMeter

/-! ## Theorems: averaging counters -/

theorem applyCPM_clamp (v : Nat) :
    (if v > VALUE_MAX then VALUE_MAX else v) = min v 2000 := by
  unfold VALUE_MAX
  split_ifs <;> omega

theorem applyCPM_sumCPM (s : State) (now v : Nat) :
    (applyCPM s now v).sumCPM
      = if 0 < v then (s.sumCPM + min v 2000) % 4294967296 else s.sumCPM := by
  have hp : 0 < min v 2000 ↔ 0 < v := by omega
  simp only [applyCPM, applyCPM_clamp, gt_iff_lt, hp]
  split_ifs <;> simp

theorem applyCPM_countCPM (s : State) (now v : Nat) :
    (applyCPM s now v).countCPM
      = if 0 < v then (s.countCPM + 1) % 4294967296 else s.countCPM := by
  have hp : 0 < min v 2000 ↔ 0 < v := by omega
  simp only [applyCPM, applyCPM_clamp, gt_iff_lt, hp]
  split_ifs <;> simp

/-- C5, as stated, fails: from the initial state `applyCPM(2001)` adds 2000,
not 2001, to `sumCPM`. -/
theorem C5_counterexample :
    ¬ ((applyCPM initState 0 2001).sumCPM = initState.sumCPM + 2001) := by
  decide

/-- C5, amended: `applyCPM(0)` leaves `sumCPM` and `countCPM` unchanged, and
for every `v > 0`, `applyCPM(v)` increases `countCPM` by 1 and `sumCPM` by the
clamped value `min(v, 2000)`, both as `uint32_t` counters (modulo `2^32`); so
the increase of `sumCPM` is exactly `v` when `v ≤ 2000` and the counter does
not wrap. -/
theorem C5_applyCPM_counters (s : State) (now v : Nat) :
    (applyCPM s now 0).sumCPM = s.sumCPM
      ∧ (applyCPM s now 0).countCPM = s.countCPM
      ∧ (0 < v →
          (applyCPM s now v).countCPM = (s.countCPM + 1) % 4294967296
          ∧ (applyCPM s now v).sumCPM = (s.sumCPM + min v 2000) % 4294967296
          ∧ (v ≤ 2000 → s.sumCPM + v < 4294967296 →
              (applyCPM s now v).sumCPM = s.sumCPM + v)) := by
  have h0 := applyCPM_sumCPM s now 0
  have h1 := applyCPM_countCPM s now 0
  have hs := applyCPM_sumCPM s now v
  have hc := applyCPM_countCPM s now v
  refine ⟨by simpa using h0, by simpa using h1, ?_⟩
  intro hv
  rw [if_pos hv] at hs hc
  refine ⟨hc, hs, ?_⟩
  intro h1 h2
  rw [hs, Nat.min_eq_left h1, Nat.mod_eq_of_lt h2]

/-- C5 (amended) at `v = 2001` from the initial state. -/
theorem C5_applyCPM_counters_witness :
    (applyCPM initState 0 2001).countCPM = 1 ∧ (applyCPM initState 0 2001).sumCPM = 2000 := by
  have h := (C5_applyCPM_counters initState 0 2001).2.2 (by decide)
  exact ⟨h.1, h.2.1⟩

/-! ## Theorems: resetting statistics -/

theorem resetStats_fields (s : State) (now : Nat) :
    (resetStats s now).sumCPM = s.sumCPM
      ∧ (resetStats s now).countCPM = s.countCPM
      ∧ (resetStats s now).maxCPM = 0
      ∧ (resetStats s now).totalKeystrokes = 0
      ∧ (resetStats s now).cpmHistory = List.replicate 300 0
      ∧ (resetStats s now).historyIndex = 0
      ∧ (resetStats s now).sumValue = 0
      ∧ (resetStats s now).sampleCount = 0 := by
  simp only [resetStats, prefsRemove, pulseVibration, drawLogScreen, changeShift]
  split_ifs <;> simp

/-- C6, evaluated on the code: after `applyCPM(100)` from the initial state,
`resetStats` zeroes `maxCPM`, `totalKeystrokes` and every entry of
`cpmHistory` (and the unused counters `sumValue`, `sampleCount`), but the sum
and count that `getMovingAverageCPM` reads keep their values `100` and `1`, and
`getMovingAverageCPM()` still returns 100. -/
theorem C6_resetStats_keeps_average :
    (resetStats (applyCPM initState 0 100) 0).sumCPM = 100
      ∧ (resetStats (applyCPM initState 0 100) 0).countCPM = 1
      ∧ getMovingAverageCPM (resetStats (applyCPM initState 0 100) 0) = 100
      ∧ (resetStats (applyCPM initState 0 100) 0).maxCPM = 0
      ∧ (resetStats (applyCPM initState 0 100) 0).totalKeystrokes = 0
      ∧ (∀ x ∈ (resetStats (applyCPM initState 0 100) 0).cpmHistory, x = 0)
      ∧ (resetStats (applyCPM initState 0 100) 0).sumValue = 0
      ∧ (resetStats (applyCPM initState 0 100) 0).sampleCount = 0 := by
  have h := resetStats_fields (applyCPM initState 0 100) 0
  refine ⟨by decide, by decide, by decide, h.2.2.1, h.2.2.2.1, ?_, h.2.2.2.2.2.2.1,
    h.2.2.2.2.2.2.2⟩
  intro x hx
  rw [h.2.2.2.2.1] at hx
  exact (List.mem_replicate.mp hx).2

/-! ## Theorems: layer tracker -/

theorem changeShift_activeLayer (s : State) (now : Nat) (next : ShiftMode) :
    (changeShift s now next).activeLayer = s.activeLayer := by
  unfold changeShift
  split_ifs <;> rfl

theorem setActiveLayer_activeLayer (s : State) (now : Nat) (k : Int) :
    (setActiveLayer s now k).activeLayer = k := by
  unfold setActiveLayer
  split_ifs with h
  · exact h.symm
  · dsimp only
    split <;> simp [changeShift_activeLayer]

theorem setActiveLayer_targetShift (s : State) (now n : Nat) (hn : n ≤ 4) :
    (setActiveLayer s now (n : Int)).targetShift
      = if (n : Int) = s.activeLayer then s.targetShift
        else if shiftOfLayer n ≠ s.currentShift then shiftOfLayer n else s.targetShift := by
  have hcases : n = 0 ∨ n = 1 ∨ n = 2 ∨ n = 3 ∨ n = 4 := by omega
  by_cases h : (n : Int) = s.activeLayer
  · simp only [setActiveLayer, h, if_true]
  · simp only [setActiveLayer, h, if_false]
    rcases hcases with rfl | rfl | rfl | rfl | rfl <;>
    · norm_num [changeShift, shiftOfLayer]
      split_ifs <;> rfl

/-- C7, as stated, fails: after `resetStats` from the initial state (which
moves the shift target to `SHIFT_M` while `activeLayer` stays 0),
`applyLayer(0)` returns with the target shift still `SHIFT_M`, not the shift
position of layer 0. -/
theorem C7_counterexample :
    ¬ ((applyLayer (resetStats initState 0) 1 0).activeLayer = 0
        ∧ (applyLayer (resetStats initState 0) 1 0).targetShift = shiftOfLayer 0) := by
  decide

/-- C7, amended: for every `n` in `0..4` and every prior state, after
`applyLayer(n)` `activeLayer = n` (in particular `applyLayer(4)` sets it to 4),
and `targetShift` is the shift position of `n` whenever `n` differs from the
prior `activeLayer` and its shift position differs from `currentShift`, or
`targetShift` already was that position. -/
theorem C7_applyLayer_in_range (s : State) (now n : Nat) (hn : n ≤ 4) :
    (applyLayer s now n).activeLayer = (n : Int)
      ∧ (((s.activeLayer ≠ (n : Int) ∧ shiftOfLayer n ≠ s.currentShift)
            ∨ s.targetShift = shiftOfLayer n) →
          (applyLayer s now n).targetShift = shiftOfLayer n) := by
  have hgt : ¬ n > 4 := by omega
  have ha := setActiveLayer_activeLayer
    { s with calls := s.calls ++ [Call.applyLayer n] } now (n : Int)
  have ht := setActiveLayer_targetShift
    { s with calls := s.calls ++ [Call.applyLayer n] } now n hn
  simp only [applyLayer, hgt, if_false]
  refine ⟨ha, ?_⟩
  intro h
  show (setActiveLayer _ now (n : Int)).targetShift = shiftOfLayer n
  rw [ht]
  dsimp only
  rcases h with ⟨h1, h2⟩ | h3
  · rw [if_neg (fun e => h1 e.symm), if_pos h2]
  · split_ifs <;> first | exact h3 | rfl

/-- C7 (amended) at `applyLayer(4)` from the initial state. -/
theorem C7_applyLayer_in_range_witness :
    (applyLayer initState 0 4).activeLayer = 4
      ∧ (applyLayer initState 0 4).targetShift = ShiftMode.SHIFT_M := by
  have h := C7_applyLayer_in_range initState 0 4 (by decide)
  exact ⟨h.1, h.2 (Or.inl ⟨by decide, by decide⟩)⟩

/-- C8: for every `n > 4`, `applyLayer(n)` returns the state it was called in
(only the call log grows): `activeLayer`, `targetShift`, `currentShift`,
`lastLayerChange` and `lastShiftAnim` are unchanged; the routine has no result
and no error channel. -/
theorem C8_applyLayer_out_of_range (s : State) (now n : Nat) (hn : 4 < n) :
    applyLayer s now n = { s with calls := s.calls ++ [Call.applyLayer n] }
      ∧ (applyLayer s now n).activeLayer = s.activeLayer
      ∧ (applyLayer s now n).targetShift = s.targetShift
      ∧ (applyLayer s now n).currentShift = s.currentShift
      ∧ (applyLayer s now n).lastLayerChange = s.lastLayerChange
      ∧ (applyLayer s now n).lastShiftAnim = s.lastShiftAnim := by
  have e : applyLayer s now n = { s with calls := s.calls ++ [Call.applyLayer n] } := by
    simp [applyLayer, hn]
  rw [e]
  exact ⟨rfl, rfl, rfl, rfl, rfl, rfl⟩

/-- C8 at `applyLayer(5)` from the initial state. -/
theorem C8_applyLayer_out_of_range_witness :
    (applyLayer initState 0 5).activeLayer = 0
      ∧ (applyLayer initState 0 5).targetShift = ShiftMode.SHIFT_P := by
  have h := C8_applyLayer_out_of_range initState 0 5 (by decide)
  exact ⟨h.2.1, h.2.2.1⟩

/-! ## Theorems: Typing Meter Bluetooth decoder -/

/-- C9, evaluated on the code: when the header of the frame `[0x01, 0x02, 0x03]`
(CPM 770) is readable in one poll and its two body bytes only in the next,
`processBTSerial` drops the header in the first poll and reads the body bytes
as a layer frame in the second: the only call made is `applyLayer(3)`, and
`applyCPM` is never called; with the whole frame readable in one poll the call
is `applyCPM(770)`. -/
theorem C9_split_frame_misdecoded :
    (btPoll (btPoll (initState, []) 0 [0x01]) 0 [0x02, 0x03]).1.calls = [Call.applyLayer 3]
      ∧ (btPoll (btPoll (initState, []) 0 [0x01]) 0 [0x02, 0x03]).2 = []
      ∧ (btPoll (initState, []) 0 [0x01, 0x02, 0x03]).1.calls = [Call.applyCPM 770] := by
  decide

end TypingMeter

namespace TypingMeter

/-! ## Theorems: history ring -/

theorem applyCPM_historyIndex (s : State) (now v : Nat) :
    (applyCPM s now v).historyIndex = (s.historyIndex + 1) % 300 := by
  simp only [applyCPM]
  split_ifs <;> simp

theorem applyCPM_cpmHistory (s : State) (now v : Nat) :
    (applyCPM s now v).cpmHistory
      = s.cpmHistory.set s.historyIndex ((min v 2000 : Nat) : Int) := by
  simp only [applyCPM, applyCPM_clamp]
  split_ifs <;> simp

theorem applyCPMs_snoc (s : State) (xs : List (Nat × Nat)) (x : Nat × Nat) :
    applyCPMs s (xs ++ [x]) = applyCPM (applyCPMs s xs) x.1 x.2 := by
  simp [applyCPMs, List.foldl_append]

theorem applyCPMs_ring (s : State) (h0 : s.historyIndex = 0)
    (hl : s.cpmHistory.length = 300) (xs : List (Nat × Nat)) :
    (applyCPMs s xs).historyIndex = xs.length % 300
      ∧ (applyCPMs s xs).cpmHistory.length = 300
      ∧ ∀ j x, j < xs.length → xs.length ≤ j + 300 → xs[j]? = some x →
          (applyCPMs s xs).cpmHistory[j % 300]? = some ((min x.2 2000 : Nat) : Int) := by
  induction xs using List.reverseRecOn with
  | nil =>
    refine ⟨by simpa [applyCPMs] using h0, by simpa [applyCPMs] using hl, ?_⟩
    intro j x hj
    simp at hj
  | append_singleton xs y ih =>
    obtain ⟨hi, hlen, hslots⟩ := ih
    rw [applyCPMs_snoc]
    refine ⟨?_, ?_, ?_⟩
    · rw [applyCPM_historyIndex, hi, List.length_append, List.length_singleton]
      omega
    · rw [applyCPM_cpmHistory, List.length_set, hlen]
    · intro j x hj1 hj2 hx
      rw [List.length_append, List.length_singleton] at hj1 hj2
      rw [applyCPM_cpmHistory, hi]
      by_cases hjn : j = xs.length
      · subst hjn
        rw [List.getElem?_concat_length] at hx
        cases hx
        rw [List.getElem?_set_self (by rw [hlen]; omega)]
      · have hlt : j < xs.length := by omega
        have hne : xs.length % 300 ≠ j % 300 := by omega
        rw [List.getElem?_set_ne hne]
        rw [List.getElem?_append_left hlt] at hx
        exact hslots j x hlt (by omega) hx

/-- C10: starting from a state with `historyIndex = 0` (and the 300-slot array
`cpmHistory`), after any `n` calls `applyCPM(v_1)`, ..., `applyCPM(v_n)`,
`historyIndex = n mod 300`, and for every `k` with `max(0, n - 300) < k ≤ n` the
slot `(k - 1) mod 300` of `cpmHistory` holds `min(v_k, 2000)`; so after 301
calls slot 0 holds the 301st value and slots 1..299 the values 2..300. -/
theorem C10_history_ring (s : State) (xs : List (Nat × Nat))
    (h0 : s.historyIndex = 0) (hl : s.cpmHistory.length = 300) :
    (applyCPMs s xs).historyIndex = xs.length % 300
      ∧ ∀ k v : Nat, max 0 ((xs.length : Int) - 300) < (k : Int) → k ≤ xs.length →
          (xs.map Prod.snd)[k - 1]? = some v →
          (applyCPMs s xs).cpmHistory[(k - 1) % 300]? = some ((min v 2000 : Nat) : Int) := by
  obtain ⟨hi, _, hslots⟩ := applyCPMs_ring s h0 hl xs
  refine ⟨hi, ?_⟩
  intro k v hk1 hk2 hv
  rw [List.getElem?_map] at hv
  cases hx : xs[k - 1]? with
  | none => rw [hx] at hv; simp at hv
  | some x =>
    rw [hx] at hv
    simp only [Option.map_some', Option.some.injEq] at hv
    subst hv
    exact hslots (k - 1) x (by omega) (by omega) hx

/-- C10 at 301 calls from the initial state, with the values 1, 2, ..., 301:
the index is 1, slot 0 holds the 301st value and slot 1 the second. -/
theorem C10_history_ring_witness :
    (applyCPMs initState ((List.range 301).map (fun i => (0, i + 1)))).historyIndex = 1
      ∧ (applyCPMs initState ((List.range 301).map (fun i => (0, i + 1)))).cpmHistory[0]?
          = some 301
      ∧ (applyCPMs initState ((List.range 301).map (fun i => (0, i + 1)))).cpmHistory[1]?
          = some 2 := by
  have hlen : ((List.range 301).map (fun i => ((0 : Nat), i + 1))).length = 301 := by
    rw [List.length_map, List.length_range]
  have h := C10_history_ring initState ((List.range 301).map (fun i => (0, i + 1)))
    rfl (List.length_replicate 300 0)
  rw [hlen] at h
  refine ⟨h.1, ?_, ?_⟩
  · exact h.2 301 301 (by decide) (by decide)
      (by rw [List.map_map, List.getElem?_map, List.getElem?_range (by decide)]; rfl)
  · exact h.2 2 2 (by decide) (by decide)
      (by rw [List.map_map, List.getElem?_map, List.getElem?_range (by decide)]; rfl)

end TypingMeter

namespace Solenoid

/-! ## Theorems: rate classifier -/

theorem pulseVibrationFast_frame (s : State) (c : Clock) :
    (pulseVibrationFast s c).solState = s.solState
      ∧ (pulseVibrationFast s c).lastFireMs = s.lastFireMs
      ∧ (pulseVibrationFast s c).usb_state = s.usb_state
      ∧ (pulseVibrationFast s c).fireLog = s.fireLog
      ∧ (pulseVibrationFast s c).solPos = s.solPos := by
  simp only [pulseVibrationFast, startVibrationPulseUs]
  split_ifs <;> simp

theorem fireSolenoidByTiming_fields (s : State) (c : Clock) :
    (fireSolenoidByTiming s c).solState
        = (if sub32 c.ms s.lastFireMs < 30 then SolenoidState.SOL_STATE_FAST_CLICK1
           else SolenoidState.SOL_STATE_NORMAL_FORWARD)
      ∧ (fireSolenoidByTiming s c).lastFireMs = c.ms
      ∧ (fireSolenoidByTiming s c).usb_state = s.usb_state
      ∧ (fireSolenoidByTiming s c).fireLog = s.fireLog ++ [s.activeSource] := by
  simp only [fireSolenoidByTiming, FAST_THRESHOLD_MS, startFastSolenoid, solenoidEffect,
    startNormalSolenoid]
  split_ifs <;> simp [pulseVibrationFast_frame, playClick]

/-- C3: for every state (previous fire timestamp `lastFireMs`) and every clock
reading `now`, `fireSolenoidByTiming` enters `FastClick1` when the 32-bit
difference `now - lastFireMs` is below 30 and `NormalForward` when it is at
least 30 (so a gap of exactly 30 ms is NORMAL), and in both cases sets
`lastFireMs` to `now`. -/
theorem C3_rate_classifier (s : State) (c : Clock) :
    (sub32 c.ms s.lastFireMs < 30 →
        (fireSolenoidByTiming s c).solState = SolenoidState.SOL_STATE_FAST_CLICK1)
      ∧ (30 ≤ sub32 c.ms s.lastFireMs →
        (fireSolenoidByTiming s c).solState = SolenoidState.SOL_STATE_NORMAL_FORWARD)
      ∧ (fireSolenoidByTiming s c).lastFireMs = c.ms := by
  obtain ⟨h1, h2, _, _⟩ := fireSolenoidByTiming_fields s c
  refine ⟨?_, ?_, h2⟩
  · intro h
    rw [h1, if_pos h]
  · intro h
    rw [h1, if_neg (by omega)]

/-- C3 at the boundary: with the previous fire at 100 ms, a fire at 129 ms is
FAST and a fire at 130 ms (a gap of exactly 30 ms) is NORMAL. -/
theorem C3_rate_classifier_witness :
    (fireSolenoidByTiming { initState AppMode.MODE_USB_BT with lastFireMs := 100 }
        { ms := 129, us := 0 }).solState = SolenoidState.SOL_STATE_FAST_CLICK1
      ∧ (fireSolenoidByTiming { initState AppMode.MODE_USB_BT with lastFireMs := 100 }
        { ms := 130, us := 0 }).solState = SolenoidState.SOL_STATE_NORMAL_FORWARD := by
  exact ⟨(C3_rate_classifier _ _).1 (by decide), (C3_rate_classifier _ _).2.1 (by decide)⟩

/-! ## Theorems: I2C fire path -/

theorem pulseVibrationFast_request (s : State) (c : Clock) :
    (pulseVibrationFast s c).solenoidRequest = s.solenoidRequest
      ∧ (pulseVibrationFast s c).appMode = s.appMode := by
  simp only [pulseVibrationFast, startVibrationPulseUs]
  split_ifs <;> simp

theorem updateSolenoid_frame (s : State) (c : Clock) :
    (updateSolenoid s c).lastFireMs = s.lastFireMs
      ∧ (updateSolenoid s c).solenoidRequest = s.solenoidRequest
      ∧ (updateSolenoid s c).appMode = s.appMode := by
  unfold updateSolenoid
  dsimp only
  split <;> (try split_ifs) <;>
    simp [pulseVibrationFast_frame, pulseVibrationFast_request, playClick]

theorem updateVibrationPulse_frame (s : State) (c : Clock) :
    (updateVibrationPulse s c).lastFireMs = s.lastFireMs
      ∧ (updateVibrationPulse s c).solenoidRequest = s.solenoidRequest
      ∧ (updateVibrationPulse s c).appMode = s.appMode := by
  unfold updateVibrationPulse
  split_ifs <;> simp

theorem i2cReceive_fire (s : State) (rest : List Nat) (c : Clock) :
    (i2cReceive s (0x10 :: rest) c).lastFireMs = c.ms
      ∧ (i2cReceive s (0x10 :: rest) c).solenoidRequest = true
      ∧ (i2cReceive s (0x10 :: rest) c).appMode = s.appMode := by
  have hpos : ¬ (((0x10 :: rest).length : Int) ≤ 0) := by
    rw [List.length_cons]
    omega
  simp only [i2cReceive, onReceiveEvent, wireRead, hpos, if_false]
  norm_num
  split_ifs <;> simp

/-- Every I2C `0x10` reception that the main loop drains less than 30 ms after
it arrived is dispatched as a FAST fire, whatever happened before it. -/
theorem i2c_drain_always_fast (s : State) (rest : List Nat) (c d : Clock)
    (usb bt : List (Nat × Clock)) (hm : s.appMode = AppMode.MODE_I2C)
    (hd : sub32 d.ms c.ms < 30) :
    (loop (i2cReceive s (0x10 :: rest) c) d usb bt).solState
      = SolenoidState.SOL_STATE_FAST_CLICK1 := by
  obtain ⟨r1, r2, r3⟩ := i2cReceive_fire s rest c
  obtain ⟨a1, a2, a3⟩ := updateSolenoid_frame (i2cReceive s (0x10 :: rest) c) d
  obtain ⟨b1, b2, b3⟩ := updateVibrationPulse_frame
    (updateSolenoid (i2cReceive s (0x10 :: rest) c) d) d
  have hreq : (updateVibrationPulse (updateSolenoid (i2cReceive s (0x10 :: rest) c) d) d
      ).solenoidRequest = true := by rw [b2, a2, r2]
  have hlast : (updateVibrationPulse (updateSolenoid (i2cReceive s (0x10 :: rest) c) d) d
      ).lastFireMs = c.ms := by rw [b1, a1, r1]
  have hmode : (updateVibrationPulse (updateSolenoid (i2cReceive s (0x10 :: rest) c) d) d
      ).appMode = AppMode.MODE_I2C := by rw [b3, a3, r3, hm]
  obtain ⟨f1, _, _, _⟩ := fireSolenoidByTiming_fields
    { updateVibrationPulse (updateSolenoid (i2cReceive s (0x10 :: rest) c) d) d with
      solenoidRequest := false } d
  have fmode : (fireSolenoidByTiming
      { updateVibrationPulse (updateSolenoid (i2cReceive s (0x10 :: rest) c) d) d with
        solenoidRequest := false } d).appMode = AppMode.MODE_I2C := by
    rw [← hmode]
    simp only [fireSolenoidByTiming, FAST_THRESHOLD_MS, startFastSolenoid, solenoidEffect,
      startNormalSolenoid]
    split_ifs <;> simp [pulseVibrationFast_request, playClick]
  simp only [loop, hreq, if_true]
  rw [if_neg (by rw [fmode]; decide), f1]
  dsimp only
  rw [hlast, if_pos hd]

/-- C4, evaluated on the code: two I2C receptions of `0x10` arrive at 1000 ms
and 2000 ms (1000 ms apart), and each is drained by the main loop 1 ms after it
arrived; the fire dispatched for the second one puts the engine in `FastClick1`,
not `NormalForward`, because `onReceiveEvent` has already set `lastFireMs` to
the arrival time. -/
theorem C4_i2c_fire_classified_fast :
    (i2cReceive (loop (i2cReceive (initState AppMode.MODE_I2C) [0x10]
        { ms := 1000, us := 1000000 }) { ms := 1001, us := 1001000 } [] []) [0x10]
        { ms := 2000, us := 2000000 }).lastFireMs = 2000
      ∧ (loop (i2cReceive (loop (i2cReceive (initState AppMode.MODE_I2C) [0x10]
        { ms := 1000, us := 1000000 }) { ms := 1001, us := 1001000 } [] []) [0x10]
        { ms := 2000, us := 2000000 }) { ms := 2001, us := 2001000 } [] []).solState
          = SolenoidState.SOL_STATE_FAST_CLICK1
      ∧ (loop (i2cReceive (loop (i2cReceive (initState AppMode.MODE_I2C) [0x10]
        { ms := 1000, us := 1000000 }) { ms := 1001, us := 1001000 } [] []) [0x10]
        { ms := 2000, us := 2000000 }) { ms := 2001, us := 2001000 } [] []).fireLog.length
          = 2 := by
  decide

end Solenoid

namespace Solenoid

/-! ## Theorems: serial decoder shared by USB and BT -/

theorem handleSerialByte_header (s : State) (b : Nat) (src : CommSource) (c : Clock)
    (h0 : s.usb_state = 0) :
    (handleSerialByte s b src c).usb_state
        = (if b = 0x01 then 1 else if b = 0x02 then 3 else 0)
      ∧ (handleSerialByte s b src c).fireLog
        = (if b = 0x01 then s.fireLog else if b = 0x02 then s.fireLog
           else if b = 0x10 ∨ b = 0x11 then s.fireLog ++ [src] else s.fireLog) := by
  simp only [handleSerialByte, h0]
  split_ifs <;> simp [fireSolenoidByTiming_fields, h0]

theorem handleSerialByte_body (s : State) (b : Nat) (src : CommSource) (c : Clock)
    (h0 : s.usb_state ≠ 0) :
    (handleSerialByte s b src c).usb_state = (if s.usb_state = 1 then 2 else 0)
      ∧ (handleSerialByte s b src c).fireLog = s.fireLog := by
  unfold handleSerialByte
  dsimp only
  split <;> simp_all

theorem drainSerial_cons (s : State) (src : CommSource) (e : Nat × Clock)
    (rx : List (Nat × Clock)) :
    drainSerial s src (e :: rx) = drainSerial (handleSerialByte s (e.1 % 256) src e.2) src rx := by
  simp [drainSerial]

theorem drainSerial_append (s : State) (src : CommSource) (rx ry : List (Nat × Clock)) :
    drainSerial s src (rx ++ ry) = drainSerial (drainSerial s src rx) src ry := by
  simp [drainSerial, List.foldl_append]

theorem framed_cpm (a b : Nat) (rest : List Nat) :
    framed (0x01 :: a :: b :: rest) = framed rest := by
  simp [framed]

theorem framed_layer (a : Nat) (rest : List Nat) :
    framed (0x02 :: a :: rest) = framed rest := by
  rw [framed.eq_def]
  simp

theorem framed_single (b : Nat) (rest : List Nat) (h1 : b ≠ 0x01) (h2 : b ≠ 0x02) :
    framed (b :: rest) = framed rest := by
  rw [framed.eq_def]
  simp [h1, h2]

theorem fireFrames_cpm (a b : Nat) (rest : List Nat) :
    fireFrames (0x01 :: a :: b :: rest) = fireFrames rest := by
  simp [fireFrames]

theorem fireFrames_layer (a : Nat) (rest : List Nat) :
    fireFrames (0x02 :: a :: rest) = fireFrames rest := by
  rw [fireFrames.eq_def]
  simp

theorem fireFrames_single (b : Nat) (rest : List Nat) (h1 : b ≠ 0x01) (h2 : b ≠ 0x02) :
    fireFrames (b :: rest) = (if b = 0x10 ∨ b = 0x11 then 1 else 0) + fireFrames rest := by
  rw [fireFrames.eq_def]
  simp [h1, h2]

theorem rxBytes_cons (e : Nat × Clock) (rx : List (Nat × Clock)) :
    rxBytes (e :: rx) = e.1 % 256 :: rxBytes rx := by
  simp [rxBytes]

theorem drainSerial_framed_aux (src : CommSource) (n : Nat) :
    ∀ (rx : List (Nat × Clock)) (s : State), rx.length ≤ n → s.usb_state = 0 →
      framed (rxBytes rx) = true →
      (drainSerial s src rx).usb_state = 0
        ∧ (drainSerial s src rx).fireLog
          = s.fireLog ++ List.replicate (fireFrames (rxBytes rx)) src := by
  induction n with
  | zero =>
    intro rx s hlen h0 _
    have : rx = [] := List.length_eq_zero.mp (by omega)
    subst this
    simp [drainSerial, rxBytes, fireFrames, h0]
  | succ n ih =>
    intro rx s hlen h0 hf
    match rx, hlen, hf with
    | [], _, _ => simp [drainSerial, rxBytes, fireFrames, h0]
    | e :: rest, hlen, hf =>
      obtain ⟨hu, hl⟩ := handleSerialByte_header s (e.1 % 256) src e.2 h0
      rw [drainSerial_cons]
      by_cases h1 : e.1 % 256 = 0x01
      · rw [if_pos h1] at hu hl
        match rest, hlen, hf with
        | [], _, hf => simp [rxBytes, framed, h1] at hf
        | [_], _, hf => simp [rxBytes, framed, h1] at hf
        | e2 :: e3 :: rest2, hlen, hf =>
          obtain ⟨hu2, hl2⟩ := handleSerialByte_body
            (handleSerialByte s (e.1 % 256) src e.2) (e2.1 % 256) src e2.2 (by omega)
          rw [hu, if_pos rfl] at hu2
          obtain ⟨hu3, hl3⟩ := handleSerialByte_body _ (e3.1 % 256) src e3.2
            (by rw [hu2]; decide)
          rw [hu2, if_neg (by decide)] at hu3
          rw [rxBytes_cons, rxBytes_cons, rxBytes_cons, h1, framed_cpm] at hf
          have hlen2 : rest2.length ≤ n := by
            simp only [List.length_cons] at hlen
            omega
          obtain ⟨ru, rl⟩ := ih rest2 _ hlen2 hu3 hf
          rw [drainSerial_cons, drainSerial_cons]
          refine ⟨ru, ?_⟩
          rw [rl, hl3, hl2, hl, rxBytes_cons, rxBytes_cons, rxBytes_cons, h1, fireFrames_cpm]
      · rw [if_neg h1] at hu hl
        by_cases h2 : e.1 % 256 = 0x02
        · rw [if_pos h2] at hu hl
          match rest, hlen, hf with
          | [], _, hf => simp [rxBytes, framed, h2] at hf
          | e2 :: rest2, hlen, hf =>
            obtain ⟨hu2, hl2⟩ := handleSerialByte_body
              (handleSerialByte s (e.1 % 256) src e.2) (e2.1 % 256) src e2.2 (by omega)
            rw [hu, if_neg (by decide)] at hu2
            rw [rxBytes_cons, rxBytes_cons, h2, framed_layer] at hf
            have hlen2 : rest2.length ≤ n := by
              simp only [List.length_cons] at hlen
              omega
            obtain ⟨ru, rl⟩ := ih rest2 _ hlen2 hu2 hf
            rw [drainSerial_cons]
            refine ⟨ru, ?_⟩
            rw [rl, hl2, hl, rxBytes_cons, rxBytes_cons, h2, fireFrames_layer]
        · rw [if_neg h2] at hu hl
          rw [rxBytes_cons, framed_single _ _ h1 h2] at hf
          have hlen2 : rest.length ≤ n := by
            simp only [List.length_cons] at hlen
            omega
          obtain ⟨ru, rl⟩ := ih rest _ hlen2 hu hf
          refine ⟨ru, ?_⟩
          rw [rl, hl, rxBytes_cons, fireFrames_single _ _ h1 h2]
          by_cases hfire : e.1 % 256 = 0x10 ∨ e.1 % 256 = 0x11
          · rw [if_pos hfire, if_pos hfire, List.replicate_add]
            simp
          · rw [if_neg hfire, if_neg hfire]
            simp

theorem drainSerial_framed (s : State) (src : CommSource) (rx : List (Nat × Clock))
    (h0 : s.usb_state = 0) (hf : framed (rxBytes rx) = true) :
    (drainSerial s src rx).usb_state = 0
      ∧ (drainSerial s src rx).fireLog
        = s.fireLog ++ List.replicate (fireFrames (rxBytes rx)) src :=
  drainSerial_framed_aux src rx.length rx s (Nat.le_refl _) h0 hf

end Solenoid

namespace Solenoid

theorem pollSerialInputs_framed (s : State) (usb bt : List (Nat × Clock))
    (h0 : s.usb_state = 0) (hu : framed (rxBytes usb) = true)
    (hb : framed (rxBytes bt) = true) :
    (pollSerialInputs s usb bt).usb_state = 0
      ∧ (pollSerialInputs s usb bt).fireLog
        = s.fireLog ++ (List.replicate (fireFrames (rxBytes usb)) CommSource.SRC_USB
            ++ List.replicate (fireFrames (rxBytes bt)) CommSource.SRC_BT) := by
  obtain ⟨u1, l1⟩ := drainSerial_framed s CommSource.SRC_USB usb h0 hu
  obtain ⟨u2, l2⟩ := drainSerial_framed (drainSerial s CommSource.SRC_USB usb)
    CommSource.SRC_BT bt u1 hb
  unfold pollSerialInputs
  refine ⟨u2, ?_⟩
  rw [l2, l1, List.append_assoc]

theorem usbStream_alone (ps : List (List (Nat × Clock) × List (Nat × Clock))) :
    ∀ s : State, s.usb_state = 0 → (∀ p ∈ ps, framed (rxBytes p.1) = true) →
      (drainSerial s CommSource.SRC_USB (usbStream ps)).usb_state = 0
        ∧ (drainSerial s CommSource.SRC_USB (usbStream ps)).fireLog
          = s.fireLog ++ List.replicate
              (ps.map (fun p => fireFrames (rxBytes p.1))).sum CommSource.SRC_USB := by
  induction ps with
  | nil =>
    intro s h0 _
    simp [usbStream, drainSerial, h0]
  | cons p ps ih =>
    intro s h0 hf
    obtain ⟨u1, l1⟩ := drainSerial_framed s CommSource.SRC_USB p.1 h0
      (hf p (List.mem_cons_self _ _))
    obtain ⟨u2, l2⟩ := ih _ u1 (fun q hq => hf q (List.mem_cons_of_mem _ hq))
    rw [usbStream, drainSerial_append]
    refine ⟨u2, ?_⟩
    rw [l2, l1, List.map_cons, List.sum_cons, List.replicate_add, List.append_assoc]

theorem btStream_alone (ps : List (List (Nat × Clock) × List (Nat × Clock))) :
    ∀ s : State, s.usb_state = 0 → (∀ p ∈ ps, framed (rxBytes p.2) = true) →
      (drainSerial s CommSource.SRC_BT (btStream ps)).usb_state = 0
        ∧ (drainSerial s CommSource.SRC_BT (btStream ps)).fireLog
          = s.fireLog ++ List.replicate
              (ps.map (fun p => fireFrames (rxBytes p.2))).sum CommSource.SRC_BT := by
  induction ps with
  | nil =>
    intro s h0 _
    simp [btStream, drainSerial, h0]
  | cons p ps ih =>
    intro s h0 hf
    obtain ⟨u1, l1⟩ := drainSerial_framed s CommSource.SRC_BT p.2 h0
      (hf p (List.mem_cons_self _ _))
    obtain ⟨u2, l2⟩ := ih _ u1 (fun q hq => hf q (List.mem_cons_of_mem _ hq))
    rw [btStream, drainSerial_append]
    refine ⟨u2, ?_⟩
    rw [l2, l1, List.map_cons, List.sum_cons, List.replicate_add, List.append_assoc]

theorem pollMany_framed (ps : List (List (Nat × Clock) × List (Nat × Clock))) :
    ∀ s : State, s.usb_state = 0 →
      (∀ p ∈ ps, framed (rxBytes p.1) = true ∧ framed (rxBytes p.2) = true) →
      (pollMany s ps).usb_state = 0
        ∧ ∃ L : List CommSource, (pollMany s ps).fireLog = s.fireLog ++ L
          ∧ L.filter (fun x => decide (x = CommSource.SRC_USB))
              = List.replicate (ps.map (fun p => fireFrames (rxBytes p.1))).sum
                  CommSource.SRC_USB
          ∧ L.filter (fun x => decide (x = CommSource.SRC_BT))
              = List.replicate (ps.map (fun p => fireFrames (rxBytes p.2))).sum
                  CommSource.SRC_BT
          ∧ L.length = (ps.map (fun p => fireFrames (rxBytes p.1))).sum
              + (ps.map (fun p => fireFrames (rxBytes p.2))).sum := by
  induction ps with
  | nil =>
    intro s h0 _
    exact ⟨by simpa [pollMany] using h0, [], by simp [pollMany], by simp, by simp, by simp⟩
  | cons p ps ih =>
    intro s h0 hf
    obtain ⟨hp1, hp2⟩ := hf p (List.mem_cons_self _ _)
    obtain ⟨u1, l1⟩ := pollSerialInputs_framed s p.1 p.2 h0 hp1 hp2
    obtain ⟨u2, L, hL, hU, hB, hlen⟩ := ih _ u1 (fun q hq => hf q (List.mem_cons_of_mem _ hq))
    have e : pollMany s (p :: ps) = pollMany (pollSerialInputs s p.1 p.2) ps := by
      simp [pollMany]
    rw [e]
    refine ⟨u2, (List.replicate (fireFrames (rxBytes p.1)) CommSource.SRC_USB
            ++ List.replicate (fireFrames (rxBytes p.2)) CommSource.SRC_BT) ++ L, ?_, ?_, ?_, ?_⟩
    · rw [hL, l1, List.append_assoc]
    · rw [List.filter_append, List.filter_append, hU, List.map_cons, List.sum_cons,
        List.replicate_add]
      simp
    · rw [List.filter_append, List.filter_append, hB, List.map_cons, List.sum_cons,
        List.replicate_add]
      simp
    · simp only [List.length_append, List.length_replicate, hlen, List.map_cons, List.sum_cons]
      omega

/-- C2, as stated, fails: in one `pollSerialInputs` call with the USB byte
`0x01` and the BT byte `0x10` readable, the BT byte is consumed as the body of
the CPM frame the USB byte opened, so no fire is dispatched, while the BT stream
`[0x10]` decoded on its own dispatches one. -/
theorem C2_counterexample :
    ¬ ((firesSince (initState AppMode.MODE_USB_BT)
          (pollMany (initState AppMode.MODE_USB_BT)
            [([(0x01, { ms := 1000, us := 0 })], [(0x10, { ms := 1000, us := 0 })])])).filter
          (fun x => decide (x = CommSource.SRC_BT))
        = firesSince (initState AppMode.MODE_USB_BT)
            (drainSerial (initState AppMode.MODE_USB_BT) CommSource.SRC_BT
              (btStream
                [([(0x01, { ms := 1000, us := 0 })], [(0x10, { ms := 1000, us := 0 })])]))) := by
  decide

theorem handleSerialByte_step (s : State) (b : Nat) (src : CommSource) (c : Clock) :
    (handleSerialByte s b src c).usb_state
        = (if s.usb_state = 0 then (if b = 0x01 then 1 else if b = 0x02 then 3 else 0)
           else if s.usb_state = 1 then 2 else 0)
      ∧ (handleSerialByte s b src c).fireLog
        = s.fireLog ++ (if s.usb_state = 0 ∧ (b = 0x10 ∨ b = 0x11) then [src] else []) := by
  by_cases h0 : s.usb_state = 0
  · obtain ⟨h1, h2⟩ := handleSerialByte_header s b src c h0
    rw [h1, h2, if_pos h0]
    refine ⟨rfl, ?_⟩
    by_cases hb1 : b = 0x01
    · rw [if_pos hb1, if_neg (by omega), List.append_nil]
    · rw [if_neg hb1]
      by_cases hb2 : b = 0x02
      · rw [if_pos hb2, if_neg (by omega), List.append_nil]
      · rw [if_neg hb2]
        by_cases hf : b = 0x10 ∨ b = 0x11
        · rw [if_pos hf, if_pos ⟨h0, hf⟩]
        · rw [if_neg hf, if_neg (fun h => hf h.2), List.append_nil]
  · obtain ⟨h1, h2⟩ := handleSerialByte_body s b src c h0
    constructor
    · rw [h1, if_neg h0]
    · rw [h2, if_neg (fun h => h0 h.1), List.append_nil]

theorem handleMany_cons (s : State) (e : CommSource × (Nat × Clock))
    (es : List (CommSource × (Nat × Clock))) :
    handleMany s (e :: es) = handleMany (handleSerialByte s (e.2.1 % 256) e.1 e.2.2) es := by
  simp [handleMany]

theorem handleMany_append (s : State) (es fs : List (CommSource × (Nat × Clock))) :
    handleMany s (es ++ fs) = handleMany (handleMany s es) fs := by
  simp [handleMany, List.foldl_append]

theorem handleMany_source (src : CommSource) (rx : List (Nat × Clock)) (s : State) :
    handleMany s (rx.map (fun e => (src, e))) = drainSerial s src rx := by
  simp [handleMany, drainSerial, List.foldl_map]

theorem pollMany_handled (ps : List (List (Nat × Clock) × List (Nat × Clock))) :
    ∀ s : State, pollMany s ps = handleMany s (handledBytes ps) := by
  induction ps with
  | nil =>
    intro s
    rfl
  | cons p ps ih =>
    intro s
    have e : pollMany s (p :: ps) = pollMany (pollSerialInputs s p.1 p.2) ps := by
      simp [pollMany]
    rw [e, ih, handledBytes, handleMany_append, handleMany_append, handleMany_source,
      handleMany_source]
    rfl

theorem sourceStream_cons (x : CommSource) (e : CommSource × (Nat × Clock))
    (es : List (CommSource × (Nat × Clock))) :
    sourceStream x (e :: es)
      = if e.1 = x then e.2 :: sourceStream x es else sourceStream x es := by
  unfold sourceStream
  by_cases h : e.1 = x
  · rw [if_pos h, List.filter_cons_of_pos (by simpa using h), List.map_cons]
  · rw [if_neg h, List.filter_cons_of_neg (by simpa using h)]

theorem sourceStream_append (x : CommSource) (es fs : List (CommSource × (Nat × Clock))) :
    sourceStream x (es ++ fs) = sourceStream x es ++ sourceStream x fs := by
  simp [sourceStream]

theorem sourceStream_same (x : CommSource) (rx : List (Nat × Clock)) :
    sourceStream x (rx.map (fun e => (x, e))) = rx := by
  induction rx with
  | nil => rfl
  | cons e rx ih =>
    rw [List.map_cons, sourceStream_cons, if_pos rfl, ih]

theorem sourceStream_other (x y : CommSource) (h : y ≠ x) (rx : List (Nat × Clock)) :
    sourceStream x (rx.map (fun e => (y, e))) = [] := by
  induction rx with
  | nil => rfl
  | cons e rx ih =>
    rw [List.map_cons, sourceStream_cons, if_neg h, ih]

theorem sourceStream_handled (ps : List (List (Nat × Clock) × List (Nat × Clock))) :
    sourceStream CommSource.SRC_USB (handledBytes ps) = usbStream ps
      ∧ sourceStream CommSource.SRC_BT (handledBytes ps) = btStream ps := by
  induction ps with
  | nil => exact ⟨rfl, rfl⟩
  | cons p ps ih =>
    constructor
    · rw [handledBytes, sourceStream_append, sourceStream_append, sourceStream_same,
        sourceStream_other _ _ (by decide), ih.1, usbStream, List.nil_append]
    · rw [handledBytes, sourceStream_append, sourceStream_append, sourceStream_same,
        sourceStream_other _ _ (by decide), ih.2, btStream, List.nil_append]

theorem handledBytes_sources (ps : List (List (Nat × Clock) × List (Nat × Clock))) :
    ∀ e ∈ handledBytes ps, e.1 = CommSource.SRC_USB ∨ e.1 = CommSource.SRC_BT := by
  induction ps with
  | nil =>
    intro e he
    cases he
  | cons p ps ih =>
    intro e he
    rw [handledBytes, List.mem_append, List.mem_append] at he
    rcases he with h | h | h
    · obtain ⟨_, _, rfl⟩ := List.mem_map.mp h
      exact Or.inl rfl
    · obtain ⟨_, _, rfl⟩ := List.mem_map.mp h
      exact Or.inr rfl
    · exact ih e h

theorem length_two_sources (L : List CommSource)
    (h : ∀ y ∈ L, y = CommSource.SRC_USB ∨ y = CommSource.SRC_BT) :
    L.length = (L.filter (fun y => decide (y = CommSource.SRC_USB))).length
      + (L.filter (fun y => decide (y = CommSource.SRC_BT))).length := by
  induction L with
  | nil => rfl
  | cons y L ih =>
    have ih2 := ih (fun z hz => h z (List.mem_cons_of_mem _ hz))
    rcases h y (List.mem_cons_self _ _) with rfl | rfl
    · rw [List.filter_cons_of_pos (by decide), List.filter_cons_of_neg (by decide),
        List.length_cons, List.length_cons, ih2]
      omega
    · rw [List.filter_cons_of_neg (by decide), List.filter_cons_of_pos (by decide),
        List.length_cons, List.length_cons, ih2]
      omega

theorem frameInv_step (k : Nat) (owner : CommSource) (m : State) (dec : CommSource → State)
    (e : CommSource × (Nat × Clock)) (es : List (CommSource × (Nat × Clock)))
    (hns : noSwitchInFrame k owner (e :: es) = true) (hinv : frameInv k owner m dec) :
    ∃ k1 owner1, noSwitchInFrame k1 owner1 es = true
      ∧ frameInv k1 owner1 (handleSerialByte m (e.2.1 % 256) e.1 e.2.2)
          (fun x => if x = e.1 then handleSerialByte (dec x) (e.2.1 % 256) e.1 e.2.2
                    else dec x)
      ∧ (0 < k1 → (0 < k ∧ owner1 = owner) ∨ owner1 = e.1)
      ∧ (dec e.1).usb_state = m.usb_state := by
  obtain ⟨i0, i1⟩ := hinv
  obtain ⟨u1, _⟩ := handleSerialByte_step m (e.2.1 % 256) e.1 e.2.2
  obtain ⟨v1, _⟩ := handleSerialByte_step (dec e.1) (e.2.1 % 256) e.1 e.2.2
  cases k with
  | zero =>
    obtain ⟨hm, hd⟩ := i0 rfl
    rw [hm, if_pos rfl] at u1
    rw [hd e.1, if_pos rfl] at v1
    refine ⟨bodyLength (e.2.1 % 256), e.1, hns, ⟨?_, ?_⟩, fun _ => Or.inr rfl,
      (hd e.1).trans hm.symm⟩
    · intro hk
      unfold bodyLength at hk
      have hb : ¬ (e.2.1 % 256 = 0x01) ∧ ¬ (e.2.1 % 256 = 0x02) := by
        split_ifs at hk with h1 h2
        exact ⟨h1, h2⟩
      refine ⟨by rw [u1, if_neg hb.1, if_neg hb.2], ?_⟩
      intro x
      by_cases hx : x = e.1
      · subst hx
        dsimp only
        rw [if_pos rfl, v1, if_neg hb.1, if_neg hb.2]
      · dsimp only
        rw [if_neg hx]
        exact hd x
    · intro hk
      have hb : e.2.1 % 256 = 0x01 ∨ e.2.1 % 256 = 0x02 := by
        unfold bodyLength at hk
        by_cases h1 : e.2.1 % 256 = 0x01
        · exact Or.inl h1
        · by_cases h2 : e.2.1 % 256 = 0x02
          · exact Or.inr h2
          · rw [if_neg h1, if_neg h2] at hk
            omega
      have hoth : ∀ x, x ≠ e.1 →
          (if x = e.1 then handleSerialByte (dec x) (e.2.1 % 256) e.1 e.2.2
            else dec x).usb_state = 0 := by
        intro x hx
        rw [if_neg hx]
        exact hd x
      rcases hb with h1 | h2
      · have hbl : bodyLength (e.2.1 % 256) = 2 := by
          unfold bodyLength
          rw [if_pos h1]
        rw [if_pos h1] at u1 v1
        rw [hbl]
        dsimp only
        rw [if_pos rfl, u1, v1]
        exact ⟨Nat.le_refl 2, by decide, by decide, rfl, hoth⟩
      · have h1 : ¬ (e.2.1 % 256 = 0x01) := by omega
        have hbl : bodyLength (e.2.1 % 256) = 1 := by
          unfold bodyLength
          rw [if_neg h1, if_pos h2]
        rw [if_neg h1, if_pos h2] at u1 v1
        rw [hbl]
        dsimp only
        rw [if_pos rfl, u1, v1]
        exact ⟨by decide, by decide, by decide, rfl, hoth⟩
  | succ j =>
    obtain ⟨hj, hm, hiff, hown, hoth⟩ := i1 (Nat.succ_pos j)
    have hns2 : e.1 = owner ∧ noSwitchInFrame j owner es = true := by
      have h := hns
      rw [noSwitchInFrame, Bool.and_eq_true] at h
      exact ⟨of_decide_eq_true h.1, h.2⟩
    obtain ⟨he, hns1⟩ := hns2
    rw [if_neg hm] at u1
    rw [he, hown, if_neg hm] at v1
    refine ⟨j, owner, hns1, ⟨?_, ?_⟩, fun hk => Or.inl ⟨Nat.succ_pos j, rfl⟩, ?_⟩
    · intro hk
      have hne : ¬ (m.usb_state = 1) := fun h => by
        have := hiff.mp h
        omega
      refine ⟨by rw [u1, if_neg hne], ?_⟩
      intro x
      dsimp only
      by_cases hx : x = e.1
      · rw [if_pos hx, hx, he, v1, if_neg hne]
      · rw [if_neg hx]
        exact hoth x (fun h => hx (h.trans he.symm))
    · intro hk
      have h1 : m.usb_state = 1 := hiff.mpr (by omega)
      dsimp only
      rw [u1, if_pos h1]
      refine ⟨by omega, by omega, by omega, ?_, ?_⟩
      · rw [if_pos he.symm, he, v1, if_pos h1]
      · intro x hx
        rw [if_neg (fun h => hx (h.trans he))]
        exact hoth x hx
    · rw [he]
      exact hown

theorem handleMany_sim (es : List (CommSource × (Nat × Clock))) :
    ∀ (k : Nat) (owner : CommSource) (m : State) (dec : CommSource → State),
      noSwitchInFrame k owner es = true → frameInv k owner m dec →
      (∃ k1 owner1, frameInv k1 owner1 (handleMany m es)
            (fun x => drainSerial (dec x) x (sourceStream x es))
          ∧ (0 < k1 → (0 < k ∧ owner1 = owner) ∨ ∃ e ∈ es, e.1 = owner1))
        ∧ ∃ L, (handleMany m es).fireLog = m.fireLog ++ L
            ∧ (∀ y ∈ L, ∃ e ∈ es, e.1 = y)
            ∧ ∀ x, (drainSerial (dec x) x (sourceStream x es)).fireLog
                = (dec x).fireLog ++ L.filter (fun y => decide (y = x)) := by
  induction es with
  | nil =>
    intro k owner m dec _ hinv
    refine ⟨⟨k, owner, hinv, fun hk => Or.inl ⟨hk, rfl⟩⟩, [], ?_, ?_, ?_⟩
    · exact (List.append_nil _).symm
    · intro y hy
      cases hy
    · intro x
      exact (List.append_nil _).symm
  | cons e es ih =>
    intro k owner m dec hns hinv
    obtain ⟨k1, owner1, hns1, hinv1, hown1, hσ⟩ := frameInv_step k owner m dec e es hns hinv
    obtain ⟨⟨k2, owner2, hinv2, hown2⟩, L, hL, hLs, hLx⟩ := ih k1 owner1 _ _ hns1 hinv1
    obtain ⟨_, fm⟩ := handleSerialByte_step m (e.2.1 % 256) e.1 e.2.2
    obtain ⟨_, fd⟩ := handleSerialByte_step (dec e.1) (e.2.1 % 256) e.1 e.2.2
    rw [hσ] at fd
    have hrun : ∀ x, drainSerial (dec x) x (sourceStream x (e :: es))
        = drainSerial (if x = e.1 then handleSerialByte (dec x) (e.2.1 % 256) e.1 e.2.2
            else dec x) x (sourceStream x es) := by
      intro x
      rw [sourceStream_cons]
      by_cases hx : e.1 = x
      · rw [if_pos hx, if_pos hx.symm, drainSerial_cons, hx]
      · rw [if_neg hx, if_neg (fun h => hx h.symm)]
    have hfun : (fun x => drainSerial (dec x) x (sourceStream x (e :: es)))
        = (fun x => drainSerial
            ((fun x => if x = e.1 then handleSerialByte (dec x) (e.2.1 % 256) e.1 e.2.2
              else dec x) x) x (sourceStream x es)) := funext hrun
    rw [handleMany_cons, hfun]
    refine ⟨⟨k2, owner2, hinv2, ?_⟩,
      (if m.usb_state = 0 ∧ (e.2.1 % 256 = 0x10 ∨ e.2.1 % 256 = 0x11) then [e.1] else [])
        ++ L, ?_, ?_, ?_⟩
    · intro hk2
      rcases hown2 hk2 with ⟨hk1, ho⟩ | ⟨e2, he2, ho⟩
      · rcases hown1 hk1 with ⟨hk, ho1⟩ | ho1
        · exact Or.inl ⟨hk, ho.trans ho1⟩
        · exact Or.inr ⟨e, List.mem_cons_self _ _, ho1.symm.trans ho.symm⟩
      · exact Or.inr ⟨e2, List.mem_cons_of_mem _ he2, ho⟩
    · rw [hL, fm, List.append_assoc]
    · intro y hy
      rcases List.mem_append.mp hy with h | h
      · refine ⟨e, List.mem_cons_self _ _, ?_⟩
        split_ifs at h
        · exact (List.mem_singleton.mp h).symm
        · cases h
      · obtain ⟨e2, he2, ho⟩ := hLs y h
        exact ⟨e2, List.mem_cons_of_mem _ he2, ho⟩
    · intro x
      have hx := hLx x
      rw [hrun x, hx, List.filter_append]
      by_cases hxe : x = e.1
      · rw [if_pos hxe, hxe, fd, List.append_assoc]
        congr 2
        split_ifs
        · rw [List.filter_cons_of_pos (by simp)]
          rfl
        · rfl
      · rw [if_neg hxe]
        congr 1
        split_ifs
        · rw [List.filter_cons_of_neg (by simpa using fun h => hxe h.symm)]
          rfl
        · rfl

/-- C2, amended: the decoder state `usb_state` is shared by USB and BT.  For
every sequence of `pollSerialInputs` calls started in AwaitHeader in which no
body byte of a frame comes from the other transport than its header (the
transports do not switch inside a frame; a frame may be split over several
calls), the fires dispatched for USB bytes are the fires obtained by decoding
the USB stream on its own, the fires dispatched for BT bytes are those obtained
by decoding the BT stream on its own, no other fire is dispatched, and the
shared decoder ends in AwaitHeader exactly when both separate decoders do, in
particular when both streams consist of complete frames. -/
theorem C2_no_switch_inside_frame (s : State)
    (ps : List (List (Nat × Clock) × List (Nat × Clock)))
    (h0 : s.usb_state = 0)
    (hns : noSwitchInFrame 0 CommSource.SRC_NONE (handledBytes ps) = true) :
    (firesSince s (pollMany s ps)).filter (fun x => decide (x = CommSource.SRC_USB))
        = firesSince s (drainSerial s CommSource.SRC_USB (usbStream ps))
      ∧ (firesSince s (pollMany s ps)).filter (fun x => decide (x = CommSource.SRC_BT))
        = firesSince s (drainSerial s CommSource.SRC_BT (btStream ps))
      ∧ (firesSince s (pollMany s ps)).length
        = (firesSince s (drainSerial s CommSource.SRC_USB (usbStream ps))).length
          + (firesSince s (drainSerial s CommSource.SRC_BT (btStream ps))).length
      ∧ ((pollMany s ps).usb_state = 0 ↔
          (drainSerial s CommSource.SRC_USB (usbStream ps)).usb_state = 0
            ∧ (drainSerial s CommSource.SRC_BT (btStream ps)).usb_state = 0)
      ∧ (framed (rxBytes (usbStream ps)) = true → framed (rxBytes (btStream ps)) = true →
          (pollMany s ps).usb_state = 0) := by
  have hinv : frameInv 0 CommSource.SRC_NONE s (fun _ => s) :=
    ⟨fun _ => ⟨h0, fun _ => h0⟩, fun h => absurd h (Nat.lt_irrefl 0)⟩
  obtain ⟨⟨k1, owner1, ⟨j0, j1⟩, hown⟩, L, hL, hLs, hLx⟩ :=
    handleMany_sim (handledBytes ps) 0 CommSource.SRC_NONE s (fun _ => s) hns hinv
  obtain ⟨eu, eb⟩ := sourceStream_handled ps
  have hu := hLx CommSource.SRC_USB
  have hb := hLx CommSource.SRC_BT
  dsimp only at hu hb j0 j1
  rw [eu] at hu
  rw [eb] at hb
  rw [← pollMany_handled] at hL j0 j1
  have hLsrc : ∀ y ∈ L, y = CommSource.SRC_USB ∨ y = CommSource.SRC_BT := by
    intro y hy
    obtain ⟨e, he, rfl⟩ := hLs y hy
    exact handledBytes_sources ps e he
  have hiff : (pollMany s ps).usb_state = 0 ↔
      (drainSerial s CommSource.SRC_USB (usbStream ps)).usb_state = 0
        ∧ (drainSerial s CommSource.SRC_BT (btStream ps)).usb_state = 0 := by
    rcases Nat.eq_zero_or_pos k1 with hk | hk
    · obtain ⟨a, b⟩ := j0 hk
      have bu := b CommSource.SRC_USB
      have bb := b CommSource.SRC_BT
      rw [eu] at bu
      rw [eb] at bb
      exact ⟨fun _ => ⟨bu, bb⟩, fun _ => a⟩
    · obtain ⟨_, hne, _, hsame, _⟩ := j1 hk
      have hsrc : owner1 = CommSource.SRC_USB ∨ owner1 = CommSource.SRC_BT := by
        rcases hown hk with ⟨h, _⟩ | ⟨e, he, ho⟩
        · exact absurd h (Nat.lt_irrefl 0)
        · rw [← ho]
          exact handledBytes_sources ps e he
      constructor
      · intro h
        exact absurd h hne
      · rintro ⟨h1, h2⟩
        rcases hsrc with ho | ho
        · rw [ho, eu] at hsame
          exact absurd (hsame.symm.trans h1) hne
        · rw [ho, eb] at hsame
          exact absurd (hsame.symm.trans h2) hne
  refine ⟨?_, ?_, ?_, hiff, ?_⟩
  · simp only [firesSince, hL, hu, List.drop_left]
  · simp only [firesSince, hL, hb, List.drop_left]
  · simp only [firesSince, hL, hu, hb, List.drop_left]
    exact length_two_sources L hLsrc
  · intro fu fb
    exact hiff.mpr ⟨(drainSerial_framed s _ _ h0 fu).1, (drainSerial_framed s _ _ h0 fb).1⟩

/-- C2 (amended) on two polls that split the USB frame `[0x01,0x64,0x00]`: the
first reads the USB bytes `0x10, 0x01, 0x64`, the second the USB bytes
`0x00, 0x10` and the BT frames `[0x02,0x10] [0x11]`; exactly one fire is
dispatched for BT. -/
theorem C2_no_switch_inside_frame_witness :
    (firesSince (initState AppMode.MODE_USB_BT)
        (pollMany (initState AppMode.MODE_USB_BT)
          [([(0x10, { ms := 5, us := 0 }), (0x01, { ms := 5, us := 0 }),
             (0x64, { ms := 5, us := 0 })], []),
           ([(0x00, { ms := 90, us := 0 }), (0x10, { ms := 90, us := 0 })],
            [(0x02, { ms := 91, us := 0 }), (0x10, { ms := 91, us := 0 }),
             (0x11, { ms := 91, us := 0 })])])).filter
        (fun x => decide (x = CommSource.SRC_BT))
      = [CommSource.SRC_BT] := by
  have h := C2_no_switch_inside_frame (initState AppMode.MODE_USB_BT)
    [([(0x10, { ms := 5, us := 0 }), (0x01, { ms := 5, us := 0 }),
       (0x64, { ms := 5, us := 0 })], []),
     ([(0x00, { ms := 90, us := 0 }), (0x10, { ms := 90, us := 0 })],
      [(0x02, { ms := 91, us := 0 }), (0x10, { ms := 91, us := 0 }),
       (0x11, { ms := 91, us := 0 })])]
    rfl (by decide)
  exact h.2.1.trans (by decide)

end Solenoid

namespace TypingMeter

/-! ## Theorems: average of the nonzero samples -/

theorem nonzeroSamples_snoc (xs : List (Nat × Nat)) (x : Nat × Nat) :
    nonzeroSamples (xs ++ [x])
      = nonzeroSamples xs ++ (if 0 < x.2 then [min x.2 2000] else []) := by
  have hp : 0 < min x.2 2000 ↔ 0 < x.2 := by omega
  simp only [nonzeroSamples, VALUE_MAX, List.map_append, List.filter_append, List.map_cons,
    List.map_nil, List.filter_cons, List.filter_nil, decide_eq_true_eq, hp]

theorem nonzeroSamples_bounds (xs : List (Nat × Nat)) :
    (nonzeroSamples xs).length ≤ (nonzeroSamples xs).sum
      ∧ (nonzeroSamples xs).sum ≤ 2000 * (nonzeroSamples xs).length := by
  induction xs using List.reverseRecOn with
  | nil => simp [nonzeroSamples]
  | append_singleton xs x ih =>
    rw [nonzeroSamples_snoc]
    split_ifs with h
    · simp only [List.sum_append, List.length_append, List.sum_cons, List.sum_nil,
        List.length_singleton]
      omega
    · simpa using ih

theorem applyCPMs_counters (s : State) (xs : List (Nat × Nat))
    (hs : s.sumCPM < 4294967296) (hc : s.countCPM < 4294967296) :
    (applyCPMs s xs).sumCPM = (s.sumCPM + (nonzeroSamples xs).sum) % 4294967296
      ∧ (applyCPMs s xs).countCPM
        = (s.countCPM + (nonzeroSamples xs).length) % 4294967296 := by
  induction xs using List.reverseRecOn with
  | nil =>
    simp only [applyCPMs, nonzeroSamples, List.foldl_nil, List.map_nil, List.filter_nil,
      List.sum_nil, List.length_nil]
    omega
  | append_singleton xs x ih =>
    obtain ⟨h1, h2⟩ := ih
    rw [applyCPMs_snoc, applyCPM_sumCPM, applyCPM_countCPM, nonzeroSamples_snoc, h1, h2]
    split_ifs with h
    · simp only [List.sum_append, List.length_append, List.sum_cons, List.sum_nil,
        List.length_singleton]
      omega
    · simp

theorem toInt32_of_lt (n : Nat) (h : n < 2147483648) : toInt32 n = (n : Int) := by
  unfold toInt32
  have h1 : n % 4294967296 = n := Nat.mod_eq_of_lt (by omega)
  rw [h1, if_pos h]

theorem replicate_samples (n t : Nat) :
    nonzeroSamples (List.replicate n (t, 2000)) = List.replicate n 2000 := by
  induction n with
  | zero => rfl
  | succ n ih =>
    rw [List.replicate_succ, List.replicate_succ]
    simp only [nonzeroSamples, VALUE_MAX, List.map_cons, List.filter_cons] at ih ⊢
    rw [ih]
    simp

theorem replicate_sum (n v : Nat) : (List.replicate n v).sum = n * v := by
  induction n with
  | zero => simp
  | succ n ih =>
    rw [List.replicate_succ, List.sum_cons, ih]
    ring

/-- C11, as stated, fails for long sequences: after 2147484 calls
`applyCPM(2000)` from the initial state the 32-bit `sumCPM` has wrapped (to 704)
and `getMovingAverageCPM()` returns 0, while the mean of the samples is 2000. -/
theorem C11_counterexample :
    ¬ (getMovingAverageCPM (applyCPMs initState (List.replicate 2147484 (0, 2000)))
        = (((nonzeroSamples (List.replicate 2147484 (0, 2000))).sum
            / (nonzeroSamples (List.replicate 2147484 (0, 2000))).length : Nat) : Int)) := by
  obtain ⟨h1, h2⟩ := applyCPMs_counters initState (List.replicate 2147484 (0, 2000))
    (by decide) (by decide)
  rw [replicate_samples, replicate_sum] at h1
  rw [replicate_samples, List.length_replicate] at h2
  have e1 : (applyCPMs initState (List.replicate 2147484 (0, 2000))).sumCPM = 704 := h1
  have e2 : (applyCPMs initState (List.replicate 2147484 (0, 2000))).countCPM = 2147484 := h2
  rw [replicate_samples, replicate_sum, List.length_replicate]
  unfold getMovingAverageCPM
  rw [e1, e2]
  decide

/-- C11, amended: `getMovingAverageCPM` returns 0 when `countCPM = 0` and the
quotient `sumCPM / countCPM` (a `uint32_t` returned as `int`, the same number
whenever it is below `2^31`) when `countCPM > 0`; from a fresh state
(`sumCPM = countCPM = 0`), for every sequence of `applyCPM` calls whose clamped
samples sum to less than `2^32`, it equals the floor of the mean of the nonzero
clamped samples, and 0 when there is none. -/
theorem C11_average_of_nonzero (s : State) (xs : List (Nat × Nat))
    (hs : s.sumCPM = 0) (hc : s.countCPM = 0)
    (hb : (nonzeroSamples xs).sum < 4294967296) :
    (∀ t : State, (t.countCPM = 0 → getMovingAverageCPM t = 0)
        ∧ (0 < t.countCPM → t.sumCPM / t.countCPM < 2147483648 →
            getMovingAverageCPM t = ((t.sumCPM / t.countCPM : Nat) : Int)))
      ∧ getMovingAverageCPM (applyCPMs s xs)
        = (if (nonzeroSamples xs).length = 0 then 0
           else (((nonzeroSamples xs).sum / (nonzeroSamples xs).length : Nat) : Int)) := by
  constructor
  · intro t
    constructor
    · intro h0
      simp [getMovingAverageCPM, h0]
    · intro hpos hq
      unfold getMovingAverageCPM
      rw [if_pos hpos, toInt32_of_lt _ hq]
  · obtain ⟨h1, h2⟩ := applyCPMs_counters s xs (by omega) (by omega)
    obtain ⟨b1, b2⟩ := nonzeroSamples_bounds xs
    rw [hs, Nat.zero_add, Nat.mod_eq_of_lt hb] at h1
    rw [hc, Nat.zero_add, Nat.mod_eq_of_lt (by omega)] at h2
    unfold getMovingAverageCPM
    rw [h1, h2]
    by_cases hl : (nonzeroSamples xs).length = 0
    · rw [hl]
      simp
    · have hpos : 0 < (nonzeroSamples xs).length := Nat.pos_of_ne_zero hl
      rw [if_pos hpos, if_neg hl]
      apply toInt32_of_lt
      have : (nonzeroSamples xs).sum / (nonzeroSamples xs).length ≤ 2000 := by
        apply Nat.div_le_of_le_mul
        rw [Nat.mul_comm]
        exact b2
      omega

/-- C11 (amended) at `applyCPM(100)`, `applyCPM(0)`, `applyCPM(300)` from the
initial state: the average is `(100 + 300) / 2 = 200`. -/
theorem C11_average_of_nonzero_witness :
    getMovingAverageCPM (applyCPMs initState [(0, 100), (0, 0), (0, 300)]) = 200 := by
  have h := (C11_average_of_nonzero initState [(0, 100), (0, 0), (0, 300)] rfl rfl
    (by decide)).2
  exact h.trans (by decide)

end TypingMeter

namespace Solenoid

/-! ## Theorems: single-byte fire frames and the I2C command byte -/

/-- C12: for `b = 0x10` and for `b = 0x11`, `handleSerialByte(b, src)` called
in AwaitHeader (`usb_state = 0`) is one call of `fireSolenoidByTiming` (the
fire log grows by exactly one entry, for `src`) and leaves `usb_state = 0`. -/
theorem C12_single_byte_fire (s : State) (b : Nat) (src : CommSource) (c : Clock)
    (h0 : s.usb_state = 0) (hb : b = 0x10 ∨ b = 0x11) :
    handleSerialByte s b src c = fireSolenoidByTiming { s with activeSource := src } c
      ∧ (handleSerialByte s b src c).fireLog = s.fireLog ++ [src]
      ∧ (handleSerialByte s b src c).usb_state = 0 := by
  have h1 : b ≠ 0x01 := by omega
  have h2 : b ≠ 0x02 := by omega
  obtain ⟨hu, hl⟩ := handleSerialByte_header s b src c h0
  rw [if_neg h1, if_neg h2] at hu hl
  rw [if_pos hb] at hl
  refine ⟨?_, hl, hu⟩
  simp only [handleSerialByte, h0, if_neg h1, if_neg h2, if_pos hb]

/-- C12 at both fire bytes from the initial state, on the BT transport. -/
theorem C12_single_byte_fire_witness :
    (handleSerialByte (initState AppMode.MODE_USB_BT) 0x10 CommSource.SRC_BT
        { ms := 500, us := 0 }).fireLog = [CommSource.SRC_BT]
      ∧ (handleSerialByte (initState AppMode.MODE_USB_BT) 0x11 CommSource.SRC_BT
        { ms := 500, us := 0 }).usb_state = 0 := by
  exact ⟨(C12_single_byte_fire _ 0x10 _ _ rfl (Or.inl rfl)).2.1,
    (C12_single_byte_fire _ 0x11 _ _ rfl (Or.inr rfl)).2.2⟩

/-- C13, as stated, fails: from the initial state an I2C reception of `0x11`
leaves `solenoidRequest` false, while a reception of `0x10` sets it. -/
theorem C13_counterexample :
    ¬ ((i2cReceive (initState AppMode.MODE_I2C) [0x11] { ms := 500, us := 0 }).solenoidRequest
        = (i2cReceive (initState AppMode.MODE_I2C) [0x10]
            { ms := 500, us := 0 }).solenoidRequest) := by
  decide

/-- C13, amended: `onReceiveEvent` ignores the command byte `0x11`.  For a
reception that starts with `0x11` it records `lastCmd`, `lastReceiveUs` and
`activeSource` and empties the receive buffer, and nothing else changes
(`solenoidRequest`, `lastFireMs` and `solenoidReqCount` keep their values);
a reception that starts with `0x10` sets `solenoidRequest`. -/
theorem C13_i2c_strong_fire_ignored (s : State) (rest : List Nat) (c : Clock) :
    i2cReceive s (0x11 :: rest) c
        = { s with wire := [], lastCmd := 0x11, lastReceiveUs := c.us,
                   activeSource := CommSource.SRC_I2C }
      ∧ (i2cReceive s (0x11 :: rest) c).solenoidRequest = s.solenoidRequest
      ∧ (i2cReceive s (0x11 :: rest) c).lastFireMs = s.lastFireMs
      ∧ (i2cReceive s (0x11 :: rest) c).solenoidReqCount = s.solenoidReqCount
      ∧ (i2cReceive s (0x10 :: rest) c).solenoidRequest = true := by
  have hpos : ¬ (((0x11 :: rest).length : Int) ≤ 0) := by
    rw [List.length_cons]
    omega
  have e : i2cReceive s (0x11 :: rest) c
        = { s with wire := [], lastCmd := 0x11, lastReceiveUs := c.us,
                   activeSource := CommSource.SRC_I2C } := by
    simp only [i2cReceive, onReceiveEvent, wireRead, hpos, if_false]
    norm_num
  rw [e]
  exact ⟨rfl, rfl, rfl, rfl, (i2cReceive_fire s rest c).2.1⟩

end Solenoid

namespace Solenoid

/-! ## Theorems: solenoid engine -/

theorem pulseVibrationFast_counts (s : State) (c : Clock) :
    (pulseVibrationFast s c).clicks = s.clicks
      ∧ (pulseVibrationFast s c).pulses = s.pulses + 1
      ∧ (pulseVibrationFast s c).solLastStepMs = s.solLastStepMs
      ∧ (s.vibEnabled = true →
          (pulseVibrationFast s c).vibPulsing = true
          ∧ (pulseVibrationFast s c).vibration = s.vibStrength
          ∧ (pulseVibrationFast s c).vibOffAtUs = add32 c.us 45000) := by
  simp only [pulseVibrationFast, startVibrationPulseUs]
  split_ifs with h <;> simp_all

theorem updateSolenoid_forward (s : State) (c : Clock)
    (hs : s.solState = SolenoidState.SOL_STATE_NORMAL_FORWARD) :
    (¬ 3 ≤ sub32 c.ms s.solLastStepMs → updateSolenoid s c = s)
      ∧ (3 ≤ sub32 c.ms s.solLastStepMs → s.solPos + 5 < 15 →
          updateSolenoid s c
            = { s with solLastStepMs := add32 s.solLastStepMs 3, solPos := s.solPos + 5 })
      ∧ (3 ≤ sub32 c.ms s.solLastStepMs → 15 ≤ s.solPos + 5 →
          (updateSolenoid s c).solState = SolenoidState.SOL_STATE_NORMAL_BACK
          ∧ (updateSolenoid s c).solPos = 15
          ∧ (updateSolenoid s c).solLastStepMs = add32 s.solLastStepMs 3
          ∧ (updateSolenoid s c).clicks = s.clicks + 1
          ∧ (updateSolenoid s c).pulses = s.pulses + 1
          ∧ (s.vibEnabled = true →
              (updateSolenoid s c).vibPulsing = true
              ∧ (updateSolenoid s c).vibration = s.vibStrength)) := by
  refine ⟨?_, ?_, ?_⟩
  · intro h
    simp only [updateSolenoid, hs, SOL_NORMAL_STEP_INTERVAL_MS]
    rw [if_neg (by omega)]
  · intro h hp
    simp only [updateSolenoid, hs, SOL_NORMAL_STEP_INTERVAL_MS]
    rw [if_pos (by omega), if_neg (by omega)]
  · intro h hp
    simp only [updateSolenoid, hs, SOL_NORMAL_STEP_INTERVAL_MS]
    rw [if_pos (by omega), if_pos (by omega)]
    dsimp only
    refine ⟨rfl, ?_, ?_, ?_, ?_, ?_⟩
    · exact (pulseVibrationFast_frame _ c).2.2.2.2
    · exact (pulseVibrationFast_counts _ c).2.2.1
    · exact (pulseVibrationFast_counts _ c).1
    · exact (pulseVibrationFast_counts _ c).2.1
    · intro hv
      constructor
      · refine ((pulseVibrationFast_counts _ c).2.2.2 ?_).1
        exact hv
      · refine ((pulseVibrationFast_counts _ c).2.2.2 ?_).2.1
        exact hv

theorem updateSolenoid_back (s : State) (c : Clock)
    (hs : s.solState = SolenoidState.SOL_STATE_NORMAL_BACK) :
    (¬ 3 ≤ sub32 c.ms s.solLastStepMs → updateSolenoid s c = s)
      ∧ (3 ≤ sub32 c.ms s.solLastStepMs → 0 < s.solPos - 5 →
          updateSolenoid s c
            = { s with solLastStepMs := add32 s.solLastStepMs 3, solPos := s.solPos - 5 })
      ∧ (3 ≤ sub32 c.ms s.solLastStepMs → s.solPos - 5 ≤ 0 →
          updateSolenoid s c
            = { s with solLastStepMs := add32 s.solLastStepMs 3, solPos := 0,
                       solState := SolenoidState.SOL_STATE_IDLE }) := by
  refine ⟨?_, ?_, ?_⟩
  · intro h
    simp only [updateSolenoid, hs, SOL_NORMAL_STEP_INTERVAL_MS]
    rw [if_neg (by omega)]
  · intro h hp
    simp only [updateSolenoid, hs, SOL_NORMAL_STEP_INTERVAL_MS]
    rw [if_pos (by omega), if_neg (by omega)]
  · intro h hp
    simp only [updateSolenoid, hs, SOL_NORMAL_STEP_INTERVAL_MS]
    rw [if_pos (by omega), if_pos (by omega)]

theorem updateSolenoid_idle (s : State) (c : Clock)
    (hs : s.solState = SolenoidState.SOL_STATE_IDLE) : updateSolenoid s c = s := by
  simp only [updateSolenoid, hs]

/-- C14: in state NormalForward, a tick that is not due
(`now - solLastStepMs < 3`) changes nothing; a due tick whose new position
`solPos + 5` is below 15 adds 5 to `solPos`, advances `solLastStepMs` by 3
(as `uint32_t`) and changes nothing else, so it emits no click and stays in
NormalForward; a due tick whose new position is at least 15 enters NormalBack
with `solPos = 15` and `solLastStepMs` advanced by 3, after exactly one call of
`playClick` and one of `pulseVibrationFast` (which starts the motor when
vibration is enabled). -/
theorem C14_forward_to_back (s : State) (c : Clock)
    (hs : s.solState = SolenoidState.SOL_STATE_NORMAL_FORWARD) :
    (sub32 c.ms s.solLastStepMs < 3 → updateSolenoid s c = s)
      ∧ (3 ≤ sub32 c.ms s.solLastStepMs → s.solPos + 5 < 15 →
          updateSolenoid s c
            = { s with solLastStepMs := add32 s.solLastStepMs 3, solPos := s.solPos + 5 }
          ∧ (updateSolenoid s c).solState = SolenoidState.SOL_STATE_NORMAL_FORWARD
          ∧ (updateSolenoid s c).clicks = s.clicks
          ∧ (updateSolenoid s c).pulses = s.pulses)
      ∧ (3 ≤ sub32 c.ms s.solLastStepMs → 15 ≤ s.solPos + 5 →
          (updateSolenoid s c).solState = SolenoidState.SOL_STATE_NORMAL_BACK
          ∧ (updateSolenoid s c).solPos = 15
          ∧ (updateSolenoid s c).solLastStepMs = add32 s.solLastStepMs 3
          ∧ (updateSolenoid s c).clicks = s.clicks + 1
          ∧ (updateSolenoid s c).pulses = s.pulses + 1
          ∧ (s.vibEnabled = true →
              (updateSolenoid s c).vibPulsing = true
              ∧ (updateSolenoid s c).vibration = s.vibStrength)) := by
  obtain ⟨h1, h2, h3⟩ := updateSolenoid_forward s c hs
  refine ⟨fun h => h1 (by omega), ?_, h3⟩
  intro hd hp
  rw [h2 hd hp]
  exact ⟨rfl, hs, rfl, rfl⟩

/-- C14 on the three due ticks after a normal start at 100 ms: the position is
5 after the first, and after the third the engine is in NormalBack at 15 with
one more click. -/
theorem C14_forward_to_back_witness :
    (updateSolenoid (startNormalSolenoid (initState AppMode.MODE_DEMO) { ms := 100, us := 0 })
        { ms := 103, us := 0 }).solPos = 5
      ∧ (updateSolenoid
          { startNormalSolenoid (initState AppMode.MODE_DEMO) { ms := 100, us := 0 } with
            solPos := 10 } { ms := 103, us := 0 }).solState
          = SolenoidState.SOL_STATE_NORMAL_BACK
      ∧ (updateSolenoid
          { startNormalSolenoid (initState AppMode.MODE_DEMO) { ms := 100, us := 0 } with
            solPos := 10 } { ms := 103, us := 0 }).clicks = 1 := by
  have h1 := (C14_forward_to_back
    (startNormalSolenoid (initState AppMode.MODE_DEMO) { ms := 100, us := 0 })
    { ms := 103, us := 0 } rfl).2.1 (by decide) (by decide)
  have h2 := (C14_forward_to_back
    { startNormalSolenoid (initState AppMode.MODE_DEMO) { ms := 100, us := 0 } with
      solPos := 10 } { ms := 103, us := 0 } rfl).2.2 (by decide) (by decide)
  refine ⟨?_, h2.1, h2.2.2.2.1⟩
  rw [h1.1]
  rfl

end Solenoid

namespace Solenoid

theorem normalPhase_step (k j m p : Nat) (t : State) (c : Clock)
    (h : normalPhase k j m p t) :
    (¬ (p < 6 ∧ 3 ≤ sub32 c.ms t.solLastStepMs) ∧ normalPhase k j m p (updateSolenoid t c))
      ∨ (p < 6 ∧ 3 ≤ sub32 c.ms t.solLastStepMs
          ∧ normalPhase k j m (p + 1) (updateSolenoid t c)) := by
  obtain ⟨hp, hst, hpos, hlast, hcl, hpu⟩ := h
  by_cases hd : 3 ≤ sub32 c.ms t.solLastStepMs
  · have hcases : p = 0 ∨ p = 1 ∨ p = 2 ∨ p = 3 ∨ p = 4 ∨ p = 5 ∨ p = 6 := by omega
    rcases hcases with rfl | rfl | rfl | rfl | rfl | rfl | rfl
    · norm_num at hst hpos hcl hpu
      right
      rw [(updateSolenoid_forward t c hst).2.1 hd (by omega)]
      refine ⟨by omega, hd, by omega, ?_, ?_, ?_, ?_, ?_⟩ <;> norm_num [add32] <;>
        first | assumption | omega
    · norm_num at hst hpos hcl hpu
      right
      rw [(updateSolenoid_forward t c hst).2.1 hd (by omega)]
      refine ⟨by omega, hd, by omega, ?_, ?_, ?_, ?_, ?_⟩ <;> norm_num [add32] <;>
        first | assumption | omega
    · norm_num at hst hpos hcl hpu
      right
      obtain ⟨a1, a2, a3, a4, a5, _⟩ := (updateSolenoid_forward t c hst).2.2 hd (by omega)
      refine ⟨by omega, hd, by omega, ?_, ?_, ?_, ?_, ?_⟩ <;> norm_num [add32] <;>
        first | assumption | (rw [a3, add32]; omega) | omega
    · norm_num at hst hpos hcl hpu
      right
      rw [(updateSolenoid_back t c hst).2.1 hd (by omega)]
      refine ⟨by omega, hd, by omega, ?_, ?_, ?_, ?_, ?_⟩ <;> norm_num [add32] <;>
        first | assumption | omega
    · norm_num at hst hpos hcl hpu
      right
      rw [(updateSolenoid_back t c hst).2.1 hd (by omega)]
      refine ⟨by omega, hd, by omega, ?_, ?_, ?_, ?_, ?_⟩ <;> norm_num [add32] <;>
        first | assumption | omega
    · norm_num at hst hpos hcl hpu
      right
      rw [(updateSolenoid_back t c hst).2.2 hd (by omega)]
      refine ⟨by omega, hd, by omega, ?_, ?_, ?_, ?_, ?_⟩ <;> norm_num [add32] <;>
        first | assumption | omega
    · norm_num at hst hpos hcl hpu
      left
      rw [updateSolenoid_idle t c hst]
      exact ⟨by omega, by omega, by norm_num [hst], by norm_num [hpos], hlast,
        by norm_num [hcl], by norm_num [hpu]⟩
  · left
    have e : updateSolenoid t c = t := by
      have hcases : p < 3 ∨ (3 ≤ p ∧ p < 6) ∨ p = 6 := by omega
      rcases hcases with h1 | h2 | rfl
      · rw [if_pos h1] at hst
        exact (updateSolenoid_forward t c hst).1 hd
      · rw [if_neg (by omega), if_pos h2.2] at hst
        exact (updateSolenoid_back t c hst).1 hd
      · norm_num at hst
        exact updateSolenoid_idle t c hst
    rw [e]
    exact ⟨fun hh => hd hh.2, hp, hst, hpos, hlast, hcl, hpu⟩

theorem sub32_due_of_start (cms m last p : Nat) (hp : p ≤ 5)
    (hlast : last % 4294967296 = (m + 3 * p) % 4294967296)
    (hd : 18 ≤ sub32 cms m) : 3 ≤ sub32 cms last := by
  unfold sub32 at hd ⊢
  have h1 : (m + 3 * p) % 4294967296 = m % 4294967296 + 3 * p
      ∨ (m + 3 * p) % 4294967296 + 4294967296 = m % 4294967296 + 3 * p := by omega
  rw [hlast]
  have hm : m % 4294967296 < 4294967296 := Nat.mod_lt _ (by decide)
  have hdm := Nat.div_add_mod (cms + (4294967296 - m % 4294967296)) 4294967296
  have hr : (cms + (4294967296 - m % 4294967296)) % 4294967296 < 4294967296 :=
    Nat.mod_lt _ (by decide)
  generalize m % 4294967296 = a at *
  generalize (m + 3 * p) % 4294967296 = l at *
  generalize (cms + (4294967296 - a)) % 4294967296 = r at *
  generalize (cms + (4294967296 - a)) / 4294967296 = q at *
  rcases h1 with h | h
  · have hX : cms + (4294967296 - l) = (r - 3 * p) + 4294967296 * q := by omega
    rw [hX, Nat.add_mul_mod_self_left, Nat.mod_eq_of_lt (by omega)]
    omega
  · have hX : cms + (4294967296 - l) = (r - 3 * p) + 4294967296 * (q + 1) := by omega
    rw [hX, Nat.add_mul_mod_self_left, Nat.mod_eq_of_lt (by omega)]
    omega

theorem updateSolenoidMany_cons (t : State) (c : Clock) (cs : List Clock) :
    updateSolenoidMany t (c :: cs) = updateSolenoidMany (updateSolenoid t c) cs := by
  simp [updateSolenoidMany]

theorem normalPhase_many (k j m : Nat) (cs : List Clock) :
    ∀ (p : Nat) (t : State), normalPhase k j m p t →
      ∃ q, p ≤ q ∧ normalPhase k j m q (updateSolenoidMany t cs) := by
  induction cs with
  | nil =>
    intro p t h
    exact ⟨p, Nat.le_refl p, by simpa [updateSolenoidMany] using h⟩
  | cons c cs ih =>
    intro p t h
    rw [updateSolenoidMany_cons]
    rcases normalPhase_step k j m p t c h with ⟨_, h1⟩ | ⟨_, _, h1⟩
    · exact ih p _ h1
    · obtain ⟨q, hq, hq2⟩ := ih (p + 1) _ h1
      exact ⟨q, by omega, hq2⟩

theorem normalPhase_many_due (k j m : Nat) (cs : List Clock) :
    ∀ (p : Nat) (t : State), normalPhase k j m p t →
      (∀ c ∈ cs, 18 ≤ sub32 c.ms m) →
      normalPhase k j m (min (p + cs.length) 6) (updateSolenoidMany t cs) := by
  induction cs with
  | nil =>
    intro p t h _
    have hp : p ≤ 6 := h.1
    simpa [updateSolenoidMany, Nat.min_eq_left hp] using h
  | cons c cs ih =>
    intro p t h hc
    have hp : p ≤ 6 := h.1
    have hlast := h.2.2.2.1
    have hdc : 18 ≤ sub32 c.ms m := hc c (List.mem_cons_self _ _)
    rw [updateSolenoidMany_cons]
    rcases normalPhase_step k j m p t c h with ⟨hn, h1⟩ | ⟨_, _, h1⟩
    · have h6 : p = 6 := by
        by_contra hne
        apply hn
        exact ⟨by omega, sub32_due_of_start c.ms m _ p (by omega) hlast hdc⟩
      have := ih p _ h1 (fun x hx => hc x (List.mem_cons_of_mem _ hx))
      rw [h6] at this ⊢
      simpa using this
    · have := ih (p + 1) _ h1 (fun x hx => hc x (List.mem_cons_of_mem _ hx))
      have e : min (p + 1 + cs.length) 6 = min (p + (c :: cs).length) 6 := by
        rw [List.length_cons]
        omega
      rw [← e]
      exact this

theorem solenoidEffect_phase (s : State) (c0 : Clock) :
    normalPhase s.clicks s.pulses c0.ms 0 (solenoidEffect s c0) := by
  obtain ⟨g1, g2, _, _⟩ := pulseVibrationFast_counts (playClick s) c0
  refine ⟨by omega, rfl, rfl, rfl, ?_, ?_⟩
  · show (pulseVibrationFast (playClick s) c0).clicks = _
    rw [g1]
    rfl
  · show (pulseVibrationFast (playClick s) c0).pulses = _
    rw [g2]
    rfl

theorem pulseVibrationFast_motor (s : State) (c : Clock) (hv : s.vibEnabled = true) :
    pulseVibrationFast s c
      = { s with pulses := s.pulses + 1, vibration := s.vibStrength, vibPulsing := true,
                 vibOffAtUs := add32 c.us 45000 } := by
  simp [pulseVibrationFast, startVibrationPulseUs, hv]

theorem updateSolenoid_click_pulse (t : State) (c : Clock) (hv : t.vibEnabled = true) :
    (updateSolenoid t c).vibEnabled = true
      ∧ (updateSolenoid t c).vibStrength = t.vibStrength
      ∧ (((updateSolenoid t c).clicks = t.clicks
            ∧ (updateSolenoid t c).pulses = t.pulses
            ∧ (updateSolenoid t c).vibPulsing = t.vibPulsing
            ∧ (updateSolenoid t c).vibration = t.vibration
            ∧ (updateSolenoid t c).vibOffAtUs = t.vibOffAtUs)
          ∨ ((updateSolenoid t c).clicks = t.clicks + 1
            ∧ (updateSolenoid t c).pulses = t.pulses + 1
            ∧ (updateSolenoid t c).vibPulsing = true
            ∧ (updateSolenoid t c).vibration = t.vibStrength
            ∧ (updateSolenoid t c).vibOffAtUs = add32 c.us 45000)) := by
  unfold updateSolenoid
  dsimp only
  split <;> (try split_ifs) <;>
    (try rw [pulseVibrationFast_motor _ c (by simpa [playClick] using hv)]) <;>
    simp [playClick, hv]

theorem updateSolenoidMany_motor (cs : List Clock) :
    ∀ t : State, t.vibEnabled = true →
      (updateSolenoidMany t cs).vibEnabled = true
        ∧ (updateSolenoidMany t cs).vibStrength = t.vibStrength
        ∧ t.clicks ≤ (updateSolenoidMany t cs).clicks
        ∧ ((updateSolenoidMany t cs).clicks = t.clicks →
            (updateSolenoidMany t cs).vibPulsing = t.vibPulsing
            ∧ (updateSolenoidMany t cs).vibration = t.vibration
            ∧ (updateSolenoidMany t cs).vibOffAtUs = t.vibOffAtUs)
        ∧ (t.clicks < (updateSolenoidMany t cs).clicks →
            (updateSolenoidMany t cs).vibPulsing = true
            ∧ (updateSolenoidMany t cs).vibration = t.vibStrength
            ∧ ∃ c ∈ cs, (updateSolenoidMany t cs).vibOffAtUs = add32 c.us 45000) := by
  induction cs with
  | nil =>
    intro t hv
    refine ⟨hv, rfl, Nat.le_refl _, fun _ => ⟨rfl, rfl, rfl⟩, fun h => ?_⟩
    exact absurd h (Nat.lt_irrefl _)
  | cons c cs ih =>
    intro t hv
    obtain ⟨e1, e2, hstep⟩ := updateSolenoid_click_pulse t c hv
    obtain ⟨r1, r2, r3, r4, r5⟩ := ih (updateSolenoid t c) e1
    rw [updateSolenoidMany_cons]
    refine ⟨r1, r2.trans e2, ?_, ?_, ?_⟩
    · rcases hstep with ⟨a, _⟩ | ⟨a, _⟩ <;> omega
    · intro h
      rcases hstep with ⟨a1, _, a3, a4, a5⟩ | ⟨a1, _⟩
      · obtain ⟨b1, b2, b3⟩ := r4 (by omega)
        exact ⟨b1.trans a3, b2.trans a4, b3.trans a5⟩
      · omega
    · intro h
      rcases hstep with ⟨a1, _, a3, a4, a5⟩ | ⟨a1, _, a3, a4, a5⟩
      · obtain ⟨b1, b2, d, hd, b3⟩ := r5 (by omega)
        exact ⟨b1, b2.trans e2, d, List.mem_cons_of_mem _ hd, b3⟩
      · rcases Nat.lt_or_ge (updateSolenoid t c).clicks
            (updateSolenoidMany (updateSolenoid t c) cs).clicks with hlt | hge
        · obtain ⟨b1, b2, d, hd, b3⟩ := r5 hlt
          exact ⟨b1, b2.trans e2, d, List.mem_cons_of_mem _ hd, b3⟩
        · obtain ⟨b1, b2, b3⟩ := r4 (by omega)
          exact ⟨b1.trans a3, b2.trans a4, c, List.mem_cons_self _ _, b3.trans a5⟩

theorem solenoidEffect_motor (s : State) (c : Clock) (hv : s.vibEnabled = true) :
    (solenoidEffect s c).vibEnabled = true
      ∧ (solenoidEffect s c).vibStrength = s.vibStrength
      ∧ (solenoidEffect s c).vibPulsing = true
      ∧ (solenoidEffect s c).vibration = s.vibStrength
      ∧ (solenoidEffect s c).vibOffAtUs = add32 c.us 45000 := by
  unfold solenoidEffect startNormalSolenoid
  rw [pulseVibrationFast_motor _ c (by simpa [playClick] using hv)]
  simp [playClick, hv]

theorem startFastSolenoid_motor (s : State) (c : Clock) (hv : s.vibEnabled = true) :
    (startFastSolenoid s c).vibEnabled = true
      ∧ (startFastSolenoid s c).vibStrength = s.vibStrength
      ∧ (startFastSolenoid s c).vibPulsing = true
      ∧ (startFastSolenoid s c).vibration = s.vibStrength
      ∧ (startFastSolenoid s c).vibOffAtUs = add32 c.us 45000 := by
  unfold startFastSolenoid
  dsimp only
  rw [pulseVibrationFast_motor _ c (by simpa [playClick] using hv)]
  simp [playClick, hv]

/-- C15: `solenoidEffect`, called in any state, makes one call of `playClick`
and one of `pulseVibrationFast` and puts the engine in NormalForward at
position 0.  While no further fire arrives, whatever the times of the
following `updateSolenoid` ticks, the total never exceeds two clicks, and
whenever the engine is back in Idle exactly two clicks and two pulses have been
emitted since before the call and `solPos = 0`; the engine is back in Idle
after six ticks that come at least 18 ms after the start; a tick in NormalBack
emits no click and no pulse and leaves the motor as it is.  Each of the two
clicks comes with a haptic pulse: with vibration enabled, `solenoidEffect`
switches the motor on at `vibStrength` until 45 ms after the call, the tick
that goes from NormalForward to NormalBack switches it on again until 45 ms
after that tick, and so after the run the motor is on with the switch-off time
set by `solenoidEffect` while the engine is in NormalForward and set by one of
the ticks once it is in NormalBack or Idle. -/
theorem C15_two_clicks_per_normal_fire (s : State) (c0 : Clock) (cs : List Clock) :
    (solenoidEffect s c0).clicks = s.clicks + 1
      ∧ (solenoidEffect s c0).pulses = s.pulses + 1
      ∧ (solenoidEffect s c0).solState = SolenoidState.SOL_STATE_NORMAL_FORWARD
      ∧ (solenoidEffect s c0).solPos = 0
      ∧ (updateSolenoidMany (solenoidEffect s c0) cs).clicks ≤ s.clicks + 2
      ∧ ((updateSolenoidMany (solenoidEffect s c0) cs).solState = SolenoidState.SOL_STATE_IDLE →
          (updateSolenoidMany (solenoidEffect s c0) cs).clicks = s.clicks + 2
          ∧ (updateSolenoidMany (solenoidEffect s c0) cs).pulses = s.pulses + 2
          ∧ (updateSolenoidMany (solenoidEffect s c0) cs).solPos = 0)
      ∧ ((updateSolenoidMany (solenoidEffect s c0) cs).solState
            = SolenoidState.SOL_STATE_NORMAL_FORWARD →
          (updateSolenoidMany (solenoidEffect s c0) cs).clicks = s.clicks + 1)
      ∧ ((updateSolenoidMany (solenoidEffect s c0) cs).solState
            = SolenoidState.SOL_STATE_NORMAL_BACK →
          (updateSolenoidMany (solenoidEffect s c0) cs).clicks = s.clicks + 2)
      ∧ (6 ≤ cs.length → (∀ c ∈ cs, 18 ≤ sub32 c.ms c0.ms) →
          (updateSolenoidMany (solenoidEffect s c0) cs).solState = SolenoidState.SOL_STATE_IDLE)
      ∧ (∀ (t : State) (c : Clock), t.solState = SolenoidState.SOL_STATE_NORMAL_BACK →
          (updateSolenoid t c).clicks = t.clicks ∧ (updateSolenoid t c).pulses = t.pulses
          ∧ (updateSolenoid t c).vibPulsing = t.vibPulsing
          ∧ (updateSolenoid t c).vibration = t.vibration
          ∧ (updateSolenoid t c).vibOffAtUs = t.vibOffAtUs)
      ∧ (s.vibEnabled = true →
          (solenoidEffect s c0).vibPulsing = true
          ∧ (solenoidEffect s c0).vibration = s.vibStrength
          ∧ (solenoidEffect s c0).vibOffAtUs = add32 c0.us 45000)
      ∧ (∀ (t : State) (c : Clock), t.solState = SolenoidState.SOL_STATE_NORMAL_FORWARD →
          t.vibEnabled = true → 3 ≤ sub32 c.ms t.solLastStepMs → 15 ≤ t.solPos + 5 →
          (updateSolenoid t c).solState = SolenoidState.SOL_STATE_NORMAL_BACK
          ∧ (updateSolenoid t c).clicks = t.clicks + 1
          ∧ (updateSolenoid t c).vibPulsing = true
          ∧ (updateSolenoid t c).vibration = t.vibStrength
          ∧ (updateSolenoid t c).vibOffAtUs = add32 c.us 45000)
      ∧ (s.vibEnabled = true →
          ((updateSolenoidMany (solenoidEffect s c0) cs).solState
              = SolenoidState.SOL_STATE_NORMAL_FORWARD →
            (updateSolenoidMany (solenoidEffect s c0) cs).vibPulsing = true
            ∧ (updateSolenoidMany (solenoidEffect s c0) cs).vibration = s.vibStrength
            ∧ (updateSolenoidMany (solenoidEffect s c0) cs).vibOffAtUs = add32 c0.us 45000)
          ∧ ((updateSolenoidMany (solenoidEffect s c0) cs).solState
                = SolenoidState.SOL_STATE_NORMAL_BACK
              ∨ (updateSolenoidMany (solenoidEffect s c0) cs).solState
                = SolenoidState.SOL_STATE_IDLE →
            (updateSolenoidMany (solenoidEffect s c0) cs).vibPulsing = true
            ∧ (updateSolenoidMany (solenoidEffect s c0) cs).vibration = s.vibStrength
            ∧ ∃ c ∈ cs, (updateSolenoidMany (solenoidEffect s c0) cs).vibOffAtUs
                = add32 c.us 45000)) := by
  have h0 := solenoidEffect_phase s c0
  obtain ⟨q, _, hq, hst, hpos, _, hcl, hpu⟩ := normalPhase_many s.clicks s.pulses c0.ms cs 0 _ h0
  refine ⟨?_, ?_, h0.2.1, h0.2.2.1, ?_, ?_, ?_, ?_, ?_, ?_, ?_, ?_, ?_⟩
  · simpa using h0.2.2.2.2.1
  · simpa using h0.2.2.2.2.2
  · rw [hcl]
    split_ifs <;> omega
  · intro hidle
    have h6 : q = 6 := by
      by_contra hne
      rw [hidle] at hst
      split_ifs at hst
      omega
    subst h6
    refine ⟨by simpa using hcl, by simpa using hpu, by simpa using hpos⟩
  · intro hnf
    rw [hnf] at hst
    rw [hcl]
    split_ifs at hst ⊢
    rfl
  · intro hnb
    rw [hnb] at hst
    rw [hcl]
    split_ifs at hst ⊢
    rfl
  · intro hlen hdue
    have h := normalPhase_many_due s.clicks s.pulses c0.ms cs 0 _ h0 hdue
    have e : min (0 + cs.length) 6 = 6 := by omega
    rw [e] at h
    simpa using h.2.1
  · intro t c ht
    obtain ⟨b1, b2, b3⟩ := updateSolenoid_back t c ht
    by_cases hd : 3 ≤ sub32 c.ms t.solLastStepMs
    · by_cases hp : 0 < t.solPos - 5
      · rw [b2 hd hp]
        exact ⟨rfl, rfl, rfl, rfl, rfl⟩
      · rw [b3 hd (by omega)]
        exact ⟨rfl, rfl, rfl, rfl, rfl⟩
    · rw [b1 hd]
      exact ⟨rfl, rfl, rfl, rfl, rfl⟩
  · intro hv
    obtain ⟨_, _, m3, m4, m5⟩ := solenoidEffect_motor s c0 hv
    exact ⟨m3, m4, m5⟩
  · intro t c ht hv hd hp
    obtain ⟨a1, _, _, a4, _, _⟩ := (updateSolenoid_forward t c ht).2.2 hd hp
    obtain ⟨_, _, hstep⟩ := updateSolenoid_click_pulse t c hv
    rcases hstep with ⟨b1, _⟩ | ⟨_, _, b3, b4, b5⟩
    · omega
    · exact ⟨a1, a4, b3, b4, b5⟩
  · intro hv
    obtain ⟨m1, m2, m3, m4, m5⟩ := solenoidEffect_motor s c0 hv
    obtain ⟨_, _, _, r4, r5⟩ := updateSolenoidMany_motor cs (solenoidEffect s c0) m1
    have hc0 : (solenoidEffect s c0).clicks = s.clicks + 1 := by simpa using h0.2.2.2.2.1
    by_cases hq3 : q < 3
    · rw [if_pos hq3] at hst hcl
      constructor
      · intro _
        obtain ⟨b1, b2, b3⟩ := r4 (by omega)
        exact ⟨b1.trans m3, b2.trans m4, b3.trans m5⟩
      · intro hnb
        rw [hst] at hnb
        rcases hnb with h | h <;> cases h
    · rw [if_neg hq3] at hst hcl
      constructor
      · intro hnf
        rw [hnf] at hst
        split_ifs at hst
      · intro _
        obtain ⟨b1, b2, d, hd, b3⟩ := r5 (by omega)
        exact ⟨b1, b2.trans m2, d, hd, b3⟩

/-- C15 on a start at 100 ms followed by six ticks at 118 ms: the engine is
back in Idle with two clicks, and the motor is on. -/
theorem C15_two_clicks_per_normal_fire_witness :
    (updateSolenoidMany (solenoidEffect (initState AppMode.MODE_DEMO) { ms := 100, us := 0 })
        (List.replicate 6 { ms := 118, us := 0 })).solState = SolenoidState.SOL_STATE_IDLE
      ∧ (updateSolenoidMany (solenoidEffect (initState AppMode.MODE_DEMO) { ms := 100, us := 0 })
        (List.replicate 6 { ms := 118, us := 0 })).clicks = 2
      ∧ (updateSolenoidMany (solenoidEffect (initState AppMode.MODE_DEMO) { ms := 100, us := 0 })
        (List.replicate 6 { ms := 118, us := 0 })).vibPulsing = true := by
  have h := C15_two_clicks_per_normal_fire (initState AppMode.MODE_DEMO) { ms := 100, us := 0 }
    (List.replicate 6 { ms := 118, us := 0 })
  have hidle := h.2.2.2.2.2.2.2.2.1 (by decide) (by decide)
  exact ⟨hidle, (h.2.2.2.2.2.1 hidle).1,
    ((h.2.2.2.2.2.2.2.2.2.2.2.2 rfl).2 (Or.inr hidle)).1⟩

theorem updateSolenoid_fast1 (t : State) (d : Clock)
    (ht : t.solState = SolenoidState.SOL_STATE_FAST_CLICK1) :
    (16 ≤ sub32 d.ms t.solLastStepMs →
        (updateSolenoid t d).clicks = t.clicks + 1
        ∧ (updateSolenoid t d).pulses = t.pulses + 1
        ∧ (updateSolenoid t d).solLastStepMs = d.ms
        ∧ (updateSolenoid t d).solState = SolenoidState.SOL_STATE_FAST_CLICK2)
      ∧ (sub32 d.ms t.solLastStepMs < 16 → updateSolenoid t d = t) := by
  constructor
  · intro h
    simp only [updateSolenoid, ht, SOL_FAST_GAP_MS]
    rw [if_pos (by omega)]
    dsimp only
    refine ⟨?_, ?_, rfl, rfl⟩
    · exact (pulseVibrationFast_counts _ d).1
    · exact (pulseVibrationFast_counts _ d).2.1
  · intro h
    simp only [updateSolenoid, ht, SOL_FAST_GAP_MS]
    rw [if_neg (by omega)]

theorem updateSolenoid_fast2 (t : State) (d : Clock)
    (ht : t.solState = SolenoidState.SOL_STATE_FAST_CLICK2) :
    (16 ≤ sub32 d.ms t.solLastStepMs →
        updateSolenoid t d = { t with solState := SolenoidState.SOL_STATE_IDLE })
      ∧ (sub32 d.ms t.solLastStepMs < 16 → updateSolenoid t d = t) := by
  constructor
  · intro h
    simp only [updateSolenoid, ht, SOL_FAST_GAP_MS]
    rw [if_pos (by omega)]
  · intro h
    simp only [updateSolenoid, ht, SOL_FAST_GAP_MS]
    rw [if_neg (by omega)]

theorem startFastSolenoid_fields (s : State) (c : Clock) :
    (startFastSolenoid s c).clicks = s.clicks + 1
      ∧ (startFastSolenoid s c).pulses = s.pulses + 1
      ∧ (startFastSolenoid s c).solState = SolenoidState.SOL_STATE_FAST_CLICK1
      ∧ (startFastSolenoid s c).solLastStepMs = c.ms := by
  obtain ⟨g1, g2, _, _⟩ := pulseVibrationFast_counts (playClick s) c
  refine ⟨?_, ?_, rfl, rfl⟩
  · show (pulseVibrationFast (playClick s) c).clicks = _
    rw [g1]
    rfl
  · show (pulseVibrationFast (playClick s) c).pulses = _
    rw [g2]
    rfl

theorem fast_many (k j : Nat) (cs : List Clock) :
    ∀ t : State,
      ((t.solState = SolenoidState.SOL_STATE_FAST_CLICK1 ∧ t.clicks = k + 1 ∧ t.pulses = j + 1)
        ∨ (t.solState = SolenoidState.SOL_STATE_FAST_CLICK2 ∧ t.clicks = k + 2
            ∧ t.pulses = j + 2)
        ∨ (t.solState = SolenoidState.SOL_STATE_IDLE ∧ t.clicks = k + 2 ∧ t.pulses = j + 2)) →
      ((updateSolenoidMany t cs).solState = SolenoidState.SOL_STATE_FAST_CLICK1
          ∧ (updateSolenoidMany t cs).clicks = k + 1
          ∧ (updateSolenoidMany t cs).pulses = j + 1)
        ∨ ((updateSolenoidMany t cs).solState = SolenoidState.SOL_STATE_FAST_CLICK2
          ∧ (updateSolenoidMany t cs).clicks = k + 2
          ∧ (updateSolenoidMany t cs).pulses = j + 2)
        ∨ ((updateSolenoidMany t cs).solState = SolenoidState.SOL_STATE_IDLE
          ∧ (updateSolenoidMany t cs).clicks = k + 2
          ∧ (updateSolenoidMany t cs).pulses = j + 2) := by
  induction cs with
  | nil =>
    intro t h
    simpa [updateSolenoidMany] using h
  | cons d cs ih =>
    intro t h
    rw [updateSolenoidMany_cons]
    apply ih
    rcases h with ⟨hs, hc, hp⟩ | ⟨hs, hc, hp⟩ | ⟨hs, hc, hp⟩
    · obtain ⟨f1, f2⟩ := updateSolenoid_fast1 t d hs
      by_cases hd : 16 ≤ sub32 d.ms t.solLastStepMs
      · obtain ⟨a1, a2, _, a4⟩ := f1 hd
        exact Or.inr (Or.inl ⟨a4, by omega, by omega⟩)
      · rw [f2 (by omega)]
        exact Or.inl ⟨hs, hc, hp⟩
    · obtain ⟨f1, f2⟩ := updateSolenoid_fast2 t d hs
      by_cases hd : 16 ≤ sub32 d.ms t.solLastStepMs
      · rw [f1 hd]
        exact Or.inr (Or.inr ⟨rfl, hc, hp⟩)
      · rw [f2 (by omega)]
        exact Or.inr (Or.inl ⟨hs, hc, hp⟩)
    · rw [updateSolenoid_idle t d hs]
      exact Or.inr (Or.inr ⟨hs, hc, hp⟩)

/-- C16: `startFastSolenoid` makes one call of `playClick` and one of
`pulseVibrationFast` and enters FastClick1 with `solLastStepMs = now`; in
FastClick1 a tick with `now - solLastStepMs ≥ 16` makes a second click and
pulse, sets `solLastStepMs = now` and enters FastClick2, and an earlier tick
changes nothing; in FastClick2 a tick with `now - solLastStepMs ≥ 16` enters
Idle and changes nothing else, and an earlier tick changes nothing.  Hence,
whatever the tick times while no further fire arrives, whenever the engine is
back in Idle exactly two clicks and two pulses have been emitted, and two
ticks, each at least 16 ms after the previous step, bring it there.  Each of
the two clicks comes with a haptic pulse: with vibration enabled,
`startFastSolenoid` switches the motor on at `vibStrength` until 45 ms after
the call, the due tick in FastClick1 switches it on again until 45 ms after
that tick, and so after the run the motor is on with the switch-off time set
by `startFastSolenoid` while the engine is in FastClick1 and set by one of the
ticks once it is in FastClick2 or Idle. -/
theorem C16_fast_sequence (s : State) (c : Clock) (cs : List Clock) :
    ((startFastSolenoid s c).clicks = s.clicks + 1
        ∧ (startFastSolenoid s c).pulses = s.pulses + 1
        ∧ (startFastSolenoid s c).solState = SolenoidState.SOL_STATE_FAST_CLICK1
        ∧ (startFastSolenoid s c).solLastStepMs = c.ms)
      ∧ (∀ (t : State) (d : Clock), t.solState = SolenoidState.SOL_STATE_FAST_CLICK1 →
          (16 ≤ sub32 d.ms t.solLastStepMs →
              (updateSolenoid t d).clicks = t.clicks + 1
              ∧ (updateSolenoid t d).pulses = t.pulses + 1
              ∧ (updateSolenoid t d).solLastStepMs = d.ms
              ∧ (updateSolenoid t d).solState = SolenoidState.SOL_STATE_FAST_CLICK2)
            ∧ (sub32 d.ms t.solLastStepMs < 16 → updateSolenoid t d = t))
      ∧ (∀ (t : State) (d : Clock), t.solState = SolenoidState.SOL_STATE_FAST_CLICK2 →
          (16 ≤ sub32 d.ms t.solLastStepMs →
              updateSolenoid t d = { t with solState := SolenoidState.SOL_STATE_IDLE })
            ∧ (sub32 d.ms t.solLastStepMs < 16 → updateSolenoid t d = t))
      ∧ (updateSolenoidMany (startFastSolenoid s c) cs).clicks ≤ s.clicks + 2
      ∧ ((updateSolenoidMany (startFastSolenoid s c) cs).solState
            = SolenoidState.SOL_STATE_IDLE →
          (updateSolenoidMany (startFastSolenoid s c) cs).clicks = s.clicks + 2
          ∧ (updateSolenoidMany (startFastSolenoid s c) cs).pulses = s.pulses + 2)
      ∧ (∀ d1 d2 : Clock, 16 ≤ sub32 d1.ms c.ms → 16 ≤ sub32 d2.ms d1.ms →
          (updateSolenoidMany (startFastSolenoid s c) [d1, d2]).solState
            = SolenoidState.SOL_STATE_IDLE)
      ∧ (s.vibEnabled = true →
          (startFastSolenoid s c).vibPulsing = true
          ∧ (startFastSolenoid s c).vibration = s.vibStrength
          ∧ (startFastSolenoid s c).vibOffAtUs = add32 c.us 45000)
      ∧ (∀ (t : State) (d : Clock), t.solState = SolenoidState.SOL_STATE_FAST_CLICK1 →
          t.vibEnabled = true → 16 ≤ sub32 d.ms t.solLastStepMs →
          (updateSolenoid t d).vibPulsing = true
          ∧ (updateSolenoid t d).vibration = t.vibStrength
          ∧ (updateSolenoid t d).vibOffAtUs = add32 d.us 45000)
      ∧ (s.vibEnabled = true →
          ((updateSolenoidMany (startFastSolenoid s c) cs).solState
              = SolenoidState.SOL_STATE_FAST_CLICK1 →
            (updateSolenoidMany (startFastSolenoid s c) cs).vibPulsing = true
            ∧ (updateSolenoidMany (startFastSolenoid s c) cs).vibration = s.vibStrength
            ∧ (updateSolenoidMany (startFastSolenoid s c) cs).vibOffAtUs = add32 c.us 45000)
          ∧ ((updateSolenoidMany (startFastSolenoid s c) cs).solState
                = SolenoidState.SOL_STATE_FAST_CLICK2
              ∨ (updateSolenoidMany (startFastSolenoid s c) cs).solState
                = SolenoidState.SOL_STATE_IDLE →
            (updateSolenoidMany (startFastSolenoid s c) cs).vibPulsing = true
            ∧ (updateSolenoidMany (startFastSolenoid s c) cs).vibration = s.vibStrength
            ∧ ∃ d ∈ cs, (updateSolenoidMany (startFastSolenoid s c) cs).vibOffAtUs
                = add32 d.us 45000)) := by
  obtain ⟨s1, s2, s3, s4⟩ := startFastSolenoid_fields s c
  have hm := fast_many s.clicks s.pulses cs (startFastSolenoid s c) (Or.inl ⟨s3, s1, s2⟩)
  refine ⟨⟨s1, s2, s3, s4⟩, fun t d ht => updateSolenoid_fast1 t d ht,
    fun t d ht => updateSolenoid_fast2 t d ht, ?_, ?_, ?_, ?_, ?_, ?_⟩
  · rcases hm with ⟨_, h, _⟩ | ⟨_, h, _⟩ | ⟨_, h, _⟩ <;> omega
  · intro hidle
    rcases hm with ⟨h, _, _⟩ | ⟨h, _, _⟩ | ⟨_, h1, h2⟩
    · rw [hidle] at h
      cases h
    · rw [hidle] at h
      cases h
    · exact ⟨h1, h2⟩
  · intro d1 d2 h1 h2
    rw [updateSolenoidMany_cons, updateSolenoidMany_cons]
    obtain ⟨a1, a2, a3, a4⟩ := (updateSolenoid_fast1 (startFastSolenoid s c) d1 s3).1
      (by rw [s4]; exact h1)
    rw [(updateSolenoid_fast2 _ d2 a4).1 (by rw [a3]; exact h2)]
    rfl
  · intro hv
    obtain ⟨_, _, m3, m4, m5⟩ := startFastSolenoid_motor s c hv
    exact ⟨m3, m4, m5⟩
  · intro t d ht hv hd
    obtain ⟨a1, _, _, _⟩ := (updateSolenoid_fast1 t d ht).1 hd
    obtain ⟨_, _, hstep⟩ := updateSolenoid_click_pulse t d hv
    rcases hstep with ⟨b1, _⟩ | ⟨_, _, b3, b4, b5⟩
    · omega
    · exact ⟨b3, b4, b5⟩
  · intro hv
    obtain ⟨m1, m2, m3, m4, m5⟩ := startFastSolenoid_motor s c hv
    obtain ⟨_, _, _, r4, r5⟩ := updateSolenoidMany_motor cs (startFastSolenoid s c) m1
    constructor
    · intro hf1
      rcases hm with ⟨_, h, _⟩ | ⟨h, _, _⟩ | ⟨h, _, _⟩
      · obtain ⟨b1, b2, b3⟩ := r4 (by omega)
        exact ⟨b1.trans m3, b2.trans m4, b3.trans m5⟩
      · rw [hf1] at h
        cases h
      · rw [hf1] at h
        cases h
    · intro hf2
      rcases hm with ⟨h, _, _⟩ | ⟨_, h, _⟩ | ⟨_, h, _⟩
      · rw [h] at hf2
        rcases hf2 with h2 | h2 <;> cases h2
      · obtain ⟨b1, b2, d, hd, b3⟩ := r5 (by omega)
        exact ⟨b1, b2.trans m2, d, hd, b3⟩
      · obtain ⟨b1, b2, d, hd, b3⟩ := r5 (by omega)
        exact ⟨b1, b2.trans m2, d, hd, b3⟩

/-- C16 on a fast start at 100 ms followed by ticks at 116 ms and 132 ms: the
engine is back in Idle with two clicks, and the motor is on. -/
theorem C16_fast_sequence_witness :
    (updateSolenoidMany (startFastSolenoid (initState AppMode.MODE_DEMO) { ms := 100, us := 0 })
        [{ ms := 116, us := 0 }, { ms := 132, us := 0 }]).solState
          = SolenoidState.SOL_STATE_IDLE
      ∧ (updateSolenoidMany (startFastSolenoid (initState AppMode.MODE_DEMO) { ms := 100, us := 0 })
        [{ ms := 116, us := 0 }, { ms := 132, us := 0 }]).clicks = 2
      ∧ (updateSolenoidMany (startFastSolenoid (initState AppMode.MODE_DEMO) { ms := 100, us := 0 })
        [{ ms := 116, us := 0 }, { ms := 132, us := 0 }]).vibPulsing = true := by
  have h := C16_fast_sequence (initState AppMode.MODE_DEMO) { ms := 100, us := 0 }
    [{ ms := 116, us := 0 }, { ms := 132, us := 0 }]
  have hidle := h.2.2.2.2.2.1 { ms := 116, us := 0 } { ms := 132, us := 0 } (by decide)
    (by decide)
  exact ⟨hidle, (h.2.2.2.2.1 hidle).1, ((h.2.2.2.2.2.2.2.2 rfl).2 (Or.inr hidle)).1⟩

end Solenoid

namespace Solenoid

/-! ## Theorems: end-to-end first fire -/

theorem fireSolenoidByTiming_normal (s : State) (c : Clock)
    (h : 30 ≤ sub32 c.ms s.lastFireMs) :
    fireSolenoidByTiming s c
      = solenoidEffect { s with lastFireMs := c.ms, fireLog := s.fireLog ++ [s.activeSource] }
          c := by
  simp only [fireSolenoidByTiming, FAST_THRESHOLD_MS]
  rw [if_neg (by omega)]

theorem drainSerial_cpm_then_fire (s : State) (src : CommSource) (c1 c2 c3 c4 : Clock)
    (h0 : s.usb_state = 0) :
    drainSerial s src [(0x01, c1), (0x64, c2), (0x00, c3), (0x10, c4)]
      = fireSolenoidByTiming { s with activeSource := src, usb_state := 0 } c4 := by
  simp [drainSerial, handleSerialByte, h0]

/-- C17, as stated, fails for a current time below 30 ms: with
`lastFireMs = 0` and the fire byte handled at `millis() = 10`, the first fire
is classified FAST and the engine is left in FastClick1. -/
theorem C17_counterexample :
    ¬ ((drainSerial (initState AppMode.MODE_USB_BT) CommSource.SRC_USB
          [(0x01, { ms := 10, us := 0 }), (0x64, { ms := 10, us := 0 }),
           (0x00, { ms := 10, us := 0 }), (0x10, { ms := 10, us := 0 })]).solState
        = SolenoidState.SOL_STATE_NORMAL_FORWARD) := by
  decide

/-- C17, amended: feeding `[0x01, 0x64, 0x00, 0x10]` to the serial decoder from
AwaitHeader with no prior fire (`lastFireMs = 0`), with the fire byte handled
at a current time `now` of at least 30 ms (a 32-bit `millis()` value),
dispatches exactly one fire, classified NORMAL: the engine is left in
NormalForward with position 0, the decoder is back in AwaitHeader and
`lastFireMs = now`. -/
theorem C17_first_fire_normal (s : State) (src : CommSource) (c1 c2 c3 c4 : Clock)
    (h0 : s.usb_state = 0) (hl : s.lastFireMs = 0)
    (hn : 30 ≤ c4.ms) (h32 : c4.ms < 4294967296) :
    firesSince s (drainSerial s src [(0x01, c1), (0x64, c2), (0x00, c3), (0x10, c4)]) = [src]
      ∧ (drainSerial s src [(0x01, c1), (0x64, c2), (0x00, c3), (0x10, c4)]).solState
          = SolenoidState.SOL_STATE_NORMAL_FORWARD
      ∧ (drainSerial s src [(0x01, c1), (0x64, c2), (0x00, c3), (0x10, c4)]).solPos = 0
      ∧ (drainSerial s src [(0x01, c1), (0x64, c2), (0x00, c3), (0x10, c4)]).usb_state = 0
      ∧ (drainSerial s src [(0x01, c1), (0x64, c2), (0x00, c3), (0x10, c4)]).lastFireMs
          = c4.ms := by
  have hd : 30 ≤ sub32 c4.ms ({ s with activeSource := src, usb_state := 0 } : State).lastFireMs := by
    show 30 ≤ sub32 c4.ms s.lastFireMs
    rw [hl]
    unfold sub32
    omega
  obtain ⟨_, f2, f3, f4⟩ := fireSolenoidByTiming_fields
    { s with activeSource := src, usb_state := 0 } c4
  have e := fireSolenoidByTiming_normal { s with activeSource := src, usb_state := 0 } c4 hd
  rw [drainSerial_cpm_then_fire s src c1 c2 c3 c4 h0]
  refine ⟨?_, ?_, ?_, f3, f2⟩
  · unfold firesSince
    rw [f4]
    exact List.drop_left _ _
  · rw [e]
    rfl
  · rw [e]
    rfl

/-- C17 (amended) from the initial state with all four bytes handled at
5000 ms on USB. -/
theorem C17_first_fire_normal_witness :
    (drainSerial (initState AppMode.MODE_USB_BT) CommSource.SRC_USB
        [(0x01, { ms := 5000, us := 0 }), (0x64, { ms := 5000, us := 0 }),
         (0x00, { ms := 5000, us := 0 }), (0x10, { ms := 5000, us := 0 })]).solState
        = SolenoidState.SOL_STATE_NORMAL_FORWARD
      ∧ (drainSerial (initState AppMode.MODE_USB_BT) CommSource.SRC_USB
        [(0x01, { ms := 5000, us := 0 }), (0x64, { ms := 5000, us := 0 }),
         (0x00, { ms := 5000, us := 0 }), (0x10, { ms := 5000, us := 0 })]).solPos = 0 := by
  have h := C17_first_fire_normal (initState AppMode.MODE_USB_BT) CommSource.SRC_USB
    { ms := 5000, us := 0 } { ms := 5000, us := 0 } { ms := 5000, us := 0 }
    { ms := 5000, us := 0 } rfl rfl (by decide) (by decide)
  exact ⟨h.2.1, h.2.2.1⟩

end Solenoid

/-! ## Theorems: I2C receive buffer -/

theorem Solenoid.i2cReceive_wire (s : Solenoid.State) (bytes : List Nat) (c : Clock) :
    (Solenoid.i2cReceive s bytes c).wire = [] := by
  cases bytes with
  | nil => simp [Solenoid.i2cReceive, Solenoid.onReceiveEvent]
  | cons b rest =>
    have hpos : ¬ (((b :: rest).length : Int) ≤ 0) := by
      rw [List.length_cons]
      omega
    simp only [Solenoid.i2cReceive, Solenoid.onReceiveEvent, Solenoid.wireRead, hpos, if_false]
    split_ifs <;> rfl

/-- C18, evaluated on the code: the Solenoid Emulator's `onReceiveEvent` leaves
the receive buffer empty for every reception, but the Typing Meter's
`receiveEvent` does not: for the reception `[0x05, 0xAA]` (unrecognised header)
it returns with `0xAA` unread, for `[0x02, 0x03, 0xFF]` with `0xFF` unread, and
for `[0x01, 0x12]` (CPM header with one body byte) with `0x12` unread. -/
theorem C18_typing_meter_leaves_bytes :
    (∀ (s : Solenoid.State) (bytes : List Nat) (c : Clock),
        (Solenoid.i2cReceive s bytes c).wire = [])
      ∧ (TypingMeter.i2cReceive TypingMeter.initState 0 [0x05, 0xAA]).2 = [0xAA]
      ∧ (TypingMeter.i2cReceive TypingMeter.initState 0 [0x02, 0x03, 0xFF]).2 = [0xFF]
      ∧ (TypingMeter.i2cReceive TypingMeter.initState 0 [0x01, 0x12]).2 = [0x12] := by
  refine ⟨Solenoid.i2cReceive_wire, ?_, ?_, ?_⟩ <;> decide

namespace TypingMeter

/-! ## Theorems: clamping in `applyCPM` -/

theorem applyCPM_targetValue (s : State) (now v : Nat) :
    (applyCPM s now v).targetValue = min v 2000 := by
  simp only [applyCPM, applyCPM_clamp]
  split_ifs <;> simp

theorem applyCPM_maxCPM (s : State) (now v : Nat) :
    (applyCPM s now v).maxCPM = max s.maxCPM (min v 2000) := by
  have hm : max s.maxCPM (min v 2000)
      = if min v 2000 > s.maxCPM then min v 2000 else s.maxCPM := by
    split_ifs <;> omega
  rw [hm]
  by_cases h1 : min v 2000 > 0 <;> by_cases h2 : min v 2000 > s.maxCPM <;>
    by_cases h3 : s.appMode = AppMode.MODE_USB_BT <;>
    simp only [applyCPM, applyCPM_clamp, h1, h2, h3, if_true, if_false]

/-- C19: for every value `v`, after `applyCPM(v)` `targetValue = min(v, 2000)`,
the history slot written by the call (the slot `historyIndex` pointed at) holds
`min(v, 2000)`, and `maxCPM` is the larger of its previous value and
`min(v, 2000)`, so it never decreases. -/
theorem C19_applyCPM_clamps (s : State) (now v : Nat)
    (hi : s.historyIndex < s.cpmHistory.length) :
    (applyCPM s now v).targetValue = min v 2000
      ∧ (applyCPM s now v).cpmHistory[s.historyIndex]? = some ((min v 2000 : Nat) : Int)
      ∧ (applyCPM s now v).maxCPM = max s.maxCPM (min v 2000)
      ∧ s.maxCPM ≤ (applyCPM s now v).maxCPM := by
  refine ⟨applyCPM_targetValue s now v, ?_, applyCPM_maxCPM s now v, ?_⟩
  · rw [applyCPM_cpmHistory, List.getElem?_set_self hi]
  · rw [applyCPM_maxCPM]
    exact Nat.le_max_left _ _

/-- C19 at `applyCPM(65535)` and then `applyCPM(0)` from the initial state. -/
theorem C19_applyCPM_clamps_witness :
    (applyCPM initState 0 65535).targetValue = 2000
      ∧ (applyCPM initState 0 65535).cpmHistory[0]? = some 2000
      ∧ (applyCPM (applyCPM initState 0 65535) 0 0).maxCPM = 2000 := by
  have hlen : initState.cpmHistory.length = 300 := List.length_replicate 300 0
  have h1 := C19_applyCPM_clamps initState 0 65535 (by rw [hlen]; decide)
  have h2 := C19_applyCPM_clamps (applyCPM initState 0 65535) 0 0
    (by rw [applyCPM_historyIndex, applyCPM_cpmHistory, List.length_set, hlen]; decide)
  refine ⟨h1.1, h1.2.1, ?_⟩
  rw [h2.2.2.1, h1.2.2.1]
  decide

/-! ## Theorems: Typing Meter USB decoder, layer frame -/

theorem changeShift_calls (s : State) (now : Nat) (next : ShiftMode) :
    (changeShift s now next).calls = s.calls
      ∧ (changeShift s now next).usb_state = s.usb_state := by
  unfold changeShift
  split_ifs <;> exact ⟨rfl, rfl⟩

theorem setActiveLayer_calls (s : State) (now : Nat) (k : Int) :
    (setActiveLayer s now k).calls = s.calls
      ∧ (setActiveLayer s now k).usb_state = s.usb_state := by
  unfold setActiveLayer
  split_ifs
  · exact ⟨rfl, rfl⟩
  · dsimp only
    split <;> first | exact changeShift_calls _ _ _ | exact ⟨rfl, rfl⟩

theorem applyLayer_calls (s : State) (now n : Nat) :
    (applyLayer s now n).calls = s.calls ++ [Call.applyLayer n]
      ∧ (applyLayer s now n).usb_state = s.usb_state := by
  unfold applyLayer
  dsimp only
  by_cases h : n > 4
  · rw [if_pos h]
    exact ⟨rfl, rfl⟩
  · rw [if_neg h]
    exact setActiveLayer_calls { s with calls := s.calls ++ [Call.applyLayer n] } now (n : Int)

/-- C20: for every byte `b`, feeding `[0x02, b]` to `processUSBSerial` in
AwaitHeader (`usb_state = 0`) calls `applyLayer` exactly once, with argument
`b`, and `applyCPM` not at all (the call log grows by that one entry; the new
state is the one `applyLayer(b)` returns, with the source indicator set to
USB), and leaves the decoder in AwaitHeader. -/
theorem C20_usb_layer_frame (s : State) (now b : Nat)
    (h0 : s.usb_state = 0) (hb : b < 256) :
    (processUSBSerial s now [0x02, b]).calls = s.calls ++ [Call.applyLayer b]
      ∧ (processUSBSerial s now [0x02, b]).usb_state = 0
      ∧ processUSBSerial s now [0x02, b]
        = { applyLayer { s with usb_state := 3 } now b with
            activeSource := CommSource.SRC_USB, usb_state := 0 } := by
  have e : processUSBSerial s now [0x02, b]
        = { applyLayer { s with usb_state := 3 } now b with
            activeSource := CommSource.SRC_USB, usb_state := 0 } := by
    simp [processUSBSerial, processUSBSerial_byte, h0, Nat.mod_eq_of_lt hb]
  rw [e]
  exact ⟨(applyLayer_calls _ now b).1, rfl, rfl⟩

/-- C20 at the frame `[0x02, 0x03]` from the initial state. -/
theorem C20_usb_layer_frame_witness :
    (processUSBSerial initState 0 [0x02, 0x03]).calls = [Call.applyLayer 3]
      ∧ (processUSBSerial initState 0 [0x02, 0x03]).usb_state = 0 := by
  have h := C20_usb_layer_frame initState 0 0x03 rfl (by decide)
  exact ⟨h.1, h.2.1⟩

end TypingMeter

/-! ## Theorems: unrecognised header bytes -/

/-- C21: for every byte `b` outside `{0x01, 0x02, 0x10, 0x11}` received in
AwaitHeader (`usb_state = 0`), the Solenoid Emulator's `handleSerialByte` only
records the source (no fire is dispatched and `usb_state` stays 0), and the
Typing Meter's `processUSBSerial` changes nothing (no `applyCPM`, no
`applyLayer`, `usb_state` stays 0). -/
theorem C21_unrecognised_header_dropped (b : Nat) (hbyte : b < 256)
    (hb : b ≠ 0x01 ∧ b ≠ 0x02 ∧ b ≠ 0x10 ∧ b ≠ 0x11) :
    (∀ (s : Solenoid.State) (src : Solenoid.CommSource) (c : Clock), s.usb_state = 0 →
        Solenoid.handleSerialByte s b src c = { s with activeSource := src }
        ∧ (Solenoid.handleSerialByte s b src c).fireLog = s.fireLog
        ∧ (Solenoid.handleSerialByte s b src c).usb_state = 0)
      ∧ (∀ (t : TypingMeter.State) (now : Nat), t.usb_state = 0 →
        TypingMeter.processUSBSerial t now [b] = t
        ∧ (TypingMeter.processUSBSerial t now [b]).calls = t.calls
        ∧ (TypingMeter.processUSBSerial t now [b]).usb_state = 0) := by
  obtain ⟨h1, h2, h3, h4⟩ := hb
  constructor
  · intro s src c h0
    have e : Solenoid.handleSerialByte s b src c = { s with activeSource := src } := by
      have hf : ¬ (b = 0x10 ∨ b = 0x11) := by omega
      simp only [Solenoid.handleSerialByte, h0, if_neg h1, if_neg h2, if_neg hf]
    rw [e]
    exact ⟨rfl, rfl, h0⟩
  · intro t now h0
    have e : TypingMeter.processUSBSerial t now [b] = t := by
      simp only [TypingMeter.processUSBSerial, List.foldl_cons, List.foldl_nil,
        Nat.mod_eq_of_lt hbyte, TypingMeter.processUSBSerial_byte, h0, if_neg h1, if_neg h2]
    rw [e]
    exact ⟨rfl, rfl, h0⟩

/-- C21 at the byte `0x7F` from the initial states. -/
theorem C21_unrecognised_header_dropped_witness :
    (Solenoid.handleSerialByte (Solenoid.initState Solenoid.AppMode.MODE_USB_BT) 0x7F
        Solenoid.CommSource.SRC_USB { ms := 10, us := 0 }).fireLog = []
      ∧ (TypingMeter.processUSBSerial TypingMeter.initState 0 [0x7F]).calls = [] := by
  have h := C21_unrecognised_header_dropped 0x7F (by decide) (by decide)
  exact ⟨(h.1 _ _ _ rfl).2.1, (h.2 _ _ rfl).2.1⟩

namespace TypingMeter

/-! ## Theorems: reset and the haptic setting -/

/-- C22: for every prior state, `resetStats` leaves `vibrationEnabled` equal to
its value before the call. -/
theorem C22_reset_keeps_vibration_setting (s : State) (now : Nat) :
    (resetStats s now).vibrationEnabled = s.vibrationEnabled := by
  simp only [resetStats, prefsRemove, pulseVibration, drawLogScreen, changeShift]
  split_ifs <;> rfl

end TypingMeter

namespace Solenoid

/-! ## Theorems: stream synchronisation -/

theorem framesBytes_framed (fs : List Frame) (hp : ∀ f ∈ fs, properFrame f = true) :
    framed (framesBytes fs) = true ∧ fireFrames (framesBytes fs) = fireCount fs := by
  induction fs with
  | nil => exact ⟨rfl, rfl⟩
  | cons f fs ih =>
    obtain ⟨i1, i2⟩ := ih (fun g hg => hp g (List.mem_cons_of_mem _ hg))
    have hf := hp f (List.mem_cons_self _ _)
    cases f with
    | cpm a b =>
      simp only [framesBytes, frameBytes, fireCount, List.cons_append, List.nil_append]
      exact ⟨by rw [framed_cpm]; exact i1, by rw [fireFrames_cpm]; exact i2⟩
    | layer a =>
      simp only [framesBytes, frameBytes, fireCount, List.cons_append, List.nil_append]
      exact ⟨by rw [framed_layer]; exact i1, by rw [fireFrames_layer]; exact i2⟩
    | fire strong =>
      simp only [framesBytes, frameBytes, fireCount, List.cons_append, List.nil_append]
      cases strong
      · exact ⟨by rw [framed_single _ _ (by decide) (by decide)]; exact i1,
          by rw [fireFrames_single _ _ (by decide) (by decide), i2]; rfl⟩
      · exact ⟨by rw [framed_single _ _ (by decide) (by decide)]; exact i1,
          by rw [fireFrames_single _ _ (by decide) (by decide), i2]; rfl⟩
    | other b =>
      simp only [properFrame, decide_eq_true_eq] at hf
      obtain ⟨h1, h2, h3, h4⟩ := hf
      simp only [framesBytes, frameBytes, fireCount, List.cons_append, List.nil_append]
      refine ⟨by rw [framed_single _ _ h1 h2]; exact i1, ?_⟩
      rw [fireFrames_single _ _ h1 h2, if_neg (by omega), i2]
      omega

/-- C23: for every byte sequence that is a concatenation of frames
`[0x01, a, b]`, `[0x02, a]`, `[0x10]`, `[0x11]` or a single unrecognised byte,
with arbitrary body bytes, feeding it byte by byte to `handleSerialByte` from
AwaitHeader ends in AwaitHeader and dispatches exactly as many fires as the
sequence has `0x10`/`0x11` frames; a byte handled outside AwaitHeader (a body
byte) never dispatches a fire, whatever its value. -/
theorem C23_stream_synchronisation (s : State) (src : CommSource) (fs : List Frame)
    (rx : List (Nat × Clock)) (h0 : s.usb_state = 0)
    (hp : ∀ f ∈ fs, properFrame f = true) (hrx : rxBytes rx = framesBytes fs) :
    (drainSerial s src rx).usb_state = 0
      ∧ firesSince s (drainSerial s src rx) = List.replicate (fireCount fs) src
      ∧ (firesSince s (drainSerial s src rx)).length = fireCount fs
      ∧ (∀ (t : State) (b : Nat) (c : Clock), t.usb_state ≠ 0 →
          (handleSerialByte t b src c).fireLog = t.fireLog) := by
  obtain ⟨f1, f2⟩ := framesBytes_framed fs hp
  rw [← hrx] at f1 f2
  obtain ⟨d1, d2⟩ := drainSerial_framed s src rx h0 f1
  have e : firesSince s (drainSerial s src rx) = List.replicate (fireCount fs) src := by
    unfold firesSince
    rw [d2, List.drop_left, f2]
  refine ⟨d1, e, ?_, fun t b c ht => (handleSerialByte_body t b src c ht).2⟩
  rw [e, List.length_replicate]

/-- C23 on the frames `[0x01,0x10,0x11] [0x02,0x10] [0x10] [0x33] [0x11]`: two
fires, and the decoder is back in AwaitHeader. -/
theorem C23_stream_synchronisation_witness :
    (drainSerial (initState AppMode.MODE_USB_BT) CommSource.SRC_USB
        [(0x01, { ms := 900, us := 0 }), (0x10, { ms := 900, us := 0 }),
         (0x11, { ms := 900, us := 0 }), (0x02, { ms := 900, us := 0 }),
         (0x10, { ms := 900, us := 0 }), (0x10, { ms := 900, us := 0 }),
         (0x33, { ms := 900, us := 0 }), (0x11, { ms := 950, us := 0 })]).usb_state = 0
      ∧ (firesSince (initState AppMode.MODE_USB_BT)
          (drainSerial (initState AppMode.MODE_USB_BT) CommSource.SRC_USB
            [(0x01, { ms := 900, us := 0 }), (0x10, { ms := 900, us := 0 }),
             (0x11, { ms := 900, us := 0 }), (0x02, { ms := 900, us := 0 }),
             (0x10, { ms := 900, us := 0 }), (0x10, { ms := 900, us := 0 }),
             (0x33, { ms := 900, us := 0 }), (0x11, { ms := 950, us := 0 })])).length = 2 := by
  have h := C23_stream_synchronisation (initState AppMode.MODE_USB_BT) CommSource.SRC_USB
    [Frame.cpm 0x10 0x11, Frame.layer 0x10, Frame.fire false, Frame.other 0x33,
     Frame.fire true]
    [(0x01, { ms := 900, us := 0 }), (0x10, { ms := 900, us := 0 }),
     (0x11, { ms := 900, us := 0 }), (0x02, { ms := 900, us := 0 }),
     (0x10, { ms := 900, us := 0 }), (0x10, { ms := 900, us := 0 }),
     (0x33, { ms := 900, us := 0 }), (0x11, { ms := 950, us := 0 })]
    rfl (by decide) (by decide)
  exact ⟨h.1, h.2.2.1⟩

end Solenoid

/-! ## Theorems: true time and the 32-bit counters -/

theorem sub32_true (x L n : Nat) (hx : x % 4294967296 = L % 4294967296)
    (h1 : L ≤ n) (h2 : n < L + 4294967296) :
    sub32 (n % 4294967296) x = n - L := by
  unfold sub32
  rw [hx]
  have hL := Nat.div_add_mod L 4294967296
  have hn := Nat.div_add_mod n 4294967296
  have hLr : L % 4294967296 < 4294967296 := Nat.mod_lt _ (by decide)
  have hnr : n % 4294967296 < 4294967296 := Nat.mod_lt _ (by decide)
  generalize L % 4294967296 = lr at *
  generalize L / 4294967296 = lq at *
  generalize n % 4294967296 = nr at *
  generalize n / 4294967296 = nq at *
  have hq : nq = lq ∨ nq = lq + 1 := by omega
  rcases hq with h | h
  · subst h
    have e : nr + (4294967296 - lr) = (n - L) + 4294967296 * 1 := by omega
    rw [e, Nat.add_mul_mod_self_left, Nat.mod_eq_of_lt (by omega)]
  · subst h
    have e : nr + (4294967296 - lr) = (n - L) + 4294967296 * 0 := by omega
    rw [e, Nat.add_mul_mod_self_left, Nat.mod_eq_of_lt (by omega)]

theorem add32_true (x L k : Nat) (hx : x % 4294967296 = L % 4294967296) :
    add32 x k % 4294967296 = (L + k) % 4294967296 := by
  unfold add32
  rw [Nat.mod_mod, Nat.add_mod, hx, ← Nat.add_mod]

namespace Solenoid

/-! ## Theorems: return to Idle -/

theorem engine_tick (T0 P n us : Nat) (t : State) (hinv : engineInv T0 P t)
    (hPn : P ≤ n) (hn : n < T0 + 4294967296) :
    engineInv T0 n (updateSolenoid t (clockAt (n, us)))
      ∧ engineSteps (updateSolenoid t (clockAt (n, us))) ≤ engineSteps t
      ∧ (P + 16 ≤ n →
          engineSteps (updateSolenoid t (clockAt (n, us))) = engineSteps t - 1) := by
  obtain ⟨hnf, hnb, hlast⟩ := hinv
  cases hs : t.solState with
  | SOL_STATE_IDLE =>
    rw [updateSolenoid_idle t _ hs]
    refine ⟨⟨hnf, hnb, fun h => absurd hs h⟩, Nat.le_refl _, ?_⟩
    intro _
    simp [engineSteps, hs]
  | SOL_STATE_NORMAL_FORWARD =>
    obtain ⟨L, hL0, hLP, hLx⟩ := hlast (by rw [hs]; decide)
    have hsub : sub32 (clockAt (n, us)).ms t.solLastStepMs = n - L :=
      sub32_true _ L n hLx (by omega) (by omega)
    have hpos := hnf hs
    obtain ⟨f1, f2, f3⟩ := updateSolenoid_forward t (clockAt (n, us)) hs
    by_cases hd : 3 ≤ n - L
    · by_cases hp : t.solPos + 5 < 15
      · rw [f2 (by rw [hsub]; exact hd) hp]
        refine ⟨⟨?_, ?_, ?_⟩, ?_, ?_⟩
        · intro _
          show 0 ≤ t.solPos + 5
          omega
        · intro h
          rw [hs] at h
          cases h
        · intro _
          exact ⟨L + 3, by omega, by omega, add32_true _ L 3 hLx⟩
        · simp only [engineSteps, hs]
          split_ifs <;> omega
        · intro _
          simp only [engineSteps, hs]
          split_ifs <;> omega
      · obtain ⟨a1, a2, a3, _⟩ := f3 (by rw [hsub]; exact hd) (by omega)
        refine ⟨⟨?_, ?_, ?_⟩, ?_, ?_⟩
        · intro h
          rw [a1] at h
          cases h
        · intro _
          rw [a2]
        · intro _
          exact ⟨L + 3, by omega, by omega, by rw [a3]; exact add32_true _ L 3 hLx⟩
        · unfold engineSteps
          rw [a1, a2, hs]
          simp only
          split_ifs <;> omega
        · intro _
          unfold engineSteps
          rw [a1, a2, hs]
          simp only
          split_ifs <;> omega
    · rw [f1 (by rw [hsub]; exact hd)]
      refine ⟨⟨hnf, hnb, fun _ => ⟨L, hL0, by omega, hLx⟩⟩, Nat.le_refl _, ?_⟩
      intro h
      omega
  | SOL_STATE_NORMAL_BACK =>
    obtain ⟨L, hL0, hLP, hLx⟩ := hlast (by rw [hs]; decide)
    have hsub : sub32 (clockAt (n, us)).ms t.solLastStepMs = n - L :=
      sub32_true _ L n hLx (by omega) (by omega)
    have hpos := hnb hs
    obtain ⟨b1, b2, b3⟩ := updateSolenoid_back t (clockAt (n, us)) hs
    by_cases hd : 3 ≤ n - L
    · by_cases hp : 0 < t.solPos - 5
      · rw [b2 (by rw [hsub]; exact hd) hp]
        refine ⟨⟨?_, ?_, ?_⟩, ?_, ?_⟩
        · intro h
          rw [hs] at h
          cases h
        · intro _
          show t.solPos - 5 ≤ 15
          omega
        · intro _
          exact ⟨L + 3, by omega, by omega, add32_true _ L 3 hLx⟩
        · simp only [engineSteps, hs]
          split_ifs <;> omega
        · intro _
          simp only [engineSteps, hs]
          split_ifs <;> omega
      · rw [b3 (by rw [hsub]; exact hd) (by omega)]
        refine ⟨⟨?_, ?_, ?_⟩, ?_, ?_⟩
        · intro h
          cases h
        · intro h
          cases h
        · intro h
          exact absurd rfl h
        · simp only [engineSteps, hs]
          omega
        · intro _
          simp only [engineSteps, hs]
          split_ifs <;> omega
    · rw [b1 (by rw [hsub]; exact hd)]
      refine ⟨⟨hnf, hnb, fun _ => ⟨L, hL0, by omega, hLx⟩⟩, Nat.le_refl _, ?_⟩
      intro h
      omega
  | SOL_STATE_FAST_CLICK1 =>
    obtain ⟨L, hL0, hLP, hLx⟩ := hlast (by rw [hs]; decide)
    have hsub : sub32 (clockAt (n, us)).ms t.solLastStepMs = n - L :=
      sub32_true _ L n hLx (by omega) (by omega)
    obtain ⟨c1, c2⟩ := updateSolenoid_fast1 t (clockAt (n, us)) hs
    by_cases hd : 16 ≤ n - L
    · obtain ⟨_, _, a3, a4⟩ := c1 (by rw [hsub]; exact hd)
      refine ⟨⟨?_, ?_, ?_⟩, ?_, ?_⟩
      · intro h
        rw [a4] at h
        cases h
      · intro h
        rw [a4] at h
        cases h
      · intro _
        exact ⟨n, by omega, Nat.le_refl _, by rw [a3]; exact Nat.mod_mod _ _⟩
      · unfold engineSteps
        rw [a4, hs]
        simp only
        omega
      · intro _
        unfold engineSteps
        rw [a4, hs]
        rfl
    · rw [c2 (by rw [hsub]; omega)]
      refine ⟨⟨hnf, hnb, fun _ => ⟨L, hL0, by omega, hLx⟩⟩, Nat.le_refl _, ?_⟩
      intro h
      omega
  | SOL_STATE_FAST_CLICK2 =>
    obtain ⟨L, hL0, hLP, hLx⟩ := hlast (by rw [hs]; decide)
    have hsub : sub32 (clockAt (n, us)).ms t.solLastStepMs = n - L :=
      sub32_true _ L n hLx (by omega) (by omega)
    obtain ⟨c1, c2⟩ := updateSolenoid_fast2 t (clockAt (n, us)) hs
    by_cases hd : 16 ≤ n - L
    · rw [c1 (by rw [hsub]; exact hd)]
      refine ⟨⟨?_, ?_, ?_⟩, ?_, ?_⟩
      · intro h
        cases h
      · intro h
        cases h
      · intro h
        exact absurd rfl h
      · simp only [engineSteps, hs]
        omega
      · intro _
        simp only [engineSteps, hs]
    · rw [c2 (by rw [hsub]; omega)]
      refine ⟨⟨hnf, hnb, fun _ => ⟨L, hL0, by omega, hLx⟩⟩, Nat.le_refl _, ?_⟩
      intro h
      omega

theorem tickAt_cons (t : State) (e : Nat × Nat) (es : List (Nat × Nat)) :
    tickAt t (e :: es) = tickAt (updateSolenoid t (clockAt (e.1, e.2))) es := by
  simp [tickAt, updateSolenoidMany]

theorem tickAt_any (T0 : Nat) (es : List (Nat × Nat)) :
    ∀ (P : Nat) (t : State), engineInv T0 P t → spaced 0 P es = true →
      (∀ e ∈ es, e.1 < T0 + 4294967296) →
      engineInv T0 (lastTime P es) (tickAt t es)
        ∧ engineSteps (tickAt t es) ≤ engineSteps t := by
  induction es with
  | nil =>
    intro P t h _ _
    exact ⟨h, Nat.le_refl _⟩
  | cons e es ih =>
    intro P t h hsp hb
    simp only [spaced, Bool.and_eq_true, decide_eq_true_eq] at hsp
    obtain ⟨g1, g2, _⟩ := engine_tick T0 P e.1 e.2 t h (by omega)
      (hb e (List.mem_cons_self _ _))
    obtain ⟨i1, i2⟩ := ih e.1 _ g1 hsp.2 (fun x hx => hb x (List.mem_cons_of_mem _ hx))
    rw [tickAt_cons]
    exact ⟨i1, Nat.le_trans i2 g2⟩

theorem tickAt_spaced (T0 : Nat) (es : List (Nat × Nat)) :
    ∀ (P : Nat) (t : State), engineInv T0 P t → spaced 16 P es = true →
      (∀ e ∈ es, e.1 < T0 + 4294967296) →
      engineSteps (tickAt t es) = engineSteps t - es.length := by
  induction es with
  | nil =>
    intro P t _ _ _
    rfl
  | cons e es ih =>
    intro P t h hsp hb
    simp only [spaced, Bool.and_eq_true, decide_eq_true_eq] at hsp
    obtain ⟨g1, _, g3⟩ := engine_tick T0 P e.1 e.2 t h (by omega)
      (hb e (List.mem_cons_self _ _))
    have i := ih e.1 _ g1 hsp.2 (fun x hx => hb x (List.mem_cons_of_mem _ hx))
    rw [tickAt_cons, i, g3 hsp.1, List.length_cons]
    omega

theorem engineSteps_zero (t : State) (h : engineSteps t = 0) :
    t.solState = SolenoidState.SOL_STATE_IDLE := by
  unfold engineSteps at h
  cases hs : t.solState <;> rw [hs] at h <;> simp only at h <;>
    first | rfl | omega | split_ifs at h

theorem startNormalSolenoid_engine (s0 : State) (T0 us0 : Nat) :
    engineInv T0 T0 (startNormalSolenoid s0 (clockAt (T0, us0)))
      ∧ engineSteps (startNormalSolenoid s0 (clockAt (T0, us0))) = 6 := by
  refine ⟨⟨fun _ => Int.le_refl 0, fun h => ?_, fun _ => ?_⟩, rfl⟩
  · cases h
  · exact ⟨T0, Nat.le_refl _, Nat.le_refl _, Nat.mod_mod _ _⟩

theorem startFastSolenoid_engine (s0 : State) (T0 us0 : Nat) :
    engineInv T0 T0 (startFastSolenoid s0 (clockAt (T0, us0)))
      ∧ engineSteps (startFastSolenoid s0 (clockAt (T0, us0))) = 2 := by
  refine ⟨⟨fun h => ?_, fun h => ?_, fun _ => ?_⟩, rfl⟩
  · cases h
  · cases h
  · exact ⟨T0, Nat.le_refl _, Nat.le_refl _, Nat.mod_mod _ _⟩

/-- C24, as stated, fails across a wrap of the millisecond counter: after a
normal start at time 0, six ticks at the true times 100, 2^32 + 3, 2^32 + 19,
2·2^32 + 6, 2·2^32 + 22 and 3·2^32 + 9 ms are each at least 16 ms after the
one before, but every second one reads a `millis()` value less than 3 ms after
`solLastStepMs` and is not due: the engine is in NormalBack, not Idle. -/
theorem C24_counterexample :
    ¬ (spaced 16 0 [(100, 0), (4294967299, 0), (4294967315, 0), (8589934598, 0),
          (8589934614, 0), (12884901897, 0)] = true →
        (tickAt (startNormalSolenoid (initState AppMode.MODE_DEMO) (clockAt (0, 0)))
          [(100, 0), (4294967299, 0), (4294967315, 0), (8589934598, 0),
           (8589934614, 0), (12884901897, 0)]).solState = SolenoidState.SOL_STATE_IDLE) := by
  decide

/-- C24, amended: after `startNormalSolenoid` or `startFastSolenoid` at a true
time `T0` in any state, followed by any ticks `pre` at later times (so: from
every reachable engine state), if no new fire arrives, successive
`updateSolenoid` ticks `post`, each at least 16 ms after the previous tick and
after the start and all less than `2^32` ms after the start, bring the engine
to Idle: six of them after a normal start, two after a fast start; a tick in
Idle changes nothing. -/
theorem C24_engine_returns_to_idle (s0 : State) (T0 us0 : Nat)
    (pre post : List (Nat × Nat))
    (hpre : spaced 0 T0 pre = true) (hpost : spaced 16 (lastTime T0 pre) post = true)
    (hb : ∀ e ∈ pre ++ post, e.1 < T0 + 4294967296) :
    (6 ≤ post.length →
        (tickAt (tickAt (startNormalSolenoid s0 (clockAt (T0, us0))) pre) post).solState
          = SolenoidState.SOL_STATE_IDLE)
      ∧ (2 ≤ post.length →
        (tickAt (tickAt (startFastSolenoid s0 (clockAt (T0, us0))) pre) post).solState
          = SolenoidState.SOL_STATE_IDLE)
      ∧ (∀ (t : State) (c : Clock), t.solState = SolenoidState.SOL_STATE_IDLE →
          updateSolenoid t c = t) := by
  have hbpre : ∀ e ∈ pre, e.1 < T0 + 4294967296 :=
    fun e he => hb e (List.mem_append_left _ he)
  have hbpost : ∀ e ∈ post, e.1 < T0 + 4294967296 :=
    fun e he => hb e (List.mem_append_right _ he)
  refine ⟨?_, ?_, fun t c ht => updateSolenoid_idle t c ht⟩
  · intro hlen
    obtain ⟨n1, n2⟩ := startNormalSolenoid_engine s0 T0 us0
    obtain ⟨p1, p2⟩ := tickAt_any T0 pre T0 _ n1 hpre hbpre
    have q := tickAt_spaced T0 post _ _ p1 hpost hbpost
    apply engineSteps_zero
    rw [q]
    omega
  · intro hlen
    obtain ⟨n1, n2⟩ := startFastSolenoid_engine s0 T0 us0
    obtain ⟨p1, p2⟩ := tickAt_any T0 pre T0 _ n1 hpre hbpre
    have q := tickAt_spaced T0 post _ _ p1 hpost hbpost
    apply engineSteps_zero
    rw [q]
    omega

/-- C24 (amended) on a normal start at 1000 ms, one early tick at 1001 ms and
six ticks 16 ms apart from 1017 ms on. -/
theorem C24_engine_returns_to_idle_witness :
    (tickAt (tickAt (startNormalSolenoid (initState AppMode.MODE_DEMO) (clockAt (1000, 0)))
        [(1001, 0)])
        [(1017, 0), (1033, 0), (1049, 0), (1065, 0), (1081, 0), (1097, 0)]).solState
      = SolenoidState.SOL_STATE_IDLE := by
  have h := C24_engine_returns_to_idle (initState AppMode.MODE_DEMO) 1000 0 [(1001, 0)]
    [(1017, 0), (1033, 0), (1049, 0), (1065, 0), (1081, 0), (1097, 0)]
    (by decide) (by decide) (by decide)
  exact h.1 (by decide)

end Solenoid

namespace Solenoid

/-! ## Theorems: piston position -/

theorem updateSolenoid_fast_solPos (t : State) (c : Clock)
    (h : t.solState = SolenoidState.SOL_STATE_FAST_CLICK1
      ∨ t.solState = SolenoidState.SOL_STATE_FAST_CLICK2) :
    (updateSolenoid t c).solPos = t.solPos := by
  rcases h with h | h
  · simp only [updateSolenoid, h]
    split_ifs
    · exact (pulseVibrationFast_frame _ c).2.2.2.2
    · rfl
  · simp only [updateSolenoid, h]
    split_ifs <;> rfl

theorem updateSolenoid_solPos (t : State) (c : Clock)
    (h : t.solPos = 0 ∨ t.solPos = 5 ∨ t.solPos = 10 ∨ t.solPos = 15) :
    (updateSolenoid t c).solPos = 0 ∨ (updateSolenoid t c).solPos = 5
      ∨ (updateSolenoid t c).solPos = 10 ∨ (updateSolenoid t c).solPos = 15 := by
  cases hs : t.solState with
  | SOL_STATE_IDLE =>
    rw [updateSolenoid_idle t c hs]
    exact h
  | SOL_STATE_NORMAL_FORWARD =>
    obtain ⟨f1, f2, f3⟩ := updateSolenoid_forward t c hs
    by_cases hd : 3 ≤ sub32 c.ms t.solLastStepMs
    · by_cases hp : t.solPos + 5 < 15
      · rw [f2 hd hp]
        show t.solPos + 5 = 0 ∨ t.solPos + 5 = 5 ∨ t.solPos + 5 = 10 ∨ t.solPos + 5 = 15
        omega
      · rw [(f3 hd (by omega)).2.1]
        omega
    · rw [f1 hd]
      exact h
  | SOL_STATE_NORMAL_BACK =>
    obtain ⟨b1, b2, b3⟩ := updateSolenoid_back t c hs
    by_cases hd : 3 ≤ sub32 c.ms t.solLastStepMs
    · by_cases hp : 0 < t.solPos - 5
      · rw [b2 hd hp]
        show t.solPos - 5 = 0 ∨ t.solPos - 5 = 5 ∨ t.solPos - 5 = 10 ∨ t.solPos - 5 = 15
        omega
      · rw [b3 hd (by omega)]
        exact Or.inl rfl
    · rw [b1 hd]
      exact h
  | SOL_STATE_FAST_CLICK1 =>
    rw [updateSolenoid_fast_solPos t c (Or.inl hs)]
    exact h
  | SOL_STATE_FAST_CLICK2 =>
    rw [updateSolenoid_fast_solPos t c (Or.inr hs)]
    exact h

theorem engineCall_solPos (s : State) (op : EngineCall)
    (h : s.solPos = 0 ∨ s.solPos = 5 ∨ s.solPos = 10 ∨ s.solPos = 15) :
    (engineCall s op).solPos = 0 ∨ (engineCall s op).solPos = 5
      ∨ (engineCall s op).solPos = 10 ∨ (engineCall s op).solPos = 15 := by
  cases op with
  | effect c => exact Or.inl rfl
  | fast c =>
    have e : (startFastSolenoid s c).solPos = s.solPos :=
      (pulseVibrationFast_frame (playClick s) c).2.2.2.2
    show (startFastSolenoid s c).solPos = 0 ∨ (startFastSolenoid s c).solPos = 5
      ∨ (startFastSolenoid s c).solPos = 10 ∨ (startFastSolenoid s c).solPos = 15
    rw [e]
    exact h
  | tick c => exact updateSolenoid_solPos s c h

theorem engineCalls_solPos (ops : List EngineCall) :
    ∀ s : State, (s.solPos = 0 ∨ s.solPos = 5 ∨ s.solPos = 10 ∨ s.solPos = 15) →
      ((engineCalls s ops).solPos = 0 ∨ (engineCalls s ops).solPos = 5
        ∨ (engineCalls s ops).solPos = 10 ∨ (engineCalls s ops).solPos = 15) := by
  induction ops with
  | nil =>
    intro s h
    exact h
  | cons op ops ih =>
    intro s h
    have e : engineCalls s (op :: ops) = engineCalls (engineCall s op) ops := by
      simp [engineCalls]
    rw [e]
    exact ih _ (engineCall_solPos s op h)

/-- C25: in every state reached from the initial state (Idle, `solPos = 0`) by
any sequence of `solenoidEffect`, `startFastSolenoid` and `updateSolenoid`
calls at any clock readings, `solPos` is one of 0, 5, 10, 15, hence within
0..15. -/
theorem C25_piston_position (mode : AppMode) (ops : List EngineCall) :
    ((engineCalls (initState mode) ops).solPos = 0
        ∨ (engineCalls (initState mode) ops).solPos = 5
        ∨ (engineCalls (initState mode) ops).solPos = 10
        ∨ (engineCalls (initState mode) ops).solPos = 15)
      ∧ 0 ≤ (engineCalls (initState mode) ops).solPos
      ∧ (engineCalls (initState mode) ops).solPos ≤ 15 := by
  have h := engineCalls_solPos ops (initState mode) (Or.inl rfl)
  refine ⟨h, ?_, ?_⟩ <;> omega

end Solenoid

namespace TypingMeter

/-! ## Theorems: layer animation snap -/

theorem drawShiftIndicator_test (e : Nat) :
    (min 1 ((e : ℚ) / (SHIFT_ANIM_DURATION : ℚ)) ≥ (1 / 20 : ℚ)) ↔ 15 ≤ e := by
  have h300 : ((SHIFT_ANIM_DURATION : Nat) : ℚ) = 300 := by
    unfold SHIFT_ANIM_DURATION
    norm_num
  rw [h300, ge_iff_le, le_min_iff, le_div_iff₀ (by norm_num : (0 : ℚ) < 300)]
  constructor
  · rintro ⟨_, h⟩
    have h2 : ((15 : Nat) : ℚ) ≤ (e : ℚ) := by
      push_cast
      linarith
    exact_mod_cast h2
  · intro h
    have h2 : ((15 : Nat) : ℚ) ≤ (e : ℚ) := by exact_mod_cast h
    push_cast at h2
    exact ⟨by norm_num, by linarith⟩

theorem drawShiftIndicator_snap (s : State) (now : Nat) :
    (15 ≤ sub32 now s.lastShiftAnim →
        (drawShiftIndicator s now).currentShift = s.targetShift)
      ∧ (sub32 now s.lastShiftAnim < 15 → drawShiftIndicator s now = s) := by
  have ht := drawShiftIndicator_test (sub32 now s.lastShiftAnim)
  constructor
  · intro h
    unfold drawShiftIndicator
    by_cases hc : s.currentShift = s.targetShift
    · rw [if_neg (fun hh => hh.2 hc)]
      exact hc
    · rw [if_pos ⟨ht.mpr h, hc⟩]
  · intro h
    unfold drawShiftIndicator
    rw [if_neg (fun hh => absurd (ht.mp hh.1) (by omega))]

/-- C26, as stated, fails in the code: after `changeShift` to `SHIFT_R` at
`millis() = 1000` from the initial state (`currentShift = SHIFT_P`),
`drawShiftIndicator` at `millis() = 1100`, 100 ms later and well before
`SHIFT_ANIM_DURATION = 300` ms have elapsed, already sets `currentShift` to
`SHIFT_R`; the snap happens as soon as 15 ms have elapsed (`t ≥ 0.05`), and
only a call earlier than that leaves `currentShift` unchanged. -/
theorem C26_snap_before_duration :
    initState.currentShift = ShiftMode.SHIFT_P
      ∧ (changeShift initState 1000 ShiftMode.SHIFT_R).targetShift = ShiftMode.SHIFT_R
      ∧ sub32 1100 (changeShift initState 1000 ShiftMode.SHIFT_R).lastShiftAnim = 100
      ∧ 100 < SHIFT_ANIM_DURATION
      ∧ (drawShiftIndicator (changeShift initState 1000 ShiftMode.SHIFT_R) 1100).currentShift
          = ShiftMode.SHIFT_R
      ∧ (drawShiftIndicator (changeShift initState 1000 ShiftMode.SHIFT_R) 1014).currentShift
          = ShiftMode.SHIFT_P
      ∧ (∀ (s : State) (now : Nat), 15 ≤ sub32 now s.lastShiftAnim →
          (drawShiftIndicator s now).currentShift = s.targetShift)
      ∧ (∀ (s : State) (now : Nat), sub32 now s.lastShiftAnim < 15 →
          drawShiftIndicator s now = s) := by
  have hl : (changeShift initState 1000 ShiftMode.SHIFT_R).lastShiftAnim = 1000 := rfl
  have e1 : sub32 1100 1000 = 100 := by decide
  have e2 : sub32 1014 1000 = 14 := by decide
  refine ⟨rfl, rfl, by rw [hl, e1], by decide, ?_, ?_, ?_, ?_⟩
  · exact (drawShiftIndicator_snap _ 1100).1 (by rw [hl, e1]; decide)
  · rw [(drawShiftIndicator_snap _ 1014).2 (by rw [hl, e2]; decide)]
    rfl
  · intro s now h
    exact (drawShiftIndicator_snap s now).1 h
  · intro s now h
    exact (drawShiftIndicator_snap s now).2 h

end TypingMeter

namespace Solenoid

/-! ## Theorems: pending I2C request -/

end Solenoid

namespace Solenoid

/-! ## Theorems: haptic pulse timing -/

theorem toInt32_nonneg_of_lt (v : Nat) (h : v < 2147483648) : 0 ≤ toInt32 v := by
  rw [TypingMeter.toInt32_of_lt v h]
  exact Int.ofNat_nonneg v

theorem toInt32_neg_of_ge (v : Nat) (h1 : 2147483648 ≤ v) (h2 : v < 4294967296) :
    ¬ (0 ≤ toInt32 v) := by
  unfold toInt32
  have e : v % 4294967296 = v := Nat.mod_eq_of_lt h2
  rw [e, if_neg (by omega)]
  omega

theorem pulseVibrationFast_on (s : State) (c : Clock) (hv : s.vibEnabled = true) :
    (pulseVibrationFast s c).vibPulsing = true
      ∧ (pulseVibrationFast s c).vibration = s.vibStrength
      ∧ (pulseVibrationFast s c).vibOffAtUs = add32 c.us 45000 := by
  simp [pulseVibrationFast, startVibrationPulseUs, hv]

/-- C28: with vibration enabled, for every true start time `T0` and tick
time `T` in microseconds (the counter shows them modulo `2^32`) whose elapsed
time `T - T0` is below `2^31`, the 32-bit difference of the two counter values
is the true elapsed time, `pulseVibrationFast` at `T0` switches the motor on,
and `updateVibrationPulse` at `T` switches it off and clears `vibPulsing` when
the elapsed time is at least 45000 and changes nothing when it is less, also
when the counter wraps between `T0` and `T`; with `vibEnabled` false
`startVibrationPulseUs` changes nothing. -/
theorem C28_pulse_timing (s : State) (T0 T ms0 ms1 : Nat)
    (hv : s.vibEnabled = true) (h1 : T0 ≤ T) (h2 : T - T0 < 2147483648) :
    sub32 (T % 4294967296) (T0 % 4294967296) = T - T0
      ∧ (pulseVibrationFast s { ms := ms0, us := T0 % 4294967296 }).vibPulsing = true
      ∧ (pulseVibrationFast s { ms := ms0, us := T0 % 4294967296 }).vibration = s.vibStrength
      ∧ (45000 ≤ T - T0 →
          (updateVibrationPulse (pulseVibrationFast s { ms := ms0, us := T0 % 4294967296 })
              { ms := ms1, us := T % 4294967296 }).vibration = 0
          ∧ (updateVibrationPulse (pulseVibrationFast s { ms := ms0, us := T0 % 4294967296 })
              { ms := ms1, us := T % 4294967296 }).vibPulsing = false)
      ∧ (T - T0 < 45000 →
          updateVibrationPulse (pulseVibrationFast s { ms := ms0, us := T0 % 4294967296 })
              { ms := ms1, us := T % 4294967296 }
            = pulseVibrationFast s { ms := ms0, us := T0 % 4294967296 })
      ∧ (∀ (s1 : State) (c : Clock) (d : Nat),
          s1.vibEnabled = false → startVibrationPulseUs s1 c d = s1) := by
  obtain ⟨p1, p2, p3⟩ := pulseVibrationFast_on s { ms := ms0, us := T0 % 4294967296 } hv
  have hoff : (pulseVibrationFast s { ms := ms0, us := T0 % 4294967296 }).vibOffAtUs
      % 4294967296 = (T0 + 45000) % 4294967296 := by
    rw [p3]
    exact add32_true (T0 % 4294967296) T0 45000 (Nat.mod_mod _ _)
  refine ⟨sub32_true (T0 % 4294967296) T0 T (Nat.mod_mod _ _) h1 (by omega), p1, p2, ?_, ?_, ?_⟩
  · intro h
    have e := sub32_true _ (T0 + 45000) T hoff (by omega) (by omega)
    have hnn : 0 ≤ toInt32 (sub32 (T % 4294967296)
        (pulseVibrationFast s { ms := ms0, us := T0 % 4294967296 }).vibOffAtUs) := by
      rw [e]
      exact toInt32_nonneg_of_lt _ (by omega)
    unfold updateVibrationPulse
    rw [p1]
    simp only [Bool.not_true, Bool.false_eq_true, if_false]
    rw [if_pos hnn]
    exact ⟨rfl, rfl⟩
  · intro h
    have e := sub32_true _ (T0 + 45000) (T + 4294967296) hoff (by omega) (by omega)
    rw [Nat.add_mod_right] at e
    have hneg : ¬ (0 ≤ toInt32 (sub32 (T % 4294967296)
        (pulseVibrationFast s { ms := ms0, us := T0 % 4294967296 }).vibOffAtUs)) := by
      rw [e]
      exact toInt32_neg_of_ge _ (by omega) (by omega)
    unfold updateVibrationPulse
    rw [p1]
    simp only [Bool.not_true, Bool.false_eq_true, if_false]
    rw [if_neg hneg]
  · intro s1 c d h
    simp [startVibrationPulseUs, h]

/-- C28 on a pulse started 7296 µs before the microsecond counter wraps and
ticked 40000 µs after the wrap (elapsed 47296 µs): the motor is off. -/
theorem C28_pulse_timing_witness :
    (updateVibrationPulse
        (pulseVibrationFast (initState AppMode.MODE_I2C) { ms := 0, us := 4294960000 })
        { ms := 47, us := 40000 }).vibPulsing = false
      ∧ (updateVibrationPulse
        (pulseVibrationFast (initState AppMode.MODE_I2C) { ms := 0, us := 4294960000 })
        { ms := 47, us := 40000 }).vibration = 0 := by
  have h := C28_pulse_timing (initState AppMode.MODE_I2C) 4294960000 4295007296 0 47
    rfl (by decide) (by decide)
  exact ⟨(h.2.2.2.1 (by decide)).2, (h.2.2.2.1 (by decide)).1⟩

end Solenoid

namespace TypingMeter

/-! ## Theorems: average bounded by maximum -/

theorem applyCPMs_average_inv (s : State) (hs : s.sumCPM = 0) (hc : s.countCPM = 0)
    (hm : s.maxCPM = 0) (xs : List (Nat × Nat)) (hn : xs.length < 2097152) :
    (applyCPMs s xs).sumCPM ≤ (applyCPMs s xs).countCPM * (applyCPMs s xs).maxCPM
      ∧ (applyCPMs s xs).maxCPM ≤ 2000
      ∧ (applyCPMs s xs).countCPM ≤ xs.length := by
  induction xs using List.reverseRecOn with
  | nil =>
    simp only [applyCPMs, List.foldl_nil, List.length_nil]
    omega
  | append_singleton xs x ih =>
    rw [List.length_append, List.length_singleton] at hn
    obtain ⟨i1, i2, i3⟩ := ih (by omega)
    rw [applyCPMs_snoc, applyCPM_sumCPM, applyCPM_countCPM, applyCPM_maxCPM,
      List.length_append, List.length_singleton]
    generalize (applyCPMs s xs).sumCPM = S at *
    generalize (applyCPMs s xs).countCPM = C at *
    generalize (applyCPMs s xs).maxCPM = X at *
    have hle : C * X ≤ C * max X (min x.2 2000) :=
      Nat.mul_le_mul_left C (le_max_left _ _)
    have hcx : C * X ≤ xs.length * 2000 := Nat.mul_le_mul i3 i2
    have hmax : max X (min x.2 2000) ≤ 2000 := by omega
    by_cases hv : 0 < x.2
    · rw [if_pos hv, if_pos hv]
      have e1 : (S + min x.2 2000) % 4294967296 = S + min x.2 2000 :=
        Nat.mod_eq_of_lt (by omega)
      have e2 : (C + 1) % 4294967296 = C + 1 := Nat.mod_eq_of_lt (by omega)
      rw [e1, e2, Nat.add_mul, Nat.one_mul]
      refine ⟨?_, hmax, by omega⟩
      have : min x.2 2000 ≤ max X (min x.2 2000) := le_max_right _ _
      omega
    · rw [if_neg hv, if_neg hv]
      exact ⟨le_trans i1 hle, hmax, by omega⟩

/-- C29: from a state whose statistics are those of the initial state
(`sumCPM = countCPM = maxCPM = 0`), after every sequence of fewer than `2^21`
calls of `applyCPM` with arbitrary arguments,
`getMovingAverageCPM() ≤ maxCPM ≤ 2000` and `countCPM` is at most the number
of calls made. -/
theorem C29_average_bounded (s : State) (xs : List (Nat × Nat))
    (hs : s.sumCPM = 0) (hc : s.countCPM = 0) (hm : s.maxCPM = 0)
    (hn : xs.length < 2097152) :
    getMovingAverageCPM (applyCPMs s xs) ≤ ((applyCPMs s xs).maxCPM : Int)
      ∧ (applyCPMs s xs).maxCPM ≤ 2000
      ∧ (applyCPMs s xs).countCPM ≤ xs.length := by
  obtain ⟨i1, i2, i3⟩ := applyCPMs_average_inv s hs hc hm xs hn
  refine ⟨?_, i2, i3⟩
  unfold getMovingAverageCPM
  split_ifs with h
  · have hq : (applyCPMs s xs).sumCPM / (applyCPMs s xs).countCPM
        ≤ (applyCPMs s xs).maxCPM := Nat.div_le_of_le_mul i1
    rw [toInt32_of_lt _ (by omega)]
    exact Int.ofNat_le.mpr hq
  · exact Int.ofNat_nonneg _

/-- C29 on the calls `applyCPM(300)`, `applyCPM(0)`, `applyCPM(65535)` from
the initial state. -/
theorem C29_average_bounded_witness :
    getMovingAverageCPM (applyCPMs initState [(0, 300), (10, 0), (20, 65535)])
        ≤ ((applyCPMs initState [(0, 300), (10, 0), (20, 65535)]).maxCPM : Int)
      ∧ (applyCPMs initState [(0, 300), (10, 0), (20, 65535)]).maxCPM ≤ 2000
      ∧ (applyCPMs initState [(0, 300), (10, 0), (20, 65535)]).countCPM ≤ 3 :=
  C29_average_bounded initState [(0, 300), (10, 0), (20, 65535)] rfl rfl rfl (by decide)

end TypingMeter

namespace TypingMeter

/-! ## Theorems: needle follower -/

theorem loopNeedle_appMode (s : State) : (loopNeedle s).appMode = s.appMode := by
  unfold loopNeedle
  dsimp only
  split_ifs <;> rfl

theorem needleRun_snoc (s : State) (ts : List Nat) (tv : Nat) :
    needleRun s (ts ++ [tv])
      = loopNeedle { needleRun s ts with targetValue := tv } := by
  simp [needleRun, List.foldl_append]

theorem needleRun_appMode (s : State) (ts : List Nat) :
    (needleRun s ts).appMode = s.appMode := by
  induction ts using List.reverseRecOn with
  | nil => rfl
  | append_singleton ts tv ih =>
    rw [needleRun_snoc, loopNeedle_appMode]
    exact ih

theorem loopNeedle_prevValue (s : State) :
    (loopNeedle s).prevValue
      = if s.displayMode = DisplayMode.MODE_METER then
          (if s.prevValue < s.targetValue then
            (s.prevValue + (if s.appMode = AppMode.MODE_USB_BT then 6 else 2)) % 65536
          else if s.prevValue > s.targetValue then
            (s.prevValue + 65536 - (if s.appMode = AppMode.MODE_USB_BT then 6 else 2)) % 65536
          else s.prevValue)
        else s.prevValue := by
  unfold loopNeedle NEEDLE_STEP
  dsimp only
  split_ifs <;> rfl

theorem loopNeedle_climb (n : Nat) :
    ∀ s : State, s.appMode = AppMode.MODE_USB_BT → s.displayMode = DisplayMode.MODE_METER →
      s.prevValue + 6 * n ≤ 2004 →
      (needleRun s (List.replicate n 2000)).prevValue = s.prevValue + 6 * n
        ∧ (needleRun s (List.replicate n 2000)).appMode = AppMode.MODE_USB_BT
        ∧ (needleRun s (List.replicate n 2000)).displayMode = DisplayMode.MODE_METER := by
  induction n with
  | zero =>
    intro s h1 h2 _
    exact ⟨rfl, h1, h2⟩
  | succ n ih =>
    intro s h1 h2 h3
    rw [List.replicate_succ', needleRun_snoc]
    obtain ⟨i1, i2, i3⟩ := ih s h1 h2 (by omega)
    have hd : (loopNeedle { needleRun s (List.replicate n 2000) with targetValue := 2000 }).displayMode
        = DisplayMode.MODE_METER := by
      unfold loopNeedle
      dsimp only
      split_ifs <;> exact i3
    refine ⟨?_, (loopNeedle_appMode _).trans i2, hd⟩
    rw [loopNeedle_prevValue]
    show (if (needleRun s (List.replicate n 2000)).displayMode = DisplayMode.MODE_METER then
        (if (needleRun s (List.replicate n 2000)).prevValue < 2000 then
          ((needleRun s (List.replicate n 2000)).prevValue
            + (if (needleRun s (List.replicate n 2000)).appMode = AppMode.MODE_USB_BT
                then 6 else 2)) % 65536
        else if (needleRun s (List.replicate n 2000)).prevValue > 2000 then
          ((needleRun s (List.replicate n 2000)).prevValue + 65536
            - (if (needleRun s (List.replicate n 2000)).appMode = AppMode.MODE_USB_BT
                then 6 else 2)) % 65536
        else (needleRun s (List.replicate n 2000)).prevValue)
      else (needleRun s (List.replicate n 2000)).prevValue) = _
    rw [if_pos i3, i1, i2, if_pos (by omega), if_pos rfl, Nat.mod_eq_of_lt (by omega)]
    omega

/-- C30, as stated, fails: in USB/BT mode (step 6), from `prevValue = 0` with
`targetValue = 2000` on every iteration, after 334 iterations of the needle
step the displayed value is 2004, above `VALUE_MAX = 2000`. -/
theorem C30_counterexample :
    ¬ ((needleRun { initState with appMode := AppMode.MODE_USB_BT }
          (List.replicate 334 2000)).prevValue ≤ VALUE_MAX) := by
  have h := (loopNeedle_climb 334 { initState with appMode := AppMode.MODE_USB_BT }
    rfl rfl (by decide)).1
  rw [h]
  decide

theorem needleRun_inv (s : State) (k B : Nat) (hk : 0 < k) (hB : B < 65536 - k)
    (hkB : ∀ p, p % k = 0 → p < 2000 → p + k ≤ B)
    (hstep : (if s.appMode = AppMode.MODE_USB_BT then 6 else 2) = k)
    (hprev : s.prevValue = 0) (ts : List Nat) (ht : ∀ tv ∈ ts, tv ≤ 2000) :
    (needleRun s ts).prevValue % k = 0 ∧ (needleRun s ts).prevValue ≤ B := by
  induction ts using List.reverseRecOn with
  | nil =>
    show s.prevValue % k = 0 ∧ s.prevValue ≤ B
    rw [hprev]
    exact ⟨Nat.zero_mod k, Nat.zero_le B⟩
  | append_singleton ts tv ih =>
    obtain ⟨i1, i2⟩ := ih (fun x hx => ht x (List.mem_append_left _ hx))
    have htv : tv ≤ 2000 := ht tv (List.mem_append_right _ (List.mem_singleton_self tv))
    rw [needleRun_snoc, loopNeedle_prevValue]
    show (if (needleRun s ts).displayMode = DisplayMode.MODE_METER then
        (if (needleRun s ts).prevValue < tv then
          ((needleRun s ts).prevValue
            + (if (needleRun s ts).appMode = AppMode.MODE_USB_BT then 6 else 2)) % 65536
        else if (needleRun s ts).prevValue > tv then
          ((needleRun s ts).prevValue + 65536
            - (if (needleRun s ts).appMode = AppMode.MODE_USB_BT then 6 else 2)) % 65536
        else (needleRun s ts).prevValue)
      else (needleRun s ts).prevValue) % k = 0 ∧ _ ≤ B
    rw [needleRun_appMode, hstep]
    generalize (needleRun s ts).prevValue = p at *
    by_cases hd : (needleRun s ts).displayMode = DisplayMode.MODE_METER
    · rw [if_pos hd]
      by_cases hlt : p < tv
      · rw [if_pos hlt]
        have hb := hkB p i1 (by omega)
        rw [Nat.mod_eq_of_lt (show p + k < 65536 by omega)]
        exact ⟨by rw [Nat.add_mod, i1, Nat.mod_self, Nat.add_zero, Nat.zero_mod], hb⟩
      · rw [if_neg hlt]
        by_cases hgt : p > tv
        · rw [if_pos hgt]
          have hkp : k ≤ p := Nat.le_of_dvd (by omega) (Nat.dvd_of_mod_eq_zero i1)
          have e : p + 65536 - k = (p - k) + 65536 * 1 := by omega
          rw [e, Nat.add_mul_mod_self_left, Nat.mod_eq_of_lt (show p - k < 65536 by omega)]
          refine ⟨?_, by omega⟩
          exact (Nat.dvd_sub' (Nat.dvd_of_mod_eq_zero i1) (dvd_refl k)).elim
            (fun c hc => by rw [hc, Nat.mul_mod_right])
        · rw [if_neg hgt]
          exact ⟨i1, i2⟩
    · rw [if_neg hd]
      exact ⟨i1, i2⟩

/-- C30, amended: starting from `prevValue = 0`, for every sequence of
`targetValue` values in `0..2000`, the 16-bit displayed value computed by the
needle-following step never wraps (it stays a multiple of the step and below
the bound): with step 2 (I2C and demo) it is even and at most `VALUE_MAX`
(2000); with step 6 (USB/BT) it is a multiple of 6 and at most 2004. -/
theorem C30_needle_range (s : State) (ts : List Nat)
    (hprev : s.prevValue = 0) (ht : ∀ tv ∈ ts, tv ≤ 2000) :
    (s.appMode ≠ AppMode.MODE_USB_BT →
        (needleRun s ts).prevValue % 2 = 0 ∧ (needleRun s ts).prevValue ≤ VALUE_MAX)
      ∧ (s.appMode = AppMode.MODE_USB_BT →
        (needleRun s ts).prevValue % 6 = 0 ∧ (needleRun s ts).prevValue ≤ 2004) := by
  constructor
  · intro hm
    exact needleRun_inv s 2 2000 (by decide) (by decide) (fun p h1 h2 => by omega)
      (if_neg hm) hprev ts ht
  · intro hm
    exact needleRun_inv s 6 2004 (by decide) (by decide) (fun p h1 h2 => by omega)
      (if_pos hm) hprev ts ht

/-- C30 (amended) on the targets 2000, 2000, 0, 7 from the initial state
(I2C mode, step 2). -/
theorem C30_needle_range_witness :
    (needleRun initState [2000, 2000, 0, 7]).prevValue % 2 = 0
      ∧ (needleRun initState [2000, 2000, 0, 7]).prevValue ≤ VALUE_MAX :=
  (C30_needle_range initState [2000, 2000, 0, 7] rfl (by decide)).1 (by decide)

end TypingMeter
